import Mathlib

/-!
# rpk configuration schema (`src/go/rpk/pkg/config/schema.go`)

A shallow embedding of the configuration document of `rpk`: the structs of
`schema.go` with their `yaml` tags, and the three methods the file defines,
`Config.File`, `Config.PIDFile` and `TLS.Config`.

The methods call into libraries, which are embedded as far as the methods
reach them:

* `path.Join` and `path.Clean` of the Go standard library, byte loop by byte
  loop;
* the option pipeline of `tlscfg` (`New`, `WithFS`, `MaybeWithDiskCA`,
  `MaybeWithDiskKeyPair`), with the PEM parsers left to the host;
* the struct decoder and encoder of the YAML library, driven by the tags,
  with the conversion of scalars left to the library, and with the two
  points on which `yaml.v2` and `yaml.v3` differ as parameters.

Go strings are modelled by Lean strings.  The only bytes the path routines
inspect are `/` and `.`, which never occur inside a multi-byte UTF-8
sequence, so working on characters instead of bytes does not change the
result.  A Go pointer is an `Option`, a Go slice a `List`, a Go map the list
of its entries; where it matters which storage two values share (the working
document and its snapshot), the document is laid out in a heap of objects
(`mem`).

The definitions come first; the theorems follow, the ones that settle a
numbered claim carrying its number in their doc comment.
-/

set_option autoImplicit false

/-! ## Go standard library: package `path`

`path.Clean` reads the path byte by byte and writes into a `lazybuf`, a
buffer that shares the bytes of the input as long as what is written is a
leading part of it:

```go
func Clean(path string) string {
	if path == "" {
		return "."
	}
	rooted := path[0] == '/'
	n := len(path)
	out := lazybuf{s: path}
	r, dotdot := 0, 0
	if rooted {
		out.append('/')
		r, dotdot = 1, 1
	}
	for r < n {
		switch {
		case path[r] == '/':
			r++
		case path[r] == '.' && (r+1 == n || path[r+1] == '/'):
			r++
		case path[r] == '.' && path[r+1] == '.' && (r+2 == n || path[r+2] == '/'):
			r += 2
			switch {
			case out.w > dotdot:
				out.w--
				for out.w > dotdot && out.index(out.w) != '/' {
					out.w--
				}
			case !rooted:
				if out.w > 0 {
					out.append('/')
				}
				out.append('.')
				out.append('.')
				dotdot = out.w
			}
		default:
			if rooted && out.w != 1 || !rooted && out.w != 0 {
				out.append('/')
			}
			for ; r < n && path[r] != '/'; r++ {
				out.append(path[r])
			}
		}
	}
	if out.w == 0 {
		return "."
	}
	return out.string()
}

func Join(elem ...string) string {
	size := 0
	for _, e := range elem {
		size += len(e)
	}
	if size == 0 {
		return ""
	}
	buf := make([]byte, 0, size+len(elem)-1)
	for _, e := range elem {
		if len(buf) > 0 || e != "" {
			if len(buf) > 0 {
				buf = append(buf, '/')
			}
			buf = append(buf, e...)
		}
	}
	return Clean(string(buf))
}
```

The `lazybuf` is represented by its logical content, the bytes `0 .. w-1`
written so far, so that `out.w` is the length of the list, `out.append(c)`
adds `c` at its end and `out.string()` is the list itself.  The read index
`r` is represented by the unread input `path[r:]`.
-/

namespace path

/-- The copy loop of the default case,
`for ; r < n && path[r] != '/'; r++ { out.append(path[r]) }`: takes the
buffer and the unread input, returns both as they are after the loop. -/
def copyElem : List Char → List Char → List Char × List Char
  | out, [] => (out, [])
  | out, c :: cs => if c = '/' then (out, c :: cs) else copyElem (out ++ [c]) cs

/-- The backtracking of the `..` case on the buffer, most recent byte first,
`out.w--; for out.w > dotdot && out.index(out.w) != '/' { out.w-- }`: each
call drops one byte `b`, which is then the byte at index `out.w`, and goes on
while the length left is above `dotdot` and `b` is not a slash. -/
def backtrackRev (dotdot : Nat) : List Char → List Char
  | [] => []
  | b :: rest => if dotdot < rest.length ∧ b ≠ '/' then backtrackRev dotdot rest else rest

/-- The backtracking on the buffer in reading order. -/
def backtrack (dotdot : Nat) (out : List Char) : List Char :=
  (backtrackRev dotdot out.reverse).reverse

/-- The loop `for r < n { switch { ... } }`, on the unread input, the buffer
and `dotdot`.  Every iteration consumes at least one byte, so the fuel
`cleanChars` passes, the length of the path, is never used up
(`cleanLoop_fuel`). -/
def cleanLoop (rooted : Bool) : Nat → List Char → List Char → Nat → List Char
  | 0, _, out, _ => out
  | _ + 1, [], out, _ => out
  | fuel + 1, c :: cs, out, dotdot =>
    if c = '/' then
      -- empty path element
      cleanLoop rooted fuel cs out dotdot
    else if c = '.' ∧ (cs = [] ∨ cs.head? = some '/') then
      -- . element
      cleanLoop rooted fuel cs out dotdot
    else if c = '.' ∧ cs.head? = some '.' ∧ (cs.tail = [] ∨ cs.tail.head? = some '/') then
      -- .. element: remove to last /
      if dotdot < out.length then
        -- can backtrack
        cleanLoop rooted fuel cs.tail (backtrack dotdot out) dotdot
      else if rooted = false then
        -- cannot backtrack, but not rooted, so append .. element
        let out1 := if 0 < out.length then out ++ ['/'] else out
        let out2 := out1 ++ ['.', '.']
        cleanLoop rooted fuel cs.tail out2 out2.length
      else
        cleanLoop rooted fuel cs.tail out dotdot
    else
      -- real path element: add slash if needed, copy element
      let out1 :=
        if (rooted = true ∧ out.length ≠ 1) ∨ (rooted = false ∧ out.length ≠ 0) then
          out ++ ['/']
        else out
      cleanLoop rooted fuel (copyElem out1 (c :: cs)).2 (copyElem out1 (c :: cs)).1 dotdot

/-- `path.Clean` on the bytes of the path. -/
def cleanChars (p : List Char) : List Char :=
  if p = [] then ['.']
  else
    let rooted : Bool := p.head? = some '/'
    let out :=
      if rooted then cleanLoop rooted p.length p.tail ['/'] 1
      else cleanLoop rooted p.length p [] 0
    if out.length = 0 then ['.'] else out

/-- `path.Clean` returns the shortest path name equivalent to `p` by purely
lexical processing. -/
def Clean (p : String) : String := ⟨cleanChars p.data⟩

/-- The second loop of `path.Join`: the elements are appended to `buf` with a
slash before each one once the buffer is not empty; empty elements are
skipped while it is empty. -/
def joinBuf : List Char → List String → List Char
  | buf, [] => buf
  | buf, e :: es =>
    if 0 < buf.length ∨ e ≠ "" then
      joinBuf ((if 0 < buf.length then buf ++ ['/'] else buf) ++ e.data) es
    else joinBuf buf es

/-- `path.Join` joins the elements with slashes and cleans the result; the
result is the empty string when all elements are empty. -/
def Join (elem : List String) : String :=
  if (elem.map String.length).sum = 0 then ""
  else Clean ⟨joinBuf [] elem⟩

end path

/-! ## The configuration document -/

/-- A decoded YAML node, the content of a Go `interface{}` filled by the
YAML decoder: nil, a bool, an integer, a `float64` (kept as its 64 bits), a
string, any other scalar the decoder knows (a timestamp, binary data; kept
as its tag and its text), a sequence or a mapping. -/
inductive Value where
  | null
  | bool (b : Bool)
  | int (n : Int)
  | float (bits : Nat)
  | str (s : String)
  | scalar (tag : String) (text : String)
  | seq (xs : List Value)
  | map (kvs : List (String × Value))

/-- Go's `map[string]interface{}`, as the list of its entries. -/
abbrev OtherMap := List (String × Value)

structure SocketAddress where
  Address : String
  Port : Int

structure NamedSocketAddress where
  Address : String
  Port : Int
  Name : String

structure SeedServer where
  Host : SocketAddress

structure TLS where
  KeyFile : String
  CertFile : String
  TruststoreFile : String

structure ServerTLS where
  Name : String
  KeyFile : String
  CertFile : String
  TruststoreFile : String
  Enabled : Bool
  RequireClientAuth : Bool
  Other : OtherMap

structure SASL where
  User : String
  Password : String
  Mechanism : String

structure RedpandaConfig where
  Directory : String
  ID : Int
  Rack : String
  SeedServers : List SeedServer
  RPCServer : SocketAddress
  RPCServerTLS : List ServerTLS
  KafkaAPI : List NamedSocketAddress
  KafkaAPITLS : List ServerTLS
  AdminAPI : List NamedSocketAddress
  AdminAPITLS : List ServerTLS
  CoprocSupervisorServer : SocketAddress
  AdminAPIDocDir : String
  DashboardDir : String
  CloudStorageCacheDirectory : String
  AdvertisedRPCAPI : Option SocketAddress
  AdvertisedKafkaAPI : List NamedSocketAddress
  DeveloperMode : Bool
  Other : OtherMap

structure Pandaproxy where
  PandaproxyAPI : List NamedSocketAddress
  PandaproxyAPITLS : List ServerTLS
  AdvertisedPandaproxyAPI : List NamedSocketAddress
  Other : OtherMap

structure SchemaRegistry where
  SchemaRegistryAPI : List NamedSocketAddress
  SchemaRegistryAPITLS : List ServerTLS
  SchemaRegistryReplicationFactor : Option Int

structure KafkaClient where
  Brokers : List SocketAddress
  BrokerTLS : ServerTLS
  SASLMechanism : Option String
  SCRAMUsername : Option String
  SCRAMPassword : Option String
  Other : OtherMap

structure RpkKafkaAPI where
  Brokers : List String
  TLS : Option TLS
  SASL : Option SASL

structure RpkAdminAPI where
  Addresses : List String
  TLS : Option TLS

structure RpkConfig where
  /-- Deprecated 2021-07-1 -/
  TLS : Option TLS
  /-- Deprecated 2021-07-1 -/
  SASL : Option SASL
  KafkaAPI : RpkKafkaAPI
  AdminAPI : RpkAdminAPI
  AdditionalStartFlags : List String
  EnableUsageStats : Bool
  TuneNetwork : Bool
  TuneDiskScheduler : Bool
  TuneNomerges : Bool
  TuneDiskWriteCache : Bool
  TuneDiskIrq : Bool
  TuneFstrim : Bool
  TuneCPU : Bool
  TuneAioEvents : Bool
  TuneClocksource : Bool
  TuneSwappiness : Bool
  TuneTransparentHugePages : Bool
  EnableMemoryLocking : Bool
  TuneCoredump : Bool
  CoredumpDir : String
  TuneBallastFile : Bool
  BallastFilePath : String
  BallastFileSize : String
  WellKnownIo : String
  Overprovisioned : Bool
  SMP : Option Int

/-- The document.  `file` is the Go pointer `*Config` to the snapshot read
from the file, `none` for the nil pointer.  Here the snapshot is held by
value, which is enough to say which snapshot `File()` returns; what the
snapshot shares with the working document is the matter of `mem`. -/
structure Config where
  file : Option Config
  loadedPath : String
  NodeUUID : String
  Organization : String
  LicenseKey : String
  ClusterID : String
  ConfigFile : String
  Redpanda : RedpandaConfig
  Rpk : RpkConfig
  Pandaproxy : Option Pandaproxy
  PandaproxyClient : Option KafkaClient
  SchemaRegistry : Option SchemaRegistry
  SchemaRegistryClient : Option KafkaClient
  Other : OtherMap

/-! ### Go zero values -/

def SocketAddress.zero : SocketAddress := ⟨"", 0⟩

def ServerTLS.zero : ServerTLS := ⟨"", "", "", "", false, false, []⟩

def RedpandaConfig.zero : RedpandaConfig :=
  { Directory := "", ID := 0, Rack := "", SeedServers := [], RPCServer := SocketAddress.zero,
    RPCServerTLS := [], KafkaAPI := [], KafkaAPITLS := [], AdminAPI := [], AdminAPITLS := [],
    CoprocSupervisorServer := SocketAddress.zero, AdminAPIDocDir := "", DashboardDir := "",
    CloudStorageCacheDirectory := "", AdvertisedRPCAPI := none, AdvertisedKafkaAPI := [],
    DeveloperMode := false, Other := [] }

def RpkConfig.zero : RpkConfig :=
  { TLS := none, SASL := none, KafkaAPI := ⟨[], none, none⟩, AdminAPI := ⟨[], none⟩,
    AdditionalStartFlags := [], EnableUsageStats := false, TuneNetwork := false,
    TuneDiskScheduler := false, TuneNomerges := false, TuneDiskWriteCache := false,
    TuneDiskIrq := false, TuneFstrim := false, TuneCPU := false, TuneAioEvents := false,
    TuneClocksource := false, TuneSwappiness := false, TuneTransparentHugePages := false,
    EnableMemoryLocking := false, TuneCoredump := false, CoredumpDir := "",
    TuneBallastFile := false, BallastFilePath := "", BallastFileSize := "", WellKnownIo := "",
    Overprovisioned := false, SMP := none }

/-- The zero `Config`, what `&Config{}` allocates. -/
def Config.zero : Config :=
  { file := none, loadedPath := "", NodeUUID := "", Organization := "", LicenseKey := "",
    ClusterID := "", ConfigFile := "", Redpanda := RedpandaConfig.zero, Rpk := RpkConfig.zero,
    Pandaproxy := none, PandaproxyClient := none, SchemaRegistry := none,
    SchemaRegistryClient := none, Other := [] }

/-! ### Accessors -/

/-- `File` returns the configuration as read from a file, with no defaults
pre-deserializing and no overrides applied after.  If the return is nil, no
file was read. -/
def Config.File (c : Config) : Option Config := c.file

/-- `PIDFile`: `path.Join(c.Redpanda.Directory, "pid.lock")`. -/
def Config.PIDFile (c : Config) : String :=
  path.Join [c.Redpanda.Directory, "pid.lock"]

/-! ## Path elements -/

namespace path

/-- The elements of a path: the pieces between its slashes. -/
def elements : List Char → List (List Char)
  | [] => [[]]
  | c :: cs =>
    if c = '/' then [] :: elements cs
    else
      match elements cs with
      | [] => [[c]]
      | e :: es => (c :: e) :: es

/-- The elements put back together, one slash between neighbours. -/
def joinElems : List (List Char) → List Char
  | [] => []
  | [e] => e
  | e :: e2 :: es => e ++ '/' :: joinElems (e2 :: es)

/-- A real path element: not empty, without slash, neither `.` nor `..`. -/
def IsName (e : List Char) : Prop :=
  e ≠ [] ∧ '/' ∉ e ∧ e ≠ ['.'] ∧ e ≠ ['.', '.']

/-- A clean absolute path other than `/`: it starts with a slash, has no
trailing slash, and none of its elements is empty, `.` or `..`. -/
def IsCleanAbs (d : String) : Prop :=
  d.data.head? = some '/' ∧ d ≠ "/" ∧ d.data.getLast? ≠ some '/' ∧
    ∀ e ∈ elements d.data.tail, e ≠ [] ∧ e ≠ ['.'] ∧ e ≠ ['.', '.']

instance IsCleanAbs.decidable (d : String) : Decidable (IsCleanAbs d) := by
  unfold IsCleanAbs; infer_instance

/-- A path whose last element is `pid.lock`. -/
def EndsPidLock (r : List Char) : Prop :=
  r = "pid.lock".data ∨ ∃ pre, r = pre ++ '/' :: "pid.lock".data

end path

/-- The call `c.PIDFile()` seen as a step on the receiver `c *Config`: the
returned string together with the document after the call.  The body of
`PIDFile` holds no assignment, so the document is handed back as it was. -/
def Config.callPIDFile (c : Config) : String × Config := (c.PIDFile, c)

/-! ## TLS materialisation: `crypto/tls`, `afero`, `tlscfg`

`TLS.Config` hands three options to `tlscfg.New`, a library outside the
repository:

```go
func (t *TLS) Config(fs afero.Fs) (*tls.Config, error) {
	if t == nil {
		return nil, nil
	}
	return tlscfg.New(
		tlscfg.WithFS(tlscfg.FuncFS(func(path string) ([]byte, error) {
			return afero.ReadFile(fs, path)
		})),
		tlscfg.MaybeWithDiskCA(t.TruststoreFile, tlscfg.ForClient),
		tlscfg.MaybeWithDiskKeyPair(t.CertFile, t.KeyFile),
	)
}
```

The library is embedded from its documented behaviour: `New` starts from a
fresh `tls.Config` and applies the options in the order given, returning
`(nil, err)` at the first one that fails; a `Maybe` option does nothing when
its paths are empty; `MaybeWithDiskKeyPair` fails when exactly one of its two
paths is empty; files are read through the file system set by `WithFS`.
A file system is a function from paths to contents or errors, and every read
is recorded, so that "no file is read" can be stated.
-/

/-- The content of a file. -/
abbrev Bytes := List UInt8

namespace tls

/-- `tls.Certificate`: a certificate chain and its private key, kept as the
two PEM blocks `tls.X509KeyPair` parsed. -/
structure Certificate where
  certPEMBlock : Bytes
  keyPEMBlock : Bytes
  deriving DecidableEq

/-- `tls.Config`, restricted to the fields the options below assign.  A
certificate pool is the list of PEM bundles appended to it; a nil `RootCAs`
makes the client use the root set of the host. -/
structure Config where
  Certificates : List Certificate
  RootCAs : Option (List Bytes)
  ClientCAs : Option (List Bytes)
  deriving DecidableEq

end tls

namespace afero

/-- `afero.Fs` as `afero.ReadFile` sees it: the content of the file at a
path, or the error of reading it. -/
abbrev Fs := String → Except String Bytes

/-- `afero.ReadFile(fs, path)`. -/
def ReadFile (fs : Fs) (path : String) : Except String Bytes := fs path

end afero

namespace tlscfg

/-- The errors of the option pipeline, by kind.
* `IncompleteKeyPair`: "both cert and key paths must be specified, but saw
  only one";
* `CredentialReadFailure path cause`: a file could not be read, with the
  path and the error of the file system;
* `InvalidCA`, `InvalidKeyPair`: the content read is not usable PEM. -/
inductive Error where
  | IncompleteKeyPair
  | CredentialReadFailure (path : String) (cause : String)
  | InvalidCA
  | InvalidKeyPair
  deriving DecidableEq

/-- `tlscfg.FS`: the interface with the single method `ReadFile`. -/
abbrev FS := String → Except String Bytes

/-- `tlscfg.FuncFS`: a function used as an `FS`. -/
def FuncFS (f : String → Except String Bytes) : FS := f

/-- What `tlscfg` takes from its host: the default file system
(`os.ReadFile`) and the PEM parsers of `crypto/x509` and `crypto/tls`. -/
structure Host where
  readFile : FS
  appendCertsFromPEM : Bytes → Bool
  X509KeyPair : Bytes → Bytes → Bool

/-- `ForKind`: whether a CA is for a server or for a client configuration. -/
inductive ForKind where
  | ForServer
  | ForClient
  deriving DecidableEq

/-- The configuration under construction: the `*tls.Config`, the file system
in use, and the record of the paths read so far (oldest first). -/
structure cfg where
  c : tls.Config
  fs : FS
  reads : List String

/-- An option: a step on the `cfg` that may return an error. -/
abbrev Opt := cfg → cfg × Option Error

/-- A read through the file system of the `cfg`; the path is recorded. -/
def cfg.ReadFile (c : cfg) (path : String) : cfg × Except String Bytes :=
  ({ c with reads := c.reads ++ [path] }, c.fs path)

/-- `WithFS` sets the file system the later options read from. -/
def WithFS (fs : FS) : Opt := fun c => ({ c with fs := fs }, none)

/-- `WithCA` parses a PEM encoded CA and adds it to the pool chosen by
`forKind`: `ClientCAs` for a server, `RootCAs` for a client. -/
def WithCA (h : Host) (ca : Bytes) (forKind : ForKind) : Opt := fun c =>
  if h.appendCertsFromPEM ca then
    match forKind with
    | .ForServer =>
      ({ c with c := { c.c with ClientCAs := some (c.c.ClientCAs.getD [] ++ [ca]) } }, none)
    | .ForClient =>
      ({ c with c := { c.c with RootCAs := some (c.c.RootCAs.getD [] ++ [ca]) } }, none)
  else (c, some .InvalidCA)

/-- `WithKeyPair` parses a PEM encoded certificate and key and appends the
pair to `Certificates`. -/
def WithKeyPair (h : Host) (cert key : Bytes) : Opt := fun c =>
  if h.X509KeyPair cert key then
    ({ c with c := { c.c with Certificates := c.c.Certificates ++ [⟨cert, key⟩] } }, none)
  else (c, some .InvalidKeyPair)

/-- `MaybeWithDiskCA` loads a CA from disk; a no-op when the path is empty. -/
def MaybeWithDiskCA (h : Host) (path : String) (forKind : ForKind) : Opt := fun c =>
  if path = "" then (c, none)
  else
    match c.ReadFile path with
    | (c1, .error e) => (c1, some (.CredentialReadFailure path e))
    | (c1, .ok ca) => WithCA h ca forKind c1

/-- `MaybeWithDiskKeyPair` loads a certificate and its key from disk; a
no-op when both paths are empty, an error when exactly one is. -/
def MaybeWithDiskKeyPair (h : Host) (certPath keyPath : String) : Opt := fun c =>
  if certPath = "" ∧ keyPath = "" then (c, none)
  else if certPath = "" ∨ keyPath = "" then (c, some .IncompleteKeyPair)
  else
    match c.ReadFile certPath with
    | (c1, .error e) => (c1, some (.CredentialReadFailure certPath e))
    | (c1, .ok cert) =>
      match c1.ReadFile keyPath with
      | (c2, .error e) => (c2, some (.CredentialReadFailure keyPath e))
      | (c2, .ok key) => WithKeyPair h cert key c2

/-- The loop of `New`: the options are applied in the order given and the
first error stops the loop. -/
def applyOpts : List Opt → cfg → cfg × Option Error
  | [], c => (c, none)
  | o :: os, c =>
    match o c with
    | (c1, none) => applyOpts os c1
    | (c1, some e) => (c1, some e)

/-- What a call returns, Go's pair `(*tls.Config, error)`, and the paths it
read on the way. -/
structure Outcome where
  config : Option tls.Config
  err : Option Error
  reads : List String
  deriving DecidableEq

/-- `tlscfg.New` creates a `*tls.Config` with the options applied; it returns
`(nil, err)` on the first option that fails. -/
def New (h : Host) (opts : List Opt) : Outcome :=
  match applyOpts opts ⟨⟨[], none, none⟩, h.readFile, []⟩ with
  | (c, none) => ⟨some c.c, none, c.reads⟩
  | (c, some e) => ⟨none, some e, c.reads⟩

end tlscfg

/-- `TLS.Config`: nothing for a nil descriptor, else the client
configuration built from the truststore and the key pair, every file being
read through `fs`. -/
def TLS.Config (h : tlscfg.Host) (t : Option TLS) (fs : afero.Fs) : tlscfg.Outcome :=
  match t with
  | none => ⟨none, none, []⟩
  | some t =>
    tlscfg.New h
      [ tlscfg.WithFS (tlscfg.FuncFS fun path => afero.ReadFile fs path),
        tlscfg.MaybeWithDiskCA h t.TruststoreFile tlscfg.ForKind.ForClient,
        tlscfg.MaybeWithDiskKeyPair h t.CertFile t.KeyFile ]

/-- A file system on which every read fails. -/
def afero.failing : afero.Fs := fun _ => .error "file does not exist"

/-- A host whose disk is empty and whose parsers accept everything. -/
def tlscfg.Host.lenient : tlscfg.Host :=
  ⟨fun _ => .error "file does not exist", fun _ => true, fun _ _ => true⟩

/-! ## The snapshot read from the file -/

/-- Modelled from the spec: `setPristine(doc)`, the assignment of the
as-parsed document to the private field `file`, done by the loader (the
loader is not part of `schema.go`).  Here the snapshot is stored as a value;
in memory it is the write of a pointer to the field `file` (`mem.Write`). -/
def Config.setPristine (c : Config) (doc : Config) : Config := { c with file := some doc }

/-- An assignment `c.Field = v` to one exported field of the working
document, which replaces the value of the field.  (The updates that go
through a map, a slice or a pointer of the document are the writes of
`mem`.) -/
inductive ConfigUpdate where
  | NodeUUID (v : String)
  | Organization (v : String)
  | LicenseKey (v : String)
  | ClusterID (v : String)
  | ConfigFile (v : String)
  | Redpanda (v : RedpandaConfig)
  | Rpk (v : RpkConfig)
  | Pandaproxy (v : Option Pandaproxy)
  | PandaproxyClient (v : Option KafkaClient)
  | SchemaRegistry (v : Option SchemaRegistry)
  | SchemaRegistryClient (v : Option KafkaClient)
  | Other (v : OtherMap)

/-- The document after the assignment `c.Field = v`. -/
def Config.assign (c : Config) : ConfigUpdate → Config
  | .NodeUUID v => { c with NodeUUID := v }
  | .Organization v => { c with Organization := v }
  | .LicenseKey v => { c with LicenseKey := v }
  | .ClusterID v => { c with ClusterID := v }
  | .ConfigFile v => { c with ConfigFile := v }
  | .Redpanda v => { c with Redpanda := v }
  | .Rpk v => { c with Rpk := v }
  | .Pandaproxy v => { c with Pandaproxy := v }
  | .PandaproxyClient v => { c with PandaproxyClient := v }
  | .SchemaRegistry v => { c with SchemaRegistry := v }
  | .SchemaRegistryClient v => { c with SchemaRegistryClient := v }
  | .Other v => { c with Other := v }

/-- What happens to a document during a run: the loader sets the snapshot,
or some exported field is assigned. -/
inductive ConfigEvent where
  | setPristine (doc : Config)
  | assign (u : ConfigUpdate)

/-- The document after one event. -/
def Config.step (c : Config) : ConfigEvent → Config
  | .setPristine doc => c.setPristine doc
  | .assign u => c.assign u

/-- The document after a sequence of events, oldest first. -/
def Config.run (c : Config) (evs : List ConfigEvent) : Config := evs.foldl Config.step c

/-- The snapshot set last by a sequence of events, if any set one. -/
def Config.lastPristine : List ConfigEvent → Option Config
  | [] => none
  | .setPristine doc :: evs => (Config.lastPristine evs).orElse (fun _ => some doc)
  | .assign _ :: evs => Config.lastPristine evs

/-! ## Deprecated fields of the rpk block -/

/-- The zero values of the two credential blocks. -/
def TLS.isZero (t : TLS) : Bool := t.KeyFile = "" ∧ t.CertFile = "" ∧ t.TruststoreFile = ""

def SASL.isZero (s : SASL) : Bool := s.User = "" ∧ s.Password = "" ∧ s.Mechanism = ""

/-- Modelled from the spec: deprecated-field resolution (the resolution is
done by the consumers of the document, `schema.go` only declares the
fields): "if the new per-API field is present and non-empty, use it;
otherwise, if the legacy field is present, use it; otherwise, the API has no
TLS/SASL configured." -/
def resolveDeprecated {α : Type} (isEmpty : α → Bool) (perAPI legacy : Option α) : Option α :=
  match perAPI with
  | some v => if isEmpty v then legacy else some v
  | none => legacy

/-- Modelled from the spec: the TLS settings in force for the Kafka API. -/
def rpkKafkaTLS (r : RpkConfig) : Option TLS :=
  resolveDeprecated TLS.isZero r.KafkaAPI.TLS r.TLS

/-- Modelled from the spec: the SASL settings in force for the Kafka API. -/
def rpkKafkaSASL (r : RpkConfig) : Option SASL :=
  resolveDeprecated SASL.isZero r.KafkaAPI.SASL r.SASL

/-- Modelled from the spec: the TLS settings in force for the Admin API. -/
def rpkAdminTLS (r : RpkConfig) : Option TLS :=
  resolveDeprecated TLS.isZero r.AdminAPI.TLS r.TLS

/-- Modelled from the spec: a consumer resolving the three settings on a
document, as a step on the document: the resolved values and the document
after the resolution, which is lazy and migrates nothing. -/
def resolveRpk (c : Config) : (Option TLS × Option SASL × Option TLS) × Config :=
  ((rpkKafkaTLS c.Rpk, rpkKafkaSASL c.Rpk, rpkAdminTLS c.Rpk), c)


/-! ## The document in memory

`file *Config` is a pointer, `File()` hands out that pointer, and the
document holds pointers, maps and slices, all of which refer to storage that
two documents can share.  To speak of updates that reach the snapshot
through shared storage, the document is also laid out in a heap of objects:

* a struct that a pointer points to is an object holding its fields by name,
  the fields of the structs nested in it by value under dotted names
  (`Redpanda.Directory`);
* a map is an object holding its entries;
* the array under a slice is an object holding its elements, each a struct.

A field, an entry or an element holds a scalar, or a reference to an object
(a pointer or a map; `none` is nil), or a slice (the array, the offset and
the length).
-/

namespace mem

/-- The address of an object. -/
abbrev Ref := Nat

/-- A scalar held in memory. -/
inductive Scalar where
  | nil
  | bool (b : Bool)
  | int (n : Int)
  | float (bits : Nat)
  | str (s : String)
  deriving DecidableEq

/-- What a field of a struct, an entry of a map or an element of an array
holds. -/
inductive Slot where
  | scalar (s : Scalar)
  | ref (r : Option Ref)
  | slice (array : Option Ref) (off len : Nat)
  deriving DecidableEq

/-- The fields of a struct, by name. -/
abbrev Fields := List (String × Slot)

/-- An object of the heap. -/
inductive Obj where
  | struct (fields : Fields)
  | map (entries : List (String × Slot))
  | array (elems : List Fields)
  deriving DecidableEq

/-- The heap: the object at each address in use. -/
abbrev Heap := Ref → Option Obj

/-- The objects a slot refers to. -/
def Slot.refs : Slot → List Ref
  | .scalar _ => []
  | .ref r => r.toList
  | .slice a _ _ => a.toList

/-- The objects the slots of a struct refer to. -/
def Fields.refs (fs : Fields) : List Ref := fs.flatMap fun p => p.2.refs

/-- The objects an object refers to. -/
def Obj.refs : Obj → List Ref
  | .struct fs => Fields.refs fs
  | .map es => Fields.refs es
  | .array xs => xs.flatMap Fields.refs

/-- The objects reachable from `a`: `a` itself, and what an object reachable
from `a` refers to. -/
inductive Reach (H : Heap) (a : Ref) : Ref → Prop where
  | refl : Reach H a a
  | step {b r : Ref} (o : Obj) : Reach H a b → H b = some o → r ∈ o.refs → Reach H a r

/-- The kind of a field of a struct in memory. -/
inductive Kind where
  | str
  | int
  | bool
  | ptr
  | map
  | slice
  deriving DecidableEq

/-- The zero value of a field of a kind. -/
def Kind.zero : Kind → Slot
  | .str => .scalar (.str "")
  | .int => .scalar (.int 0)
  | .bool => .scalar (.bool false)
  | .ptr => .ref none
  | .map => .ref none
  | .slice => .slice none 0 0

/-- The fields of `Config` in memory, in the order of the declaration:
the two unexported fields `file` and `loadedPath`, then the exported ones,
`Redpanda RedpandaConfig` and `Rpk RpkConfig` (and the structs nested in
them) field by field. -/
def Config.layout : List (String × Kind) :=
  [ ("file", .ptr), ("loadedPath", .str),
    ("NodeUUID", .str), ("Organization", .str),
    ("LicenseKey", .str), ("ClusterID", .str),
    ("ConfigFile", .str), ("Redpanda.Directory", .str),
    ("Redpanda.ID", .int), ("Redpanda.Rack", .str),
    ("Redpanda.SeedServers", .slice), ("Redpanda.RPCServer.Address", .str),
    ("Redpanda.RPCServer.Port", .int), ("Redpanda.RPCServerTLS", .slice),
    ("Redpanda.KafkaAPI", .slice), ("Redpanda.KafkaAPITLS", .slice),
    ("Redpanda.AdminAPI", .slice), ("Redpanda.AdminAPITLS", .slice),
    ("Redpanda.CoprocSupervisorServer.Address", .str),
    ("Redpanda.CoprocSupervisorServer.Port", .int),
    ("Redpanda.AdminAPIDocDir", .str), ("Redpanda.DashboardDir", .str),
    ("Redpanda.CloudStorageCacheDirectory", .str), ("Redpanda.AdvertisedRPCAPI", .ptr),
    ("Redpanda.AdvertisedKafkaAPI", .slice), ("Redpanda.DeveloperMode", .bool),
    ("Redpanda.Other", .map), ("Rpk.TLS", .ptr),
    ("Rpk.SASL", .ptr), ("Rpk.KafkaAPI.Brokers", .slice),
    ("Rpk.KafkaAPI.TLS", .ptr), ("Rpk.KafkaAPI.SASL", .ptr),
    ("Rpk.AdminAPI.Addresses", .slice), ("Rpk.AdminAPI.TLS", .ptr),
    ("Rpk.AdditionalStartFlags", .slice), ("Rpk.EnableUsageStats", .bool),
    ("Rpk.TuneNetwork", .bool), ("Rpk.TuneDiskScheduler", .bool),
    ("Rpk.TuneNomerges", .bool), ("Rpk.TuneDiskWriteCache", .bool),
    ("Rpk.TuneDiskIrq", .bool), ("Rpk.TuneFstrim", .bool),
    ("Rpk.TuneCPU", .bool), ("Rpk.TuneAioEvents", .bool),
    ("Rpk.TuneClocksource", .bool), ("Rpk.TuneSwappiness", .bool),
    ("Rpk.TuneTransparentHugePages", .bool), ("Rpk.EnableMemoryLocking", .bool),
    ("Rpk.TuneCoredump", .bool), ("Rpk.CoredumpDir", .str),
    ("Rpk.TuneBallastFile", .bool), ("Rpk.BallastFilePath", .str),
    ("Rpk.BallastFileSize", .str), ("Rpk.WellKnownIo", .str),
    ("Rpk.Overprovisioned", .bool), ("Rpk.SMP", .ptr),
    ("Pandaproxy", .ptr), ("PandaproxyClient", .ptr),
    ("SchemaRegistry", .ptr), ("SchemaRegistryClient", .ptr),
    ("Other", .map) ]

/-- The fields of `Config` that are not exported. -/
def Config.unexported : List String := ["file", "loadedPath"]

/-- The zero `Config` in memory. -/
def Config.zero : Fields := Config.layout.map fun p => (p.1, p.2.zero)

/-- The fields with the field `name` set to `s`. -/
def setSlot (name : String) (s : Slot) : Fields → Fields
  | [] => []
  | (n, x) :: fs => if n = name then (n, s) :: fs else (n, x) :: setSlot name s fs

/-- The entries of a map after `m[k] = s`. -/
def setEntry (k : String) (s : Slot) (es : List (String × Slot)) : List (String × Slot) :=
  es.filter (fun e => e.1 ≠ k) ++ [(k, s)]

/-- The pointer `c.file` of the document at `c`: what `File()` returns. -/
def File (H : Heap) (c : Ref) : Option Ref :=
  match H c with
  | some (.struct fs) =>
    match fs.lookup "file" with
    | some (.ref r) => r
    | _ => none
  | _ => none

/-- The object behind the field `name` of the struct at `c`. -/
def behind (H : Heap) (c : Ref) (name : String) : Option Obj :=
  match H c with
  | some (.struct fs) =>
    match fs.lookup name with
    | some (.ref (some r)) => H r
    | _ => none
  | _ => none

/-- A write to memory:
* `field r name s`: `p.name = s` on the struct at `r`;
* `index r k s`: `m[k] = s` on the map at `r`;
* `delete r k`: `delete(m, k)` on the map at `r`;
* `elem r i name s`: `a[i].name = s` on the array at `r`;
* `alloc r o`: a new object `o` at the address `r`, which is not in use. -/
inductive Write where
  | field (r : Ref) (name : String) (s : Slot)
  | index (r : Ref) (k : String) (s : Slot)
  | delete (r : Ref) (k : String)
  | elem (r : Ref) (i : Nat) (name : String) (s : Slot)
  | alloc (r : Ref) (o : Obj)

/-- The object a write goes to. -/
def Write.target : Write → Ref
  | .field r _ _ => r
  | .index r _ _ => r
  | .delete r _ => r
  | .elem r _ _ _ => r
  | .alloc r _ => r

/-- What a write makes of the object at its target (`none`: no object
there). -/
def Write.on : Write → Option Obj → Option Obj
  | .field _ name s, some (.struct fs) => some (.struct (setSlot name s fs))
  | .index _ k s, some (.map es) => some (.map (setEntry k s es))
  | .delete _ k, some (.map es) => some (.map (es.filter fun e => e.1 ≠ k))
  | .elem _ i name s, some (.array xs) => some (.array (xs.modify (setSlot name s) i))
  | .alloc _ o, none => some o
  | _, x => x

/-- The heap after a write. -/
def Write.apply (w : Write) (H : Heap) : Heap :=
  fun r => if r = w.target then w.on (H r) else H r

/-- The heap after a sequence of writes, oldest first. -/
def run (ws : List Write) (H : Heap) : Heap := ws.foldl (fun h w => w.apply h) H

/-- A write that is an update of the document at `c` through its exported
fields: it does not assign a field of the struct at `c` that is not
exported. -/
def Write.exported (c : Ref) : Write → Prop
  | .field r name _ => r = c → name ∉ Config.unexported
  | _ => True

instance Write.exported.decidable (c : Ref) (w : Write) : Decidable (w.exported c) := by
  cases w <;> unfold Write.exported <;> infer_instance

/-- A heap with a working document at 0 and its snapshot at 1, which share no
storage: the snapshot holds the map at 2 in `Other`, the working document the
map at 3. -/
def sampleHeap : Heap := fun r =>
  match r with
  | 0 => some (.struct (setSlot "Other" (.ref (some 3))
      (setSlot "file" (.ref (some 1)) Config.zero)))
  | 1 => some (.struct (setSlot "Other" (.ref (some 2)) Config.zero))
  | 2 => some (.map [("extra_feature_flag", .scalar (.bool true))])
  | 3 => some (.map [("extra_feature_flag", .scalar (.bool true))])
  | _ => none

/-- The two updates `c.Other = c.File().Other; c.Other["k"] = "v"` on the
sample heap. -/
def sharingWrites : List Write :=
  [.field 0 "Other" (.ref (some 2)), .index 2 "k" (.scalar (.str "v"))]

/-- The two updates `c.NodeUUID = "n1"; c.Other["k"] = "v"` on the sample
heap. -/
def ownWrites : List Write :=
  [.field 0 "NodeUUID" (.scalar (.str "n1")), .index 3 "k" (.scalar (.str "v"))]

end mem

/-! ## The YAML codec of the document

The document is read and written by the YAML library, which works from the
`yaml` tags of the structs.  The library is outside the repository; what is
embedded here is its documented treatment of structs:

* a mapping is decoded entry by entry, in order; an entry whose key is the
  tag of a named field is decoded into that field; any other entry is stored
  in the map field tagged `,inline` when the struct has one, and is ignored
  when it has none;
* a struct is encoded to a mapping of its named fields, in order, a field
  tagged `omitempty` being left out when it holds its zero value, followed by
  the entries of the inline map.

The conversion of scalars is the business of the library and stays a
parameter, as do the two points on which `yaml.v2` and `yaml.v3` differ, the
treatment of a null node for a struct and of a key that occurs twice
(`yaml.Leaf`); nodes are held in decoded form (`Value`).  Only the
order of the entries of the inline map is not the library's (which sorts
them): the order of the entries of a mapping carries no meaning.
-/

namespace yaml

/-- The keys of a list of entries. -/
def keysOf (m : List (String × Value)) : List String := m.map Prod.fst

/-- What the decoder leaves to the library, and where the versions of the
library differ:

* `str`, `int`, `bool`: the conversion of a node into a field of one of the
  three scalar Go types the document uses, given what the field holds;
* `nullKeeps`: whether a null node leaves a struct as it is (`yaml.v3`) or
  resets it to its zero value (`yaml.v2`);
* `uniqueKeys`: whether a mapping in which a key occurs twice is refused
  (`yaml.v3`) or decoded entry by entry, the later entry winning
  (`yaml.v2`). -/
structure Leaf where
  str : String → Value → Option String
  int : Int → Value → Option Int
  bool : Bool → Value → Option Bool
  nullKeeps : Bool
  uniqueKeys : Bool

/-- The library as `yaml.v2` behaves, with scalar conversions that accept a
scalar of the very type only. -/
def Leaf.v2 : Leaf where
  str := fun _ v => match v with
    | .str s => some s
    | .null => some ""
    | _ => none
  int := fun _ v => match v with
    | .int n => some n
    | .null => some 0
    | _ => none
  bool := fun _ v => match v with
    | .bool b => some b
    | .null => some false
    | _ => none
  nullKeeps := false
  uniqueKeys := false

/-- The library as `yaml.v3` behaves, with scalar conversions that accept a
scalar of the very type only. -/
def Leaf.v3 : Leaf where
  str := fun cur v => match v with
    | .str s => some s
    | .null => some cur
    | _ => none
  int := fun cur v => match v with
    | .int n => some n
    | .null => some cur
    | _ => none
  bool := fun cur v => match v with
    | .bool b => some b
    | .null => some cur
    | _ => none
  nullKeeps := true
  uniqueKeys := true

/-- The elements of a sequence decoded one by one. -/
def sliceOf {α : Type} (f : Value → Option α) : List Value → Option (List α)
  | [] => some []
  | x :: xs =>
    match f x, sliceOf f xs with
    | some a, some as => some (a :: as)
    | _, _ => none

/-- A node decoded into a slice: a sequence gives its elements, null the nil
slice. -/
def slice {α : Type} (f : Value → Option α) : Value → Option (List α)
  | .seq xs => sliceOf f xs
  | .null => some []
  | _ => none

/-- A node decoded into a pointer: null gives nil, anything else is decoded
into the value pointed to, allocated first when the pointer is nil. -/
def ptr {α : Type} (unm : α → Value → Option α) (zero : α) (cur : Option α) :
    Value → Option (Option α)
  | .null => some none
  | v => (unm (cur.getD zero) v).map some

/-- A pointer encoded: nil gives null. -/
def ofPtr {α : Type} (f : α → Value) : Option α → Value
  | none => .null
  | some x => f x

/-- `m[k] = v` on a Go map. -/
def setMapIndex (m : OtherMap) (k : String) (v : Value) : OtherMap :=
  m.filter (fun kv => kv.1 ≠ k) ++ [(k, v)]

/-- The value under a key of a mapping node. -/
def Value.get (k : String) : Value → Option Value
  | .map m => (m.find? (fun kv => kv.1 = k)).map (fun kv => kv.2)
  | _ => none

/-- The entries of a mapping node. -/
def Value.entries : Value → List (String × Value)
  | .map m => m
  | _ => []

/-- A step into a node: the value under a key of a mapping, or the element
at an index of a sequence. -/
inductive Step where
  | key (k : String)
  | idx (i : Nat)

/-- The node a path leads to. -/
def Value.at : List Step → Value → Option Value
  | [], v => some v
  | .key k :: p, v => (Value.get k v).bind (Value.at p)
  | .idx i :: p, .seq xs => (xs.get? i).bind (Value.at p)
  | .idx _ :: _, _ => none

/-- Every mapping a path walks through, and the one it leads to, has
distinct keys. -/
def DistinctKeysAlong : List Step → Value → Prop
  | [], v => (keysOf (Value.entries v)).Nodup
  | .key k :: p, v =>
    (keysOf (Value.entries v)).Nodup ∧ ∀ w, Value.get k v = some w → DistinctKeysAlong p w
  | .idx i :: p, .seq xs => ∀ w, xs.get? i = some w → DistinctKeysAlong p w
  | .idx _ :: _, _ => True

end yaml

/-! ### Zero values of the remaining blocks -/

def NamedSocketAddress.zero : NamedSocketAddress :=
  { Address := "", Port := 0, Name := "" }

def SeedServer.zero : SeedServer :=
  { Host := SocketAddress.zero }

def TLS.zero : TLS :=
  { KeyFile := "", CertFile := "", TruststoreFile := "" }

def SASL.zero : SASL :=
  { User := "", Password := "", Mechanism := "" }

def Pandaproxy.zero : Pandaproxy :=
  { PandaproxyAPI := [], PandaproxyAPITLS := [], AdvertisedPandaproxyAPI := [],
    Other := [] }

def SchemaRegistry.zero : SchemaRegistry :=
  { SchemaRegistryAPI := [], SchemaRegistryAPITLS := [], SchemaRegistryReplicationFactor := none }

def KafkaClient.zero : KafkaClient :=
  { Brokers := [], BrokerTLS := ServerTLS.zero, SASLMechanism := none,
    SCRAMUsername := none, SCRAMPassword := none, Other := [] }

def RpkKafkaAPI.zero : RpkKafkaAPI :=
  { Brokers := [], TLS := none, SASL := none }

def RpkAdminAPI.zero : RpkAdminAPI :=
  { Addresses := [], TLS := none }

/-! ### Decoding and encoding, block by block -/

/-- The YAML keys the named fields of `SocketAddress` claim (their `yaml` tags). -/
def yaml.SocketAddress.keys : List String :=
  ["address", "port"]

/-- The named fields of `SocketAddress` as the decoder sees them: the key of each
(its `yaml` tag) and how a node is decoded into it. -/
def yaml.SocketAddress.fields (L : yaml.Leaf) :
    List (String × (SocketAddress → Value → Option SocketAddress)) :=
  [ ("address", fun out v =>
      (L.str out.Address v).map fun x => { out with Address := x }),
    ("port", fun out v =>
      (L.int out.Port v).map fun x => { out with Port := x }) ]

/-- One entry of a mapping decoded into a `SocketAddress`: a key of a named field sets
the field, any other key is ignored, the type having no inline map. -/
def yaml.SocketAddress.setField (L : yaml.Leaf) (out : SocketAddress) (k : String)
    (v : Value) : Option SocketAddress :=
  match (yaml.SocketAddress.fields L).lookup k with
  | some set => set out v
  | none => some out

/-- A YAML node decoded into a `SocketAddress`: a mapping entry by entry, null as
the library has it, nothing else. -/
def yaml.SocketAddress.unmarshal (L : yaml.Leaf) (out : SocketAddress) :
    Value → Option SocketAddress
  | .map m =>
    if L.uniqueKeys = true ∧ ¬ (yaml.keysOf m).Nodup then none
    else m.foldlM (fun acc kv => yaml.SocketAddress.setField L acc kv.1 kv.2) out
  | .null => some (if L.nullKeeps = true then out else SocketAddress.zero)
  | _ => none

/-- Whether a `SocketAddress` is the zero value, as `omitempty` tests it. -/
def yaml.SocketAddress.isZero (x : SocketAddress) : Bool :=
  decide (x.Address = ""
    ∧ x.Port = 0)

/-- The mapping a `SocketAddress` is encoded to: the named fields in order. -/
def yaml.SocketAddress.marshal (x : SocketAddress) : Value :=
  .map (
    [("address", Value.str x.Address)]
    ++ [("port", Value.int x.Port)])

/-- The YAML keys the named fields of `NamedSocketAddress` claim (their `yaml` tags). -/
def yaml.NamedSocketAddress.keys : List String :=
  ["address", "port", "name"]

/-- The named fields of `NamedSocketAddress` as the decoder sees them: the key of each
(its `yaml` tag) and how a node is decoded into it. -/
def yaml.NamedSocketAddress.fields (L : yaml.Leaf) :
    List (String × (NamedSocketAddress → Value → Option NamedSocketAddress)) :=
  [ ("address", fun out v =>
      (L.str out.Address v).map fun x => { out with Address := x }),
    ("port", fun out v =>
      (L.int out.Port v).map fun x => { out with Port := x }),
    ("name", fun out v =>
      (L.str out.Name v).map fun x => { out with Name := x }) ]

/-- One entry of a mapping decoded into a `NamedSocketAddress`: a key of a named field sets
the field, any other key is ignored, the type having no inline map. -/
def yaml.NamedSocketAddress.setField (L : yaml.Leaf) (out : NamedSocketAddress) (k : String)
    (v : Value) : Option NamedSocketAddress :=
  match (yaml.NamedSocketAddress.fields L).lookup k with
  | some set => set out v
  | none => some out

/-- A YAML node decoded into a `NamedSocketAddress`: a mapping entry by entry, null as
the library has it, nothing else. -/
def yaml.NamedSocketAddress.unmarshal (L : yaml.Leaf) (out : NamedSocketAddress) :
    Value → Option NamedSocketAddress
  | .map m =>
    if L.uniqueKeys = true ∧ ¬ (yaml.keysOf m).Nodup then none
    else m.foldlM (fun acc kv => yaml.NamedSocketAddress.setField L acc kv.1 kv.2) out
  | .null => some (if L.nullKeeps = true then out else NamedSocketAddress.zero)
  | _ => none

/-- Whether a `NamedSocketAddress` is the zero value, as `omitempty` tests it. -/
def yaml.NamedSocketAddress.isZero (x : NamedSocketAddress) : Bool :=
  decide (x.Address = ""
    ∧ x.Port = 0
    ∧ x.Name = "")

/-- The mapping a `NamedSocketAddress` is encoded to: the named fields in order. -/
def yaml.NamedSocketAddress.marshal (x : NamedSocketAddress) : Value :=
  .map (
    [("address", Value.str x.Address)]
    ++ [("port", Value.int x.Port)]
    ++ (if x.Name = "" then []
        else [("name",
          Value.str x.Name)]))

/-- The YAML keys the named fields of `SeedServer` claim (their `yaml` tags). -/
def yaml.SeedServer.keys : List String :=
  ["host"]

/-- The named fields of `SeedServer` as the decoder sees them: the key of each
(its `yaml` tag) and how a node is decoded into it. -/
def yaml.SeedServer.fields (L : yaml.Leaf) :
    List (String × (SeedServer → Value → Option SeedServer)) :=
  [ ("host", fun out v =>
      (yaml.SocketAddress.unmarshal L out.Host v).map fun x => { out with Host := x }) ]

/-- One entry of a mapping decoded into a `SeedServer`: a key of a named field sets
the field, any other key is ignored, the type having no inline map. -/
def yaml.SeedServer.setField (L : yaml.Leaf) (out : SeedServer) (k : String)
    (v : Value) : Option SeedServer :=
  match (yaml.SeedServer.fields L).lookup k with
  | some set => set out v
  | none => some out

/-- A YAML node decoded into a `SeedServer`: a mapping entry by entry, null as
the library has it, nothing else. -/
def yaml.SeedServer.unmarshal (L : yaml.Leaf) (out : SeedServer) :
    Value → Option SeedServer
  | .map m =>
    if L.uniqueKeys = true ∧ ¬ (yaml.keysOf m).Nodup then none
    else m.foldlM (fun acc kv => yaml.SeedServer.setField L acc kv.1 kv.2) out
  | .null => some (if L.nullKeeps = true then out else SeedServer.zero)
  | _ => none

/-- Whether a `SeedServer` is the zero value, as `omitempty` tests it. -/
def yaml.SeedServer.isZero (x : SeedServer) : Bool :=
  decide (yaml.SocketAddress.isZero x.Host = true)

/-- The mapping a `SeedServer` is encoded to: the named fields in order. -/
def yaml.SeedServer.marshal (x : SeedServer) : Value :=
  .map (
    [("host", yaml.SocketAddress.marshal x.Host)])

/-- The YAML keys the named fields of `TLS` claim (their `yaml` tags). -/
def yaml.TLS.keys : List String :=
  ["key_file", "cert_file", "truststore_file"]

/-- The named fields of `TLS` as the decoder sees them: the key of each
(its `yaml` tag) and how a node is decoded into it. -/
def yaml.TLS.fields (L : yaml.Leaf) :
    List (String × (TLS → Value → Option TLS)) :=
  [ ("key_file", fun out v =>
      (L.str out.KeyFile v).map fun x => { out with KeyFile := x }),
    ("cert_file", fun out v =>
      (L.str out.CertFile v).map fun x => { out with CertFile := x }),
    ("truststore_file", fun out v =>
      (L.str out.TruststoreFile v).map fun x => { out with TruststoreFile := x }) ]

/-- One entry of a mapping decoded into a `TLS`: a key of a named field sets
the field, any other key is ignored, the type having no inline map. -/
def yaml.TLS.setField (L : yaml.Leaf) (out : TLS) (k : String)
    (v : Value) : Option TLS :=
  match (yaml.TLS.fields L).lookup k with
  | some set => set out v
  | none => some out

/-- A YAML node decoded into a `TLS`: a mapping entry by entry, null as
the library has it, nothing else. -/
def yaml.TLS.unmarshal (L : yaml.Leaf) (out : TLS) :
    Value → Option TLS
  | .map m =>
    if L.uniqueKeys = true ∧ ¬ (yaml.keysOf m).Nodup then none
    else m.foldlM (fun acc kv => yaml.TLS.setField L acc kv.1 kv.2) out
  | .null => some (if L.nullKeeps = true then out else TLS.zero)
  | _ => none

/-- Whether a `TLS` is the zero value, as `omitempty` tests it. -/
def yaml.TLS.isZero (x : TLS) : Bool :=
  decide (x.KeyFile = ""
    ∧ x.CertFile = ""
    ∧ x.TruststoreFile = "")

/-- The mapping a `TLS` is encoded to: the named fields in order. -/
def yaml.TLS.marshal (x : TLS) : Value :=
  .map (
    (if x.KeyFile = "" then []
        else [("key_file",
          Value.str x.KeyFile)])
    ++ (if x.CertFile = "" then []
        else [("cert_file",
          Value.str x.CertFile)])
    ++ (if x.TruststoreFile = "" then []
        else [("truststore_file",
          Value.str x.TruststoreFile)]))

/-- The YAML keys the named fields of `ServerTLS` claim (their `yaml` tags). -/
def yaml.ServerTLS.keys : List String :=
  ["name", "key_file", "cert_file", "truststore_file",
   "enabled", "require_client_auth"]

/-- The named fields of `ServerTLS` as the decoder sees them: the key of each
(its `yaml` tag) and how a node is decoded into it. -/
def yaml.ServerTLS.fields (L : yaml.Leaf) :
    List (String × (ServerTLS → Value → Option ServerTLS)) :=
  [ ("name", fun out v =>
      (L.str out.Name v).map fun x => { out with Name := x }),
    ("key_file", fun out v =>
      (L.str out.KeyFile v).map fun x => { out with KeyFile := x }),
    ("cert_file", fun out v =>
      (L.str out.CertFile v).map fun x => { out with CertFile := x }),
    ("truststore_file", fun out v =>
      (L.str out.TruststoreFile v).map fun x => { out with TruststoreFile := x }),
    ("enabled", fun out v =>
      (L.bool out.Enabled v).map fun x => { out with Enabled := x }),
    ("require_client_auth", fun out v =>
      (L.bool out.RequireClientAuth v).map fun x => { out with RequireClientAuth := x }) ]

/-- One entry of a mapping decoded into a `ServerTLS`: a key of a named field sets
the field, any other key goes to the inline map `Other`. -/
def yaml.ServerTLS.setField (L : yaml.Leaf) (out : ServerTLS) (k : String)
    (v : Value) : Option ServerTLS :=
  match (yaml.ServerTLS.fields L).lookup k with
  | some set => set out v
  | none => some { out with Other := yaml.setMapIndex out.Other k v }

/-- A YAML node decoded into a `ServerTLS`: a mapping entry by entry, null as
the library has it, nothing else. -/
def yaml.ServerTLS.unmarshal (L : yaml.Leaf) (out : ServerTLS) :
    Value → Option ServerTLS
  | .map m =>
    if L.uniqueKeys = true ∧ ¬ (yaml.keysOf m).Nodup then none
    else m.foldlM (fun acc kv => yaml.ServerTLS.setField L acc kv.1 kv.2) out
  | .null => some (if L.nullKeeps = true then out else ServerTLS.zero)
  | _ => none

/-- Whether a `ServerTLS` is the zero value, as `omitempty` tests it. -/
def yaml.ServerTLS.isZero (x : ServerTLS) : Bool :=
  decide (x.Name = ""
    ∧ x.KeyFile = ""
    ∧ x.CertFile = ""
    ∧ x.TruststoreFile = ""
    ∧ x.Enabled = false
    ∧ x.RequireClientAuth = false
    ∧ x.Other.isEmpty = true)

/-- The mapping a `ServerTLS` is encoded to: the named fields in order, then the
entries of the inline map. -/
def yaml.ServerTLS.marshal (x : ServerTLS) : Value :=
  .map (
    (if x.Name = "" then []
        else [("name",
          Value.str x.Name)])
    ++ (if x.KeyFile = "" then []
        else [("key_file",
          Value.str x.KeyFile)])
    ++ (if x.CertFile = "" then []
        else [("cert_file",
          Value.str x.CertFile)])
    ++ (if x.TruststoreFile = "" then []
        else [("truststore_file",
          Value.str x.TruststoreFile)])
    ++ (if x.Enabled = false then []
        else [("enabled",
          Value.bool x.Enabled)])
    ++ (if x.RequireClientAuth = false then []
        else [("require_client_auth",
          Value.bool x.RequireClientAuth)])
    ++ x.Other)

/-- The YAML keys the named fields of `SASL` claim (their `yaml` tags). -/
def yaml.SASL.keys : List String :=
  ["user", "password", "type"]

/-- The named fields of `SASL` as the decoder sees them: the key of each
(its `yaml` tag) and how a node is decoded into it. -/
def yaml.SASL.fields (L : yaml.Leaf) :
    List (String × (SASL → Value → Option SASL)) :=
  [ ("user", fun out v =>
      (L.str out.User v).map fun x => { out with User := x }),
    ("password", fun out v =>
      (L.str out.Password v).map fun x => { out with Password := x }),
    ("type", fun out v =>
      (L.str out.Mechanism v).map fun x => { out with Mechanism := x }) ]

/-- One entry of a mapping decoded into a `SASL`: a key of a named field sets
the field, any other key is ignored, the type having no inline map. -/
def yaml.SASL.setField (L : yaml.Leaf) (out : SASL) (k : String)
    (v : Value) : Option SASL :=
  match (yaml.SASL.fields L).lookup k with
  | some set => set out v
  | none => some out

/-- A YAML node decoded into a `SASL`: a mapping entry by entry, null as
the library has it, nothing else. -/
def yaml.SASL.unmarshal (L : yaml.Leaf) (out : SASL) :
    Value → Option SASL
  | .map m =>
    if L.uniqueKeys = true ∧ ¬ (yaml.keysOf m).Nodup then none
    else m.foldlM (fun acc kv => yaml.SASL.setField L acc kv.1 kv.2) out
  | .null => some (if L.nullKeeps = true then out else SASL.zero)
  | _ => none

/-- Whether a `SASL` is the zero value, as `omitempty` tests it. -/
def yaml.SASL.isZero (x : SASL) : Bool :=
  decide (x.User = ""
    ∧ x.Password = ""
    ∧ x.Mechanism = "")

/-- The mapping a `SASL` is encoded to: the named fields in order. -/
def yaml.SASL.marshal (x : SASL) : Value :=
  .map (
    (if x.User = "" then []
        else [("user",
          Value.str x.User)])
    ++ (if x.Password = "" then []
        else [("password",
          Value.str x.Password)])
    ++ (if x.Mechanism = "" then []
        else [("type",
          Value.str x.Mechanism)]))

/-- The YAML keys the named fields of `RedpandaConfig` claim (their `yaml` tags). -/
def yaml.RedpandaConfig.keys : List String :=
  ["data_directory", "node_id", "rack", "seed_servers",
   "rpc_server", "rpc_server_tls", "kafka_api", "kafka_api_tls",
   "admin", "admin_api_tls", "coproc_supervisor_server", "admin_api_doc_dir",
   "dashboard_dir", "cloud_storage_cache_directory", "advertised_rpc_api", "advertised_kafka_api",
   "developer_mode"]

/-- The named fields of `RedpandaConfig` as the decoder sees them: the key of each
(its `yaml` tag) and how a node is decoded into it. -/
def yaml.RedpandaConfig.fields (L : yaml.Leaf) :
    List (String × (RedpandaConfig → Value → Option RedpandaConfig)) :=
  [ ("data_directory", fun out v =>
      (L.str out.Directory v).map fun x => { out with Directory := x }),
    ("node_id", fun out v =>
      (L.int out.ID v).map fun x => { out with ID := x }),
    ("rack", fun out v =>
      (L.str out.Rack v).map fun x => { out with Rack := x }),
    ("seed_servers", fun out v =>
      (yaml.slice (yaml.SeedServer.unmarshal L SeedServer.zero) v).map
        fun x => { out with SeedServers := x }),
    ("rpc_server", fun out v =>
      (yaml.SocketAddress.unmarshal L out.RPCServer v).map fun x => { out with RPCServer := x }),
    ("rpc_server_tls", fun out v =>
      (yaml.slice (yaml.ServerTLS.unmarshal L ServerTLS.zero) v).map
        fun x => { out with RPCServerTLS := x }),
    ("kafka_api", fun out v =>
      (yaml.slice (yaml.NamedSocketAddress.unmarshal L NamedSocketAddress.zero) v).map
        fun x => { out with KafkaAPI := x }),
    ("kafka_api_tls", fun out v =>
      (yaml.slice (yaml.ServerTLS.unmarshal L ServerTLS.zero) v).map
        fun x => { out with KafkaAPITLS := x }),
    ("admin", fun out v =>
      (yaml.slice (yaml.NamedSocketAddress.unmarshal L NamedSocketAddress.zero) v).map
        fun x => { out with AdminAPI := x }),
    ("admin_api_tls", fun out v =>
      (yaml.slice (yaml.ServerTLS.unmarshal L ServerTLS.zero) v).map
        fun x => { out with AdminAPITLS := x }),
    ("coproc_supervisor_server", fun out v =>
      (yaml.SocketAddress.unmarshal L out.CoprocSupervisorServer v).map
        fun x => { out with CoprocSupervisorServer := x }),
    ("admin_api_doc_dir", fun out v =>
      (L.str out.AdminAPIDocDir v).map fun x => { out with AdminAPIDocDir := x }),
    ("dashboard_dir", fun out v =>
      (L.str out.DashboardDir v).map fun x => { out with DashboardDir := x }),
    ("cloud_storage_cache_directory", fun out v =>
      (L.str out.CloudStorageCacheDirectory v).map
        fun x => { out with CloudStorageCacheDirectory := x }),
    ("advertised_rpc_api", fun out v =>
      (yaml.ptr (yaml.SocketAddress.unmarshal L) SocketAddress.zero out.AdvertisedRPCAPI v).map
        fun x => { out with AdvertisedRPCAPI := x }),
    ("advertised_kafka_api", fun out v =>
      (yaml.slice (yaml.NamedSocketAddress.unmarshal L NamedSocketAddress.zero) v).map
        fun x => { out with AdvertisedKafkaAPI := x }),
    ("developer_mode", fun out v =>
      (L.bool out.DeveloperMode v).map fun x => { out with DeveloperMode := x }) ]

/-- One entry of a mapping decoded into a `RedpandaConfig`: a key of a named field sets
the field, any other key goes to the inline map `Other`. -/
def yaml.RedpandaConfig.setField (L : yaml.Leaf) (out : RedpandaConfig) (k : String)
    (v : Value) : Option RedpandaConfig :=
  match (yaml.RedpandaConfig.fields L).lookup k with
  | some set => set out v
  | none => some { out with Other := yaml.setMapIndex out.Other k v }

/-- A YAML node decoded into a `RedpandaConfig`: a mapping entry by entry, null as
the library has it, nothing else. -/
def yaml.RedpandaConfig.unmarshal (L : yaml.Leaf) (out : RedpandaConfig) :
    Value → Option RedpandaConfig
  | .map m =>
    if L.uniqueKeys = true ∧ ¬ (yaml.keysOf m).Nodup then none
    else m.foldlM (fun acc kv => yaml.RedpandaConfig.setField L acc kv.1 kv.2) out
  | .null => some (if L.nullKeeps = true then out else RedpandaConfig.zero)
  | _ => none

/-- Whether a `RedpandaConfig` is the zero value, as `omitempty` tests it. -/
def yaml.RedpandaConfig.isZero (x : RedpandaConfig) : Bool :=
  decide (x.Directory = ""
    ∧ x.ID = 0
    ∧ x.Rack = ""
    ∧ x.SeedServers.isEmpty = true
    ∧ yaml.SocketAddress.isZero x.RPCServer = true
    ∧ x.RPCServerTLS.isEmpty = true
    ∧ x.KafkaAPI.isEmpty = true
    ∧ x.KafkaAPITLS.isEmpty = true
    ∧ x.AdminAPI.isEmpty = true
    ∧ x.AdminAPITLS.isEmpty = true
    ∧ yaml.SocketAddress.isZero x.CoprocSupervisorServer = true
    ∧ x.AdminAPIDocDir = ""
    ∧ x.DashboardDir = ""
    ∧ x.CloudStorageCacheDirectory = ""
    ∧ x.AdvertisedRPCAPI.isNone = true
    ∧ x.AdvertisedKafkaAPI.isEmpty = true
    ∧ x.DeveloperMode = false
    ∧ x.Other.isEmpty = true)

/-- The mapping a `RedpandaConfig` is encoded to: the named fields in order, then the
entries of the inline map. -/
def yaml.RedpandaConfig.marshal (x : RedpandaConfig) : Value :=
  .map (
    [("data_directory", Value.str x.Directory)]
    ++ [("node_id", Value.int x.ID)]
    ++ (if x.Rack = "" then []
        else [("rack",
          Value.str x.Rack)])
    ++ [("seed_servers", Value.seq (x.SeedServers.map yaml.SeedServer.marshal))]
    ++ [("rpc_server", yaml.SocketAddress.marshal x.RPCServer)]
    ++ (if x.RPCServerTLS.isEmpty = true then []
        else [("rpc_server_tls",
          Value.seq (x.RPCServerTLS.map yaml.ServerTLS.marshal))])
    ++ [("kafka_api", Value.seq (x.KafkaAPI.map yaml.NamedSocketAddress.marshal))]
    ++ (if x.KafkaAPITLS.isEmpty = true then []
        else [("kafka_api_tls",
          Value.seq (x.KafkaAPITLS.map yaml.ServerTLS.marshal))])
    ++ [("admin", Value.seq (x.AdminAPI.map yaml.NamedSocketAddress.marshal))]
    ++ (if x.AdminAPITLS.isEmpty = true then []
        else [("admin_api_tls",
          Value.seq (x.AdminAPITLS.map yaml.ServerTLS.marshal))])
    ++ (if yaml.SocketAddress.isZero x.CoprocSupervisorServer = true then []
        else [("coproc_supervisor_server",
          yaml.SocketAddress.marshal x.CoprocSupervisorServer)])
    ++ (if x.AdminAPIDocDir = "" then []
        else [("admin_api_doc_dir",
          Value.str x.AdminAPIDocDir)])
    ++ (if x.DashboardDir = "" then []
        else [("dashboard_dir",
          Value.str x.DashboardDir)])
    ++ (if x.CloudStorageCacheDirectory = "" then []
        else [("cloud_storage_cache_directory",
          Value.str x.CloudStorageCacheDirectory)])
    ++ (if x.AdvertisedRPCAPI.isNone = true then []
        else [("advertised_rpc_api",
          yaml.ofPtr yaml.SocketAddress.marshal x.AdvertisedRPCAPI)])
    ++ (if x.AdvertisedKafkaAPI.isEmpty = true then []
        else [("advertised_kafka_api",
          Value.seq (x.AdvertisedKafkaAPI.map yaml.NamedSocketAddress.marshal))])
    ++ [("developer_mode", Value.bool x.DeveloperMode)]
    ++ x.Other)

/-- The YAML keys the named fields of `Pandaproxy` claim (their `yaml` tags). -/
def yaml.Pandaproxy.keys : List String :=
  ["pandaproxy_api", "pandaproxy_api_tls", "advertised_pandaproxy_api"]

/-- The named fields of `Pandaproxy` as the decoder sees them: the key of each
(its `yaml` tag) and how a node is decoded into it. -/
def yaml.Pandaproxy.fields (L : yaml.Leaf) :
    List (String × (Pandaproxy → Value → Option Pandaproxy)) :=
  [ ("pandaproxy_api", fun out v =>
      (yaml.slice (yaml.NamedSocketAddress.unmarshal L NamedSocketAddress.zero) v).map
        fun x => { out with PandaproxyAPI := x }),
    ("pandaproxy_api_tls", fun out v =>
      (yaml.slice (yaml.ServerTLS.unmarshal L ServerTLS.zero) v).map
        fun x => { out with PandaproxyAPITLS := x }),
    ("advertised_pandaproxy_api", fun out v =>
      (yaml.slice (yaml.NamedSocketAddress.unmarshal L NamedSocketAddress.zero) v).map
        fun x => { out with AdvertisedPandaproxyAPI := x }) ]

/-- One entry of a mapping decoded into a `Pandaproxy`: a key of a named field sets
the field, any other key goes to the inline map `Other`. -/
def yaml.Pandaproxy.setField (L : yaml.Leaf) (out : Pandaproxy) (k : String)
    (v : Value) : Option Pandaproxy :=
  match (yaml.Pandaproxy.fields L).lookup k with
  | some set => set out v
  | none => some { out with Other := yaml.setMapIndex out.Other k v }

/-- A YAML node decoded into a `Pandaproxy`: a mapping entry by entry, null as
the library has it, nothing else. -/
def yaml.Pandaproxy.unmarshal (L : yaml.Leaf) (out : Pandaproxy) :
    Value → Option Pandaproxy
  | .map m =>
    if L.uniqueKeys = true ∧ ¬ (yaml.keysOf m).Nodup then none
    else m.foldlM (fun acc kv => yaml.Pandaproxy.setField L acc kv.1 kv.2) out
  | .null => some (if L.nullKeeps = true then out else Pandaproxy.zero)
  | _ => none

/-- Whether a `Pandaproxy` is the zero value, as `omitempty` tests it. -/
def yaml.Pandaproxy.isZero (x : Pandaproxy) : Bool :=
  decide (x.PandaproxyAPI.isEmpty = true
    ∧ x.PandaproxyAPITLS.isEmpty = true
    ∧ x.AdvertisedPandaproxyAPI.isEmpty = true
    ∧ x.Other.isEmpty = true)

/-- The mapping a `Pandaproxy` is encoded to: the named fields in order, then the
entries of the inline map. -/
def yaml.Pandaproxy.marshal (x : Pandaproxy) : Value :=
  .map (
    (if x.PandaproxyAPI.isEmpty = true then []
        else [("pandaproxy_api",
          Value.seq (x.PandaproxyAPI.map yaml.NamedSocketAddress.marshal))])
    ++ (if x.PandaproxyAPITLS.isEmpty = true then []
        else [("pandaproxy_api_tls",
          Value.seq (x.PandaproxyAPITLS.map yaml.ServerTLS.marshal))])
    ++ (if x.AdvertisedPandaproxyAPI.isEmpty = true then []
        else [("advertised_pandaproxy_api",
          Value.seq (x.AdvertisedPandaproxyAPI.map yaml.NamedSocketAddress.marshal))])
    ++ x.Other)

/-- The YAML keys the named fields of `SchemaRegistry` claim (their `yaml` tags). -/
def yaml.SchemaRegistry.keys : List String :=
  ["schema_registry_api", "schema_registry_api_tls", "schema_registry_replication_factor"]

/-- The named fields of `SchemaRegistry` as the decoder sees them: the key of each
(its `yaml` tag) and how a node is decoded into it. -/
def yaml.SchemaRegistry.fields (L : yaml.Leaf) :
    List (String × (SchemaRegistry → Value → Option SchemaRegistry)) :=
  [ ("schema_registry_api", fun out v =>
      (yaml.slice (yaml.NamedSocketAddress.unmarshal L NamedSocketAddress.zero) v).map
        fun x => { out with SchemaRegistryAPI := x }),
    ("schema_registry_api_tls", fun out v =>
      (yaml.slice (yaml.ServerTLS.unmarshal L ServerTLS.zero) v).map
        fun x => { out with SchemaRegistryAPITLS := x }),
    ("schema_registry_replication_factor", fun out v =>
      (yaml.ptr L.int 0 out.SchemaRegistryReplicationFactor v).map
        fun x => { out with SchemaRegistryReplicationFactor := x }) ]

/-- One entry of a mapping decoded into a `SchemaRegistry`: a key of a named field sets
the field, any other key is ignored, the type having no inline map. -/
def yaml.SchemaRegistry.setField (L : yaml.Leaf) (out : SchemaRegistry) (k : String)
    (v : Value) : Option SchemaRegistry :=
  match (yaml.SchemaRegistry.fields L).lookup k with
  | some set => set out v
  | none => some out

/-- A YAML node decoded into a `SchemaRegistry`: a mapping entry by entry, null as
the library has it, nothing else. -/
def yaml.SchemaRegistry.unmarshal (L : yaml.Leaf) (out : SchemaRegistry) :
    Value → Option SchemaRegistry
  | .map m =>
    if L.uniqueKeys = true ∧ ¬ (yaml.keysOf m).Nodup then none
    else m.foldlM (fun acc kv => yaml.SchemaRegistry.setField L acc kv.1 kv.2) out
  | .null => some (if L.nullKeeps = true then out else SchemaRegistry.zero)
  | _ => none

/-- Whether a `SchemaRegistry` is the zero value, as `omitempty` tests it. -/
def yaml.SchemaRegistry.isZero (x : SchemaRegistry) : Bool :=
  decide (x.SchemaRegistryAPI.isEmpty = true
    ∧ x.SchemaRegistryAPITLS.isEmpty = true
    ∧ x.SchemaRegistryReplicationFactor.isNone = true)

/-- The mapping a `SchemaRegistry` is encoded to: the named fields in order. -/
def yaml.SchemaRegistry.marshal (x : SchemaRegistry) : Value :=
  .map (
    (if x.SchemaRegistryAPI.isEmpty = true then []
        else [("schema_registry_api",
          Value.seq (x.SchemaRegistryAPI.map yaml.NamedSocketAddress.marshal))])
    ++ (if x.SchemaRegistryAPITLS.isEmpty = true then []
        else [("schema_registry_api_tls",
          Value.seq (x.SchemaRegistryAPITLS.map yaml.ServerTLS.marshal))])
    ++ (if x.SchemaRegistryReplicationFactor.isNone = true then []
        else [("schema_registry_replication_factor",
          yaml.ofPtr Value.int x.SchemaRegistryReplicationFactor)]))

/-- The YAML keys the named fields of `KafkaClient` claim (their `yaml` tags). -/
def yaml.KafkaClient.keys : List String :=
  ["brokers", "broker_tls", "sasl_mechanism", "scram_username",
   "scram_password"]

/-- The named fields of `KafkaClient` as the decoder sees them: the key of each
(its `yaml` tag) and how a node is decoded into it. -/
def yaml.KafkaClient.fields (L : yaml.Leaf) :
    List (String × (KafkaClient → Value → Option KafkaClient)) :=
  [ ("brokers", fun out v =>
      (yaml.slice (yaml.SocketAddress.unmarshal L SocketAddress.zero) v).map
        fun x => { out with Brokers := x }),
    ("broker_tls", fun out v =>
      (yaml.ServerTLS.unmarshal L out.BrokerTLS v).map fun x => { out with BrokerTLS := x }),
    ("sasl_mechanism", fun out v =>
      (yaml.ptr L.str "" out.SASLMechanism v).map fun x => { out with SASLMechanism := x }),
    ("scram_username", fun out v =>
      (yaml.ptr L.str "" out.SCRAMUsername v).map fun x => { out with SCRAMUsername := x }),
    ("scram_password", fun out v =>
      (yaml.ptr L.str "" out.SCRAMPassword v).map fun x => { out with SCRAMPassword := x }) ]

/-- One entry of a mapping decoded into a `KafkaClient`: a key of a named field sets
the field, any other key goes to the inline map `Other`. -/
def yaml.KafkaClient.setField (L : yaml.Leaf) (out : KafkaClient) (k : String)
    (v : Value) : Option KafkaClient :=
  match (yaml.KafkaClient.fields L).lookup k with
  | some set => set out v
  | none => some { out with Other := yaml.setMapIndex out.Other k v }

/-- A YAML node decoded into a `KafkaClient`: a mapping entry by entry, null as
the library has it, nothing else. -/
def yaml.KafkaClient.unmarshal (L : yaml.Leaf) (out : KafkaClient) :
    Value → Option KafkaClient
  | .map m =>
    if L.uniqueKeys = true ∧ ¬ (yaml.keysOf m).Nodup then none
    else m.foldlM (fun acc kv => yaml.KafkaClient.setField L acc kv.1 kv.2) out
  | .null => some (if L.nullKeeps = true then out else KafkaClient.zero)
  | _ => none

/-- Whether a `KafkaClient` is the zero value, as `omitempty` tests it. -/
def yaml.KafkaClient.isZero (x : KafkaClient) : Bool :=
  decide (x.Brokers.isEmpty = true
    ∧ yaml.ServerTLS.isZero x.BrokerTLS = true
    ∧ x.SASLMechanism.isNone = true
    ∧ x.SCRAMUsername.isNone = true
    ∧ x.SCRAMPassword.isNone = true
    ∧ x.Other.isEmpty = true)

/-- The mapping a `KafkaClient` is encoded to: the named fields in order, then the
entries of the inline map. -/
def yaml.KafkaClient.marshal (x : KafkaClient) : Value :=
  .map (
    (if x.Brokers.isEmpty = true then []
        else [("brokers",
          Value.seq (x.Brokers.map yaml.SocketAddress.marshal))])
    ++ (if yaml.ServerTLS.isZero x.BrokerTLS = true then []
        else [("broker_tls",
          yaml.ServerTLS.marshal x.BrokerTLS)])
    ++ (if x.SASLMechanism.isNone = true then []
        else [("sasl_mechanism",
          yaml.ofPtr Value.str x.SASLMechanism)])
    ++ (if x.SCRAMUsername.isNone = true then []
        else [("scram_username",
          yaml.ofPtr Value.str x.SCRAMUsername)])
    ++ (if x.SCRAMPassword.isNone = true then []
        else [("scram_password",
          yaml.ofPtr Value.str x.SCRAMPassword)])
    ++ x.Other)

/-- The YAML keys the named fields of `RpkKafkaAPI` claim (their `yaml` tags). -/
def yaml.RpkKafkaAPI.keys : List String :=
  ["brokers", "tls", "sasl"]

/-- The named fields of `RpkKafkaAPI` as the decoder sees them: the key of each
(its `yaml` tag) and how a node is decoded into it. -/
def yaml.RpkKafkaAPI.fields (L : yaml.Leaf) :
    List (String × (RpkKafkaAPI → Value → Option RpkKafkaAPI)) :=
  [ ("brokers", fun out v =>
      (yaml.slice (L.str "") v).map fun x => { out with Brokers := x }),
    ("tls", fun out v =>
      (yaml.ptr (yaml.TLS.unmarshal L) TLS.zero out.TLS v).map fun x => { out with TLS := x }),
    ("sasl", fun out v =>
      (yaml.ptr (yaml.SASL.unmarshal L) SASL.zero out.SASL v).map fun x => { out with SASL := x }) ]

/-- One entry of a mapping decoded into a `RpkKafkaAPI`: a key of a named field sets
the field, any other key is ignored, the type having no inline map. -/
def yaml.RpkKafkaAPI.setField (L : yaml.Leaf) (out : RpkKafkaAPI) (k : String)
    (v : Value) : Option RpkKafkaAPI :=
  match (yaml.RpkKafkaAPI.fields L).lookup k with
  | some set => set out v
  | none => some out

/-- A YAML node decoded into a `RpkKafkaAPI`: a mapping entry by entry, null as
the library has it, nothing else. -/
def yaml.RpkKafkaAPI.unmarshal (L : yaml.Leaf) (out : RpkKafkaAPI) :
    Value → Option RpkKafkaAPI
  | .map m =>
    if L.uniqueKeys = true ∧ ¬ (yaml.keysOf m).Nodup then none
    else m.foldlM (fun acc kv => yaml.RpkKafkaAPI.setField L acc kv.1 kv.2) out
  | .null => some (if L.nullKeeps = true then out else RpkKafkaAPI.zero)
  | _ => none

/-- Whether a `RpkKafkaAPI` is the zero value, as `omitempty` tests it. -/
def yaml.RpkKafkaAPI.isZero (x : RpkKafkaAPI) : Bool :=
  decide (x.Brokers.isEmpty = true
    ∧ x.TLS.isNone = true
    ∧ x.SASL.isNone = true)

/-- The mapping a `RpkKafkaAPI` is encoded to: the named fields in order. -/
def yaml.RpkKafkaAPI.marshal (x : RpkKafkaAPI) : Value :=
  .map (
    (if x.Brokers.isEmpty = true then []
        else [("brokers",
          Value.seq (x.Brokers.map Value.str))])
    ++ (if x.TLS.isNone = true then []
        else [("tls",
          yaml.ofPtr yaml.TLS.marshal x.TLS)])
    ++ (if x.SASL.isNone = true then []
        else [("sasl",
          yaml.ofPtr yaml.SASL.marshal x.SASL)]))

/-- The YAML keys the named fields of `RpkAdminAPI` claim (their `yaml` tags). -/
def yaml.RpkAdminAPI.keys : List String :=
  ["addresses", "tls"]

/-- The named fields of `RpkAdminAPI` as the decoder sees them: the key of each
(its `yaml` tag) and how a node is decoded into it. -/
def yaml.RpkAdminAPI.fields (L : yaml.Leaf) :
    List (String × (RpkAdminAPI → Value → Option RpkAdminAPI)) :=
  [ ("addresses", fun out v =>
      (yaml.slice (L.str "") v).map fun x => { out with Addresses := x }),
    ("tls", fun out v =>
      (yaml.ptr (yaml.TLS.unmarshal L) TLS.zero out.TLS v).map fun x => { out with TLS := x }) ]

/-- One entry of a mapping decoded into a `RpkAdminAPI`: a key of a named field sets
the field, any other key is ignored, the type having no inline map. -/
def yaml.RpkAdminAPI.setField (L : yaml.Leaf) (out : RpkAdminAPI) (k : String)
    (v : Value) : Option RpkAdminAPI :=
  match (yaml.RpkAdminAPI.fields L).lookup k with
  | some set => set out v
  | none => some out

/-- A YAML node decoded into a `RpkAdminAPI`: a mapping entry by entry, null as
the library has it, nothing else. -/
def yaml.RpkAdminAPI.unmarshal (L : yaml.Leaf) (out : RpkAdminAPI) :
    Value → Option RpkAdminAPI
  | .map m =>
    if L.uniqueKeys = true ∧ ¬ (yaml.keysOf m).Nodup then none
    else m.foldlM (fun acc kv => yaml.RpkAdminAPI.setField L acc kv.1 kv.2) out
  | .null => some (if L.nullKeeps = true then out else RpkAdminAPI.zero)
  | _ => none

/-- Whether a `RpkAdminAPI` is the zero value, as `omitempty` tests it. -/
def yaml.RpkAdminAPI.isZero (x : RpkAdminAPI) : Bool :=
  decide (x.Addresses.isEmpty = true
    ∧ x.TLS.isNone = true)

/-- The mapping a `RpkAdminAPI` is encoded to: the named fields in order. -/
def yaml.RpkAdminAPI.marshal (x : RpkAdminAPI) : Value :=
  .map (
    (if x.Addresses.isEmpty = true then []
        else [("addresses",
          Value.seq (x.Addresses.map Value.str))])
    ++ (if x.TLS.isNone = true then []
        else [("tls",
          yaml.ofPtr yaml.TLS.marshal x.TLS)]))

/-- The YAML keys the named fields of `RpkConfig` claim (their `yaml` tags). -/
def yaml.RpkConfig.keys : List String :=
  ["tls", "sasl", "kafka_api", "admin_api",
   "additional_start_flags", "enable_usage_stats", "tune_network", "tune_disk_scheduler",
   "tune_disk_nomerges", "tune_disk_write_cache", "tune_disk_irq", "tune_fstrim",
   "tune_cpu", "tune_aio_events", "tune_clocksource", "tune_swappiness",
   "tune_transparent_hugepages", "enable_memory_locking", "tune_coredump", "coredump_dir",
   "tune_ballast_file", "ballast_file_path", "ballast_file_size", "well_known_io",
   "overprovisioned", "smp"]

/-- The named fields of `RpkConfig` as the decoder sees them: the key of each
(its `yaml` tag) and how a node is decoded into it. -/
def yaml.RpkConfig.fields (L : yaml.Leaf) :
    List (String × (RpkConfig → Value → Option RpkConfig)) :=
  [ ("tls", fun out v =>
      (yaml.ptr (yaml.TLS.unmarshal L) TLS.zero out.TLS v).map fun x => { out with TLS := x }),
    ("sasl", fun out v =>
      (yaml.ptr (yaml.SASL.unmarshal L) SASL.zero out.SASL v).map fun x => { out with SASL := x }),
    ("kafka_api", fun out v =>
      (yaml.RpkKafkaAPI.unmarshal L out.KafkaAPI v).map fun x => { out with KafkaAPI := x }),
    ("admin_api", fun out v =>
      (yaml.RpkAdminAPI.unmarshal L out.AdminAPI v).map fun x => { out with AdminAPI := x }),
    ("additional_start_flags", fun out v =>
      (yaml.slice (L.str "") v).map fun x => { out with AdditionalStartFlags := x }),
    ("enable_usage_stats", fun out v =>
      (L.bool out.EnableUsageStats v).map fun x => { out with EnableUsageStats := x }),
    ("tune_network", fun out v =>
      (L.bool out.TuneNetwork v).map fun x => { out with TuneNetwork := x }),
    ("tune_disk_scheduler", fun out v =>
      (L.bool out.TuneDiskScheduler v).map fun x => { out with TuneDiskScheduler := x }),
    ("tune_disk_nomerges", fun out v =>
      (L.bool out.TuneNomerges v).map fun x => { out with TuneNomerges := x }),
    ("tune_disk_write_cache", fun out v =>
      (L.bool out.TuneDiskWriteCache v).map fun x => { out with TuneDiskWriteCache := x }),
    ("tune_disk_irq", fun out v =>
      (L.bool out.TuneDiskIrq v).map fun x => { out with TuneDiskIrq := x }),
    ("tune_fstrim", fun out v =>
      (L.bool out.TuneFstrim v).map fun x => { out with TuneFstrim := x }),
    ("tune_cpu", fun out v =>
      (L.bool out.TuneCPU v).map fun x => { out with TuneCPU := x }),
    ("tune_aio_events", fun out v =>
      (L.bool out.TuneAioEvents v).map fun x => { out with TuneAioEvents := x }),
    ("tune_clocksource", fun out v =>
      (L.bool out.TuneClocksource v).map fun x => { out with TuneClocksource := x }),
    ("tune_swappiness", fun out v =>
      (L.bool out.TuneSwappiness v).map fun x => { out with TuneSwappiness := x }),
    ("tune_transparent_hugepages", fun out v =>
      (L.bool out.TuneTransparentHugePages v).map
        fun x => { out with TuneTransparentHugePages := x }),
    ("enable_memory_locking", fun out v =>
      (L.bool out.EnableMemoryLocking v).map fun x => { out with EnableMemoryLocking := x }),
    ("tune_coredump", fun out v =>
      (L.bool out.TuneCoredump v).map fun x => { out with TuneCoredump := x }),
    ("coredump_dir", fun out v =>
      (L.str out.CoredumpDir v).map fun x => { out with CoredumpDir := x }),
    ("tune_ballast_file", fun out v =>
      (L.bool out.TuneBallastFile v).map fun x => { out with TuneBallastFile := x }),
    ("ballast_file_path", fun out v =>
      (L.str out.BallastFilePath v).map fun x => { out with BallastFilePath := x }),
    ("ballast_file_size", fun out v =>
      (L.str out.BallastFileSize v).map fun x => { out with BallastFileSize := x }),
    ("well_known_io", fun out v =>
      (L.str out.WellKnownIo v).map fun x => { out with WellKnownIo := x }),
    ("overprovisioned", fun out v =>
      (L.bool out.Overprovisioned v).map fun x => { out with Overprovisioned := x }),
    ("smp", fun out v =>
      (yaml.ptr L.int 0 out.SMP v).map fun x => { out with SMP := x }) ]

/-- One entry of a mapping decoded into a `RpkConfig`: a key of a named field sets
the field, any other key is ignored, the type having no inline map. -/
def yaml.RpkConfig.setField (L : yaml.Leaf) (out : RpkConfig) (k : String)
    (v : Value) : Option RpkConfig :=
  match (yaml.RpkConfig.fields L).lookup k with
  | some set => set out v
  | none => some out

/-- A YAML node decoded into a `RpkConfig`: a mapping entry by entry, null as
the library has it, nothing else. -/
def yaml.RpkConfig.unmarshal (L : yaml.Leaf) (out : RpkConfig) :
    Value → Option RpkConfig
  | .map m =>
    if L.uniqueKeys = true ∧ ¬ (yaml.keysOf m).Nodup then none
    else m.foldlM (fun acc kv => yaml.RpkConfig.setField L acc kv.1 kv.2) out
  | .null => some (if L.nullKeeps = true then out else RpkConfig.zero)
  | _ => none

/-- Whether a `RpkConfig` is the zero value, as `omitempty` tests it. -/
def yaml.RpkConfig.isZero (x : RpkConfig) : Bool :=
  decide (x.TLS.isNone = true
    ∧ x.SASL.isNone = true
    ∧ yaml.RpkKafkaAPI.isZero x.KafkaAPI = true
    ∧ yaml.RpkAdminAPI.isZero x.AdminAPI = true
    ∧ x.AdditionalStartFlags.isEmpty = true
    ∧ x.EnableUsageStats = false
    ∧ x.TuneNetwork = false
    ∧ x.TuneDiskScheduler = false
    ∧ x.TuneNomerges = false
    ∧ x.TuneDiskWriteCache = false
    ∧ x.TuneDiskIrq = false
    ∧ x.TuneFstrim = false
    ∧ x.TuneCPU = false
    ∧ x.TuneAioEvents = false
    ∧ x.TuneClocksource = false
    ∧ x.TuneSwappiness = false
    ∧ x.TuneTransparentHugePages = false
    ∧ x.EnableMemoryLocking = false
    ∧ x.TuneCoredump = false
    ∧ x.CoredumpDir = ""
    ∧ x.TuneBallastFile = false
    ∧ x.BallastFilePath = ""
    ∧ x.BallastFileSize = ""
    ∧ x.WellKnownIo = ""
    ∧ x.Overprovisioned = false
    ∧ x.SMP.isNone = true)

/-- The mapping a `RpkConfig` is encoded to: the named fields in order. -/
def yaml.RpkConfig.marshal (x : RpkConfig) : Value :=
  .map (
    (if x.TLS.isNone = true then []
        else [("tls",
          yaml.ofPtr yaml.TLS.marshal x.TLS)])
    ++ (if x.SASL.isNone = true then []
        else [("sasl",
          yaml.ofPtr yaml.SASL.marshal x.SASL)])
    ++ (if yaml.RpkKafkaAPI.isZero x.KafkaAPI = true then []
        else [("kafka_api",
          yaml.RpkKafkaAPI.marshal x.KafkaAPI)])
    ++ (if yaml.RpkAdminAPI.isZero x.AdminAPI = true then []
        else [("admin_api",
          yaml.RpkAdminAPI.marshal x.AdminAPI)])
    ++ (if x.AdditionalStartFlags.isEmpty = true then []
        else [("additional_start_flags",
          Value.seq (x.AdditionalStartFlags.map Value.str))])
    ++ [("enable_usage_stats", Value.bool x.EnableUsageStats)]
    ++ [("tune_network", Value.bool x.TuneNetwork)]
    ++ [("tune_disk_scheduler", Value.bool x.TuneDiskScheduler)]
    ++ [("tune_disk_nomerges", Value.bool x.TuneNomerges)]
    ++ [("tune_disk_write_cache", Value.bool x.TuneDiskWriteCache)]
    ++ [("tune_disk_irq", Value.bool x.TuneDiskIrq)]
    ++ [("tune_fstrim", Value.bool x.TuneFstrim)]
    ++ [("tune_cpu", Value.bool x.TuneCPU)]
    ++ [("tune_aio_events", Value.bool x.TuneAioEvents)]
    ++ [("tune_clocksource", Value.bool x.TuneClocksource)]
    ++ [("tune_swappiness", Value.bool x.TuneSwappiness)]
    ++ [("tune_transparent_hugepages", Value.bool x.TuneTransparentHugePages)]
    ++ [("enable_memory_locking", Value.bool x.EnableMemoryLocking)]
    ++ [("tune_coredump", Value.bool x.TuneCoredump)]
    ++ (if x.CoredumpDir = "" then []
        else [("coredump_dir",
          Value.str x.CoredumpDir)])
    ++ [("tune_ballast_file", Value.bool x.TuneBallastFile)]
    ++ (if x.BallastFilePath = "" then []
        else [("ballast_file_path",
          Value.str x.BallastFilePath)])
    ++ (if x.BallastFileSize = "" then []
        else [("ballast_file_size",
          Value.str x.BallastFileSize)])
    ++ (if x.WellKnownIo = "" then []
        else [("well_known_io",
          Value.str x.WellKnownIo)])
    ++ [("overprovisioned", Value.bool x.Overprovisioned)]
    ++ (if x.SMP.isNone = true then []
        else [("smp",
          yaml.ofPtr Value.int x.SMP)]))

/-- The YAML keys the named fields of `Config` claim (their `yaml` tags). -/
def yaml.Config.keys : List String :=
  ["node_uuid", "organization", "license_key", "cluster_id",
   "config_file", "redpanda", "rpk", "pandaproxy",
   "pandaproxy_client", "schema_registry", "schema_registry_client"]

/-- The named fields of `Config` as the decoder sees them: the key of each
(its `yaml` tag) and how a node is decoded into it. -/
def yaml.Config.fields (L : yaml.Leaf) :
    List (String × (Config → Value → Option Config)) :=
  [ ("node_uuid", fun out v =>
      (L.str out.NodeUUID v).map fun x => { out with NodeUUID := x }),
    ("organization", fun out v =>
      (L.str out.Organization v).map fun x => { out with Organization := x }),
    ("license_key", fun out v =>
      (L.str out.LicenseKey v).map fun x => { out with LicenseKey := x }),
    ("cluster_id", fun out v =>
      (L.str out.ClusterID v).map fun x => { out with ClusterID := x }),
    ("config_file", fun out v =>
      (L.str out.ConfigFile v).map fun x => { out with ConfigFile := x }),
    ("redpanda", fun out v =>
      (yaml.RedpandaConfig.unmarshal L out.Redpanda v).map fun x => { out with Redpanda := x }),
    ("rpk", fun out v =>
      (yaml.RpkConfig.unmarshal L out.Rpk v).map fun x => { out with Rpk := x }),
    ("pandaproxy", fun out v =>
      (yaml.ptr (yaml.Pandaproxy.unmarshal L) Pandaproxy.zero out.Pandaproxy v).map
        fun x => { out with Pandaproxy := x }),
    ("pandaproxy_client", fun out v =>
      (yaml.ptr (yaml.KafkaClient.unmarshal L) KafkaClient.zero out.PandaproxyClient v).map
        fun x => { out with PandaproxyClient := x }),
    ("schema_registry", fun out v =>
      (yaml.ptr (yaml.SchemaRegistry.unmarshal L) SchemaRegistry.zero out.SchemaRegistry v).map
        fun x => { out with SchemaRegistry := x }),
    ("schema_registry_client", fun out v =>
      (yaml.ptr (yaml.KafkaClient.unmarshal L) KafkaClient.zero out.SchemaRegistryClient v).map
        fun x => { out with SchemaRegistryClient := x }) ]

/-- One entry of a mapping decoded into a `Config`: a key of a named field sets
the field, any other key goes to the inline map `Other`. -/
def yaml.Config.setField (L : yaml.Leaf) (out : Config) (k : String)
    (v : Value) : Option Config :=
  match (yaml.Config.fields L).lookup k with
  | some set => set out v
  | none => some { out with Other := yaml.setMapIndex out.Other k v }

/-- A YAML node decoded into a `Config`: a mapping entry by entry, null as
the library has it, nothing else. -/
def yaml.Config.unmarshal (L : yaml.Leaf) (out : Config) :
    Value → Option Config
  | .map m =>
    if L.uniqueKeys = true ∧ ¬ (yaml.keysOf m).Nodup then none
    else m.foldlM (fun acc kv => yaml.Config.setField L acc kv.1 kv.2) out
  | .null => some (if L.nullKeeps = true then out else Config.zero)
  | _ => none

/-- Whether a `Config` is the zero value, as `omitempty` tests it. -/
def yaml.Config.isZero (x : Config) : Bool :=
  decide (x.NodeUUID = ""
    ∧ x.Organization = ""
    ∧ x.LicenseKey = ""
    ∧ x.ClusterID = ""
    ∧ x.ConfigFile = ""
    ∧ yaml.RedpandaConfig.isZero x.Redpanda = true
    ∧ yaml.RpkConfig.isZero x.Rpk = true
    ∧ x.Pandaproxy.isNone = true
    ∧ x.PandaproxyClient.isNone = true
    ∧ x.SchemaRegistry.isNone = true
    ∧ x.SchemaRegistryClient.isNone = true
    ∧ x.Other.isEmpty = true)

/-- The mapping a `Config` is encoded to: the named fields in order, then the
entries of the inline map. -/
def yaml.Config.marshal (x : Config) : Value :=
  .map (
    (if x.NodeUUID = "" then []
        else [("node_uuid",
          Value.str x.NodeUUID)])
    ++ (if x.Organization = "" then []
        else [("organization",
          Value.str x.Organization)])
    ++ (if x.LicenseKey = "" then []
        else [("license_key",
          Value.str x.LicenseKey)])
    ++ (if x.ClusterID = "" then []
        else [("cluster_id",
          Value.str x.ClusterID)])
    ++ [("config_file", Value.str x.ConfigFile)]
    ++ [("redpanda", yaml.RedpandaConfig.marshal x.Redpanda)]
    ++ [("rpk", yaml.RpkConfig.marshal x.Rpk)]
    ++ (if x.Pandaproxy.isNone = true then []
        else [("pandaproxy",
          yaml.ofPtr yaml.Pandaproxy.marshal x.Pandaproxy)])
    ++ (if x.PandaproxyClient.isNone = true then []
        else [("pandaproxy_client",
          yaml.ofPtr yaml.KafkaClient.marshal x.PandaproxyClient)])
    ++ (if x.SchemaRegistry.isNone = true then []
        else [("schema_registry",
          yaml.ofPtr yaml.SchemaRegistry.marshal x.SchemaRegistry)])
    ++ (if x.SchemaRegistryClient.isNone = true then []
        else [("schema_registry_client",
          yaml.ofPtr yaml.KafkaClient.marshal x.SchemaRegistryClient)])
    ++ x.Other)

/-! ### Sample documents -/

/-- A document with the Kafka listener `0.0.0.0:9092` and keys no field
models: at the top level (one of them with a float value, 0.5), inside
`redpanda`, inside a TLS block of the list `redpanda.kafka_api_tls`, inside
`pandaproxy_client.broker_tls`, and inside `rpk`. -/
def yaml.sampleDoc : Value :=
  .map
    [ ("redpanda", .map
        [ ("data_directory", .str "/var/lib/node"),
          ("kafka_api", .seq [.map [("address", .str "0.0.0.0"), ("port", .int 9092)]]),
          ("kafka_api_tls", .seq
            [.map [("enabled", .bool true), ("min_tls_version", .str "v1.3")]]),
          ("fetch_reads_debounce_timeout", .int 10) ]),
      ("rpk", .map [("tune_network", .bool true), ("custom_flag", .bool true)]),
      ("pandaproxy_client", .map
        [ ("broker_tls", .map [("enabled", .bool true), ("crl_file", .str "/etc/crl.pem")]) ]),
      ("extra_feature_flag", .bool true),
      ("sampling_ratio", .float 4602678819172646912) ]

/-- The entries of a mapping whose key is not among `keys`. -/
def yaml.unknown (keys : List String) (m : List (String × Value)) : List (String × Value) :=
  m.filter (fun kv => decide (kv.1 ∉ keys))

/-- A block keeps what it does not model: decoding a mapping with distinct
keys into a block whose inline map is empty stores in the inline map exactly
the entries no named field claims, and encoding the block emits each of them
among the entries of the block. -/
def yaml.KeepsUnknown {B : Type} (keys : List String) (other : B → OtherMap)
    (unmarshal : B → Value → Option B) (marshal : B → Value) : Prop :=
  ∀ (out b : B) (m : List (String × Value)), (yaml.keysOf m).Nodup → other out = [] →
    unmarshal out (.map m) = some b →
    other b = yaml.unknown keys m
      ∧ ∀ kv ∈ m, kv.1 ∉ keys → kv ∈ yaml.Value.entries (marshal b)

/-- A level of the document keeps what it does not model: when a document is
decoded and encoded again, every entry of the mapping at `path` that no named
field of the block there claims is an entry of the mapping at `path` of the
output.  The mappings on the way have distinct keys. -/
def yaml.KeepsUnknownAlong (L : yaml.Leaf) (path : List yaml.Step) (keys : List String) :
    Prop :=
  ∀ (doc : Value) (c : Config) (t : Value), yaml.DistinctKeysAlong path doc →
    yaml.Config.unmarshal L Config.zero doc = some c →
    yaml.Value.at path doc = some t →
    ∀ kv ∈ yaml.Value.entries t, kv.1 ∉ keys →
      ∃ t', yaml.Value.at path (yaml.Config.marshal c) = some t' ∧ kv ∈ yaml.Value.entries t'

/-- The levels of the document whose block declares an inline map, each with
the keys its named fields claim: the document, `redpanda`, `pandaproxy`, the
two client blocks, and every TLS block of a listener or of a client (`i` is
the index in the list of TLS blocks). -/
def yaml.sideMapLevels (i : Nat) : List (List yaml.Step × List String) :=
  [ ([], yaml.Config.keys),
    ([.key "redpanda"], yaml.RedpandaConfig.keys),
    ([.key "pandaproxy"], yaml.Pandaproxy.keys),
    ([.key "pandaproxy_client"], yaml.KafkaClient.keys),
    ([.key "schema_registry_client"], yaml.KafkaClient.keys),
    ([.key "redpanda", .key "rpc_server_tls", .idx i], yaml.ServerTLS.keys),
    ([.key "redpanda", .key "kafka_api_tls", .idx i], yaml.ServerTLS.keys),
    ([.key "redpanda", .key "admin_api_tls", .idx i], yaml.ServerTLS.keys),
    ([.key "pandaproxy", .key "pandaproxy_api_tls", .idx i], yaml.ServerTLS.keys),
    ([.key "schema_registry", .key "schema_registry_api_tls", .idx i], yaml.ServerTLS.keys),
    ([.key "pandaproxy_client", .key "broker_tls"], yaml.ServerTLS.keys),
    ([.key "schema_registry_client", .key "broker_tls"], yaml.ServerTLS.keys) ]

/-- A document whose data directory is `/var/lib/node`. -/
def Config.sample : Config :=
  { Config.zero with Redpanda := { RedpandaConfig.zero with Directory := "/var/lib/node" } }

/-! ## Lemmas on `path.Clean` -/

namespace path

theorem elements_ne_nil (cs : List Char) : elements cs ≠ [] := by
  induction cs with
  | nil => simp [elements]
  | cons c cs ih =>
    unfold elements
    split
    · simp
    · split <;> simp

theorem joinElems_elements (cs : List Char) : joinElems (elements cs) = cs := by
  induction cs with
  | nil => simp [elements, joinElems]
  | cons c cs ih =>
    unfold elements
    split
    · rename_i h
      cases hes : elements cs with
      | nil => exact absurd hes (elements_ne_nil cs)
      | cons e es => rw [hes] at ih; simp [joinElems, ih, h]
    · cases hes : elements cs with
      | nil => exact absurd hes (elements_ne_nil cs)
      | cons e es =>
        rw [hes] at ih
        cases es with
        | nil => simpa [joinElems] using ih
        | cons e2 es => simp only [joinElems] at ih ⊢; simp [ih]

theorem slash_not_mem_elements (cs : List Char) : ∀ e ∈ elements cs, '/' ∉ e := by
  induction cs with
  | nil => simp [elements]
  | cons c cs ih =>
    unfold elements
    split
    · intro e he
      simp only [List.mem_cons] at he
      rcases he with rfl | he
      · simp
      · exact ih e he
    · rename_i h
      cases hes : elements cs with
      | nil => exact absurd hes (elements_ne_nil cs)
      | cons e es =>
        rw [hes] at ih
        intro x hx
        simp only [List.mem_cons] at hx
        rcases hx with rfl | hx
        · have := ih e (by simp)
          simp only [List.mem_cons, not_or]
          exact ⟨fun hc => h hc.symm, this⟩
        · exact ih x (by simp [hx])

theorem copyElem_eq (out rest : List Char) :
    copyElem out rest
      = (out ++ rest.takeWhile (fun c => decide (c ≠ '/')),
          rest.dropWhile (fun c => decide (c ≠ '/'))) := by
  induction rest generalizing out with
  | nil => simp [copyElem]
  | cons c cs ih =>
    unfold copyElem
    by_cases h : c = '/'
    · simp [h]
    · simp [h, ih]

theorem copyElem_name (out e t : List Char) (he : '/' ∉ e)
    (ht : t = [] ∨ ∃ u, t = '/' :: u) : copyElem out (e ++ t) = (out ++ e, t) := by
  induction e generalizing out with
  | nil =>
    rcases ht with rfl | ⟨u, rfl⟩ <;> simp [copyElem]
  | cons c cs ih =>
    simp only [List.mem_cons, not_or] at he
    have hc : c ≠ '/' := fun h => he.1 h.symm
    have hstep : copyElem out (c :: (cs ++ t)) = copyElem (out ++ [c]) (cs ++ t) := by
      simp [copyElem, hc]
    rw [List.cons_append, hstep, ih _ he.2]
    simp

theorem cleanLoop_nil (rooted : Bool) (fuel : Nat) (out : List Char) (dotdot : Nat) :
    cleanLoop rooted fuel [] out dotdot = out := by
  cases fuel <;> simp [cleanLoop]

theorem cleanLoop_slash (rooted : Bool) (fuel : Nat) (cs out : List Char) (dotdot : Nat) :
    cleanLoop rooted (fuel + 1) ('/' :: cs) out dotdot = cleanLoop rooted fuel cs out dotdot := by
  simp [cleanLoop]

/-- One iteration on a real element `e` followed by the end of the path or
by a slash: the default case of the switch runs and copies `e`. -/
theorem cleanLoop_name (rooted : Bool) (fuel : Nat) (e t out : List Char) (dotdot : Nat)
    (he : IsName e) (ht : t = [] ∨ ∃ u, t = '/' :: u) :
    cleanLoop rooted (fuel + 1) (e ++ t) out dotdot
      = cleanLoop rooted fuel t
          ((if (rooted = true ∧ out.length ≠ 1) ∨ (rooted = false ∧ out.length ≠ 0)
              then out ++ ['/'] else out) ++ e) dotdot := by
  obtain ⟨hne, hsl, hd, hdd⟩ := he
  cases e with
  | nil => exact absurd rfl hne
  | cons c cs =>
    simp only [List.mem_cons, not_or] at hsl
    have hc : c ≠ '/' := fun h => hsl.1 h.symm
    have h2 : ¬ (c = '.' ∧ (cs ++ t = [] ∨ (cs ++ t).head? = some '/')) := by
      rintro ⟨rfl, h⟩
      cases cs with
      | nil => exact hd rfl
      | cons c2 cs2 =>
        simp only [List.mem_cons, not_or] at hsl
        simp at h
        exact hsl.2.1 h.symm
    have h3 : ¬ (c = '.' ∧ (cs ++ t).head? = some '.'
        ∧ ((cs ++ t).tail = [] ∨ (cs ++ t).tail.head? = some '/')) := by
      rintro ⟨rfl, hh, h⟩
      cases cs with
      | nil =>
        rcases ht with rfl | ⟨u, rfl⟩ <;> simp at hh
      | cons c2 cs2 =>
        simp only [List.mem_cons, not_or] at hsl
        cases cs2 with
        | nil =>
          simp at hh
          subst hh
          exact hdd rfl
        | cons c3 cs3 =>
          simp only [List.mem_cons, not_or] at hsl
          simp at h
          exact hsl.2.2.1 h.symm
    have hcopy := fun o => copyElem_name o (c :: cs) t
      (by simp only [List.mem_cons, not_or]; exact hsl) ht
    rw [List.cons_append] at hcopy ⊢
    rw [cleanLoop]
    simp only [hc, h2, h3, if_false, hcopy]

theorem joinElems_snoc (es : List (List Char)) (x : List Char) (hes : es ≠ []) :
    joinElems (es ++ [x]) = joinElems es ++ '/' :: x := by
  induction es with
  | nil => exact absurd rfl hes
  | cons e es ih =>
    cases es with
    | nil => simp [joinElems]
    | cons e2 es => simp only [List.cons_append, joinElems] at ih ⊢; simp [ih]

/-- On a rooted path made of real elements only, the loop copies the input
behind what is already written, with one slash between the two unless the
buffer holds only the leading slash. -/
theorem cleanLoop_names (es : List (List Char)) (hes : es ≠ [])
    (hall : ∀ e ∈ es, IsName e) :
    ∀ (fuel : Nat) (out : List Char), (joinElems es).length ≤ fuel → 1 ≤ out.length →
      cleanLoop true fuel (joinElems es) out 1
        = (if out.length = 1 then out else out ++ ['/']) ++ joinElems es := by
  induction es with
  | nil => exact absurd rfl hes
  | cons e es ih =>
    intro fuel out hfuel hout
    have he : IsName e := hall e (by simp)
    have hlen : 1 ≤ e.length := by
      rcases e with _ | ⟨c, cs⟩
      · exact absurd rfl he.1
      · simp
    cases es with
    | nil =>
      simp only [joinElems] at hfuel ⊢
      obtain ⟨f, rfl⟩ : ∃ f, fuel = f + 1 := ⟨fuel - 1, by omega⟩
      have := cleanLoop_name true f e [] out 1 he (Or.inl rfl)
      rw [List.append_nil] at this
      rw [this, cleanLoop_nil]
      by_cases h1 : out.length = 1 <;> simp [h1]
    | cons e2 es =>
      simp only [joinElems, List.length_append, List.length_cons] at hfuel ⊢
      obtain ⟨f, rfl⟩ : ∃ f, fuel = f + 1 + 1 := ⟨fuel - 2, by omega⟩
      rw [cleanLoop_name true (f + 1) e _ out 1 he (Or.inr ⟨_, rfl⟩), cleanLoop_slash]
      rw [ih (by simp) (fun x hx => hall x (by simp [hx])) f _ (by omega)
        (by simp only [List.length_append]; omega)]
      have h2 : ¬ ((if (true = true ∧ out.length ≠ 1) ∨ (true = false ∧ out.length ≠ 0)
          then out ++ ['/'] else out) ++ e).length = 1 := by
        simp only [List.length_append]
        split <;> (try simp only [List.length_append, List.length_cons, List.length_nil]) <;> omega
      rw [if_neg h2]
      by_cases h1 : out.length = 1 <;> simp [h1, joinElems]

theorem joinBuf_pair (d e : String) (hd : d ≠ "") :
    joinBuf [] [d, e] = d.data ++ '/' :: e.data := by
  have hdata : d.data ≠ [] := fun h => hd (String.ext h)
  have hpos : 0 < d.length := List.length_pos.mpr hdata
  simp [joinBuf, hd, hpos]

/-- `Clean` leaves a rooted path of real elements as it is. -/
theorem cleanChars_names (es : List (List Char)) (hes : es ≠ [])
    (hall : ∀ e ∈ es, IsName e) :
    cleanChars ('/' :: joinElems es) = '/' :: joinElems es := by
  have h := cleanLoop_names es hes hall (joinElems es).length.succ ['/'] (Nat.le_succ _)
    (by simp)
  have hne : joinElems es ≠ [] := by
    cases es with
    | nil => exact absurd rfl hes
    | cons e es =>
      have he := (hall e (by simp)).1
      cases es with
      | nil => simpa [joinElems] using he
      | cons e2 es => simp [joinElems]
  simp only [cleanChars, List.head?_cons, List.tail_cons, List.length_cons, decide_True,
    if_true, reduceCtorEq, if_false]
  rw [show (joinElems es).length + 1 = (joinElems es).length.succ from rfl, h]
  simp

theorem isName_pidlock : IsName "pid.lock".data := by
  refine ⟨?_, ?_, ?_, ?_⟩ <;> decide

end path

/-- C1: for every document whose data directory `d` is a clean absolute path
other than `/` (it starts with a slash, has no trailing slash and no empty,
`.` or `..` element), `PIDFile` returns exactly `d ++ "/pid.lock"`. -/
theorem Config.PIDFile_of_isCleanAbs (c : Config) (h : path.IsCleanAbs c.Redpanda.Directory) :
    c.PIDFile = c.Redpanda.Directory ++ "/pid.lock" := by
  obtain ⟨hhead, hroot, _, helems⟩ := h
  unfold Config.PIDFile
  generalize c.Redpanda.Directory = d at *
  have hd : d ≠ "" := by
    rintro rfl
    simp at hhead
  obtain ⟨tl, htl⟩ : ∃ tl, d.data = '/' :: tl := by
    cases hdata : d.data with
    | nil => rw [hdata] at hhead; simp at hhead
    | cons x tl =>
      rw [hdata] at hhead
      simp at hhead
      exact ⟨tl, by rw [hhead]⟩
  rw [htl] at helems
  simp only [List.tail_cons] at helems
  have hall : ∀ e ∈ path.elements tl ++ ["pid.lock".data], path.IsName e := by
    intro e he
    rcases List.mem_append.mp he with he | he
    · have := helems e he
      exact ⟨this.1, path.slash_not_mem_elements tl e he, this.2.1, this.2.2⟩
    · simp only [List.mem_singleton] at he
      rw [he]
      exact path.isName_pidlock
  have hclean := path.cleanChars_names _ (by simp) hall
  rw [path.joinElems_snoc _ _ (path.elements_ne_nil tl), path.joinElems_elements] at hclean
  have hsum : ¬ (List.map String.length [d, "pid.lock"]).sum = 0 := by
    have h8 : "pid.lock".length = 8 := by decide
    simp only [List.map, List.sum_cons, List.sum_nil, h8]
    omega
  unfold path.Join
  rw [if_neg hsum]
  apply String.ext
  simp only [path.Clean, path.joinBuf_pair d _ hd, htl, String.data_append]
  exact hclean

/-! ## The last element of `PIDFile` -/

namespace path

theorem backtrackRev_spec (dotdot : Nat) (l : List Char) (h : dotdot < l.length) :
    ∃ suf, l = suf ++ backtrackRev dotdot l ∧ dotdot ≤ (backtrackRev dotdot l).length := by
  induction l with
  | nil => simp at h
  | cons b rest ih =>
    unfold backtrackRev
    split
    · rename_i hc
      obtain ⟨suf, hs, hl⟩ := ih hc.1
      exact ⟨b :: suf, by rw [List.cons_append, ← hs], hl⟩
    · exact ⟨[b], rfl, by simp at h; omega⟩

theorem backtrack_spec (dotdot : Nat) (out : List Char) (h : dotdot < out.length) :
    ∃ suf, out = backtrack dotdot out ++ suf ∧ dotdot ≤ (backtrack dotdot out).length := by
  obtain ⟨suf, hs, hl⟩ := backtrackRev_spec dotdot out.reverse (by simpa using h)
  refine ⟨suf.reverse, ?_, by simpa [backtrack] using hl⟩
  have := congrArg List.reverse hs
  simpa [backtrack] using this

theorem head?_append_of_head? {a : Char} {l : List Char} (m : List Char)
    (h : l.head? = some a) : (l ++ m).head? = some a := by
  cases l with
  | nil => simp at h
  | cons x xs => simpa using h

theorem head?_backtrack (dotdot : Nat) (out : List Char) (h : dotdot < out.length)
    (hd : 1 ≤ dotdot) (hout : out.head? = some '/') :
    (backtrack dotdot out).head? = some '/' := by
  obtain ⟨suf, hs, hl⟩ := backtrack_spec dotdot out h
  cases hb : backtrack dotdot out with
  | nil => rw [hb] at hl; simp at hl; omega
  | cons x xs =>
    rw [hb] at hs
    rw [hs] at hout
    simpa using hout

theorem tail_pidlock_cons {c : Char} {cs : List Char}
    (h : ∃ xs, c :: cs = xs ++ '/' :: "pid.lock".data) :
    (c = '/' ∧ cs = "pid.lock".data) ∨ ∃ xs, cs = xs ++ '/' :: "pid.lock".data := by
  obtain ⟨xs, hxs⟩ := h
  cases xs with
  | nil =>
    simp only [List.nil_append, List.cons.injEq] at hxs
    exact Or.inl hxs
  | cons x xs =>
    simp only [List.cons_append, List.cons.injEq] at hxs
    exact Or.inr ⟨xs, hxs.2⟩

theorem dropWhile_tail_pidlock (xs : List Char) :
    ∃ ys, (xs ++ '/' :: "pid.lock".data).dropWhile (fun c => decide (c ≠ '/'))
      = ys ++ '/' :: "pid.lock".data := by
  induction xs with
  | nil => exact ⟨[], by simp⟩
  | cons x xs ih =>
    by_cases hx : x = '/'
    · exact ⟨x :: xs, by simp [hx]⟩
    · obtain ⟨ys, hys⟩ := ih
      exact ⟨ys, by simpa [hx] using hys⟩

theorem length_dropWhile_le (p : Char → Bool) (l : List Char) :
    (l.dropWhile p).length ≤ l.length := by
  induction l with
  | nil => simp
  | cons x xs ih =>
    rw [List.dropWhile_cons]
    split
    · simp only [List.length_cons]; omega
    · simp

theorem pidlock_cons : "pid.lock".data = 'p' :: "id.lock".data := rfl

theorem pidlock_ne_cons {c : Char} {cs : List Char} (hc : c ≠ 'p') :
    c :: cs ≠ "pid.lock".data := by
  rw [pidlock_cons]
  intro h
  exact hc (List.cons.inj h).1

/-- Whatever was read before, once the unread input ends in `/pid.lock` the
loop finishes with a buffer whose last element is `pid.lock`. -/
theorem cleanLoop_endsPidLock (rooted : Bool) :
    ∀ (fuel : Nat) (rest out : List Char) (dotdot : Nat), rest.length ≤ fuel →
      (rooted = true → out.head? = some '/' ∧ 1 ≤ dotdot) →
      ((∃ xs, rest = xs ++ '/' :: "pid.lock".data) ∨ rest = "pid.lock".data) →
      EndsPidLock (cleanLoop rooted fuel rest out dotdot) := by
  intro fuel
  induction fuel with
  | zero =>
    intro rest out dotdot hlen _ hrest
    have hnil : rest = [] := List.length_eq_zero.mp (Nat.le_zero.mp hlen)
    subst hnil
    rcases hrest with ⟨xs, h⟩ | h
    · simp at h
    · rw [pidlock_cons] at h; simp at h
  | succ fuel ih =>
    intro rest out dotdot hlen hinv hrest
    cases rest with
    | nil =>
      rcases hrest with ⟨xs, h⟩ | h
      · simp at h
      · rw [pidlock_cons] at h; simp at h
    | cons c cs =>
      simp only [List.length_cons] at hlen
      have hcs : cs.length ≤ fuel := by omega
      have hlen2 : cs.tail.length ≤ fuel := by
        simp only [List.length_tail]; omega
      rw [cleanLoop]
      split
      · -- empty element
        rename_i hc
        apply ih cs out dotdot hcs hinv
        rcases hrest with h | h
        · rcases tail_pidlock_cons h with ⟨_, h2⟩ | h2
          · exact Or.inr h2
          · exact Or.inl h2
        · exact absurd h (pidlock_ne_cons (by rw [hc]; decide))
      · rename_i hc1
        have hcs_tail : c ≠ 'p' → ∃ xs, cs = xs ++ '/' :: "pid.lock".data := by
          intro hp
          rcases hrest with h | h
          · rcases tail_pidlock_cons h with ⟨h1, _⟩ | h2
            · exact absurd h1 hc1
            · exact h2
          · exact absurd h (pidlock_ne_cons hp)
        split
        · -- . element
          rename_i hc2
          exact ih cs out dotdot hcs hinv (Or.inl (hcs_tail (by rw [hc2.1]; decide)))
        · split
          · -- .. element
            rename_i hc2 hc3
            have htail : ∃ xs, cs.tail = xs ++ '/' :: "pid.lock".data := by
              obtain ⟨xs, h2⟩ := hcs_tail (by rw [hc3.1]; decide)
              cases cs with
              | nil => simp at h2
              | cons c2 cs2 =>
                have h3 : c2 = '.' := by simpa using hc3.2.1
                rcases tail_pidlock_cons ⟨xs, h2⟩ with ⟨h4, _⟩ | h4
                · rw [h3] at h4; exact absurd h4 (by decide)
                · simpa using h4
            split
            · rename_i hdd
              apply ih _ _ _ hlen2 _ (Or.inl htail)
              intro hr
              exact ⟨head?_backtrack _ _ hdd (hinv hr).2 (hinv hr).1, (hinv hr).2⟩
            · split
              · rename_i hr
                apply ih _ _ _ hlen2 _ (Or.inl htail)
                intro hr2
                rw [hr] at hr2
                exact absurd hr2 (by decide)
              · exact ih _ _ _ hlen2 hinv (Or.inl htail)
          · -- real element
            rename_i hc2 hc3
            simp only [copyElem_eq]
            have hdw : (c :: cs).dropWhile (fun c => decide (c ≠ '/'))
                = cs.dropWhile (fun c => decide (c ≠ '/')) := by
              simp [hc1]
            rcases hrest with h | h
            · rcases tail_pidlock_cons h with ⟨h1, _⟩ | ⟨xs, h2⟩
              · exact absurd h1 hc1
              · obtain ⟨ys, hys⟩ := dropWhile_tail_pidlock xs
                rw [hdw]
                apply ih
                · exact Nat.le_trans (length_dropWhile_le _ _) hcs
                · intro hr
                  refine ⟨head?_append_of_head? _ ?_, (hinv hr).2⟩
                  split
                  · exact head?_append_of_head? _ (hinv hr).1
                  · exact (hinv hr).1
                · rw [h2]
                  exact Or.inl ⟨ys, hys⟩
            · rw [h]
              have h1 : List.dropWhile (fun c => decide (c ≠ '/')) "pid.lock".data = [] := by
                decide
              have h2 : List.takeWhile (fun c => decide (c ≠ '/')) "pid.lock".data
                  = "pid.lock".data := by decide
              rw [h1, h2, cleanLoop_nil]
              split
              · exact Or.inr ⟨out, by simp⟩
              · rename_i hno
                cases rooted with
                | true =>
                  have hl : out.length = 1 := by
                    by_contra hl
                    exact hno (Or.inl ⟨rfl, hl⟩)
                  have hh := (hinv rfl).1
                  cases out with
                  | nil => simp at hl
                  | cons x xs =>
                    have hx : x = '/' := by simpa using hh
                    have hxs : xs = [] := by
                      simp only [List.length_cons] at hl
                      exact List.length_eq_zero.mp (by omega)
                    subst hx hxs
                    exact Or.inr ⟨[], by simp⟩
                | false =>
                  have hl : out.length = 0 := by
                    by_contra hl
                    exact hno (Or.inr ⟨rfl, hl⟩)
                  have ho : out = [] := List.length_eq_zero.mp hl
                  subst ho
                  exact Or.inl (by simp)

theorem EndsPidLock.length_ne_zero {r : List Char} (h : EndsPidLock r) : r.length ≠ 0 := by
  rcases h with h | ⟨pre, h⟩ <;> rw [h]
  · decide
  · simp

theorem cleanChars_endsPidLock (d : List Char) (hd : d ≠ []) :
    EndsPidLock (cleanChars (d ++ '/' :: "pid.lock".data)) := by
  cases d with
  | nil => exact absurd rfl hd
  | cons x xs =>
    have key : EndsPidLock
        (if (decide ((x :: xs ++ '/' :: "pid.lock".data).head? = some '/')) = true then
          cleanLoop (decide ((x :: xs ++ '/' :: "pid.lock".data).head? = some '/'))
            (x :: xs ++ '/' :: "pid.lock".data).length
            (x :: xs ++ '/' :: "pid.lock".data).tail ['/'] 1
        else
          cleanLoop (decide ((x :: xs ++ '/' :: "pid.lock".data).head? = some '/'))
            (x :: xs ++ '/' :: "pid.lock".data).length
            (x :: xs ++ '/' :: "pid.lock".data) [] 0) := by
      split
      · apply cleanLoop_endsPidLock
        · simp
        · intro _; simp
        · exact Or.inl ⟨xs, by simp⟩
      · rename_i hr
        apply cleanLoop_endsPidLock
        · simp
        · intro h; exact absurd h hr
        · exact Or.inl ⟨x :: xs, by simp⟩
    unfold cleanChars
    rw [if_neg (by simp)]
    simp only
    rw [if_neg key.length_ne_zero]
    exact key

end path

/-- C10: for every document, whatever its data directory, the last element
of `PIDFile()` is `pid.lock`: the result is `pid.lock` or ends in
`/pid.lock`; and the call leaves the document as it was. -/
theorem Config.PIDFile_last_element (c : Config) :
    (c.callPIDFile.1 = "pid.lock" ∨ ∃ pre : String, c.callPIDFile.1 = pre ++ "/pid.lock")
      ∧ c.callPIDFile.2 = c := by
  refine ⟨?_, rfl⟩
  show (c.PIDFile = "pid.lock" ∨ ∃ pre : String, c.PIDFile = pre ++ "/pid.lock")
  unfold Config.PIDFile
  generalize c.Redpanda.Directory = d
  by_cases hd : d = ""
  · subst hd
    exact Or.inl (by decide)
  · have hdata : d.data ≠ [] := fun h => hd (String.ext h)
    have hsum : ¬ (List.map String.length [d, "pid.lock"]).sum = 0 := by
      have h8 : "pid.lock".length = 8 := by decide
      simp only [List.map, List.sum_cons, List.sum_nil, h8]
      omega
    unfold path.Join
    rw [if_neg hsum, path.joinBuf_pair d _ hd]
    rcases path.cleanChars_endsPidLock d.data hdata with h | ⟨pre, h⟩
    · exact Or.inl (String.ext (by simpa [path.Clean] using h))
    · refine Or.inr ⟨⟨pre⟩, String.ext ?_⟩
      simp only [path.Clean, String.data_append]
      exact h


/-! ## The path routines on the test vectors of the Go standard library -/

namespace path

theorem Clean_vectors :
    -- already clean
    Clean "" = "." ∧ Clean "abc" = "abc" ∧ Clean "abc/def" = "abc/def" ∧ Clean "a/b/c" = "a/b/c"
      ∧ Clean "." = "." ∧ Clean ".." = ".." ∧ Clean "../.." = "../.."
      ∧ Clean "../../abc" = "../../abc" ∧ Clean "/abc" = "/abc" ∧ Clean "/" = "/"
      -- trailing slash
      ∧ Clean "abc/" = "abc" ∧ Clean "abc/def/" = "abc/def" ∧ Clean "a/b/c/" = "a/b/c"
      ∧ Clean "./" = "." ∧ Clean "../" = ".." ∧ Clean "../../" = "../.." ∧ Clean "/abc/" = "/abc"
      -- doubled slash
      ∧ Clean "abc//def//ghi" = "abc/def/ghi" ∧ Clean "//abc" = "/abc" ∧ Clean "///abc" = "/abc"
      ∧ Clean "//abc//" = "/abc" ∧ Clean "abc//" = "abc"
      -- . elements
      ∧ Clean "abc/./def" = "abc/def" ∧ Clean "/./abc/def" = "/abc/def" ∧ Clean "abc/." = "abc"
      -- .. elements
      ∧ Clean "abc/def/ghi/../jkl" = "abc/def/jkl" ∧ Clean "abc/def/../ghi/../jkl" = "abc/jkl"
      ∧ Clean "abc/def/.." = "abc" ∧ Clean "abc/def/../.." = "." ∧ Clean "/abc/def/../.." = "/"
      ∧ Clean "abc/def/../../.." = ".." ∧ Clean "/abc/def/../../.." = "/"
      ∧ Clean "abc/def/../../../ghi/jkl/../../../mno" = "../../mno"
      -- combinations
      ∧ Clean "abc/./../def" = "def" ∧ Clean "abc//./../def" = "def"
      ∧ Clean "abc/../../././../def" = "../../def" := by
  decide

theorem Join_vectors :
    Join [] = "" ∧ Join [""] = "" ∧ Join ["a"] = "a" ∧ Join ["a", "b"] = "a/b"
      ∧ Join ["a", ""] = "a" ∧ Join ["", "b"] = "b" ∧ Join ["/", "a"] = "/a"
      ∧ Join ["/", ""] = "/" ∧ Join ["a/", "b"] = "a/b" ∧ Join ["a/", ""] = "a"
      ∧ Join ["", ""] = "" := by
  decide

/-- The fuel of the loop is never used up: with at least as much fuel as
unread bytes, one unit more changes nothing. -/
theorem cleanLoop_fuel_succ (rooted : Bool) :
    ∀ (fuel : Nat) (rest out : List Char) (dotdot : Nat), rest.length ≤ fuel →
      cleanLoop rooted (fuel + 1) rest out dotdot = cleanLoop rooted fuel rest out dotdot := by
  intro fuel
  induction fuel with
  | zero =>
    intro rest out dotdot hlen
    have hnil : rest = [] := List.length_eq_zero.mp (Nat.le_zero.mp hlen)
    subst hnil
    simp [cleanLoop]
  | succ fuel ih =>
    intro rest out dotdot hlen
    cases rest with
    | nil => simp [cleanLoop]
    | cons c cs =>
      simp only [List.length_cons] at hlen
      have hcs : cs.length ≤ fuel := by omega
      have htl : cs.tail.length ≤ fuel := by
        simp only [List.length_tail]; omega
      by_cases hc : c = '/'
      · subst hc
        rw [cleanLoop_slash, cleanLoop_slash]
        exact ih cs out dotdot hcs
      · have hcopy : ∀ o, (copyElem o (c :: cs)).2.length ≤ fuel := by
          intro o
          rw [copyElem_eq]
          simp only
          rw [List.dropWhile_cons_of_pos (by simpa using hc)]
          exact Nat.le_trans (length_dropWhile_le _ _) hcs
        rw [cleanLoop, cleanLoop]
        simp only [hc, if_false]
        split_ifs
        all_goals first
          | exact ih _ _ _ hcs
          | exact ih _ _ _ htl
          | exact ih _ _ _ (hcopy _)

/-- With enough fuel the result of the loop does not depend on the fuel. -/
theorem cleanLoop_fuel (rooted : Bool) (rest out : List Char) (dotdot : Nat) :
    ∀ extra : Nat,
      cleanLoop rooted (rest.length + extra) rest out dotdot
        = cleanLoop rooted rest.length rest out dotdot := by
  intro extra
  induction extra with
  | zero => rfl
  | succ n ih =>
    rw [← ih, ← Nat.add_assoc]
    exact cleanLoop_fuel_succ rooted _ rest out dotdot (Nat.le_add_right _ _)

end path
/-! ## Properties of `TLS.Config` -/

/-- C3: for every file system, `TLS.Config` on a nil descriptor returns a
nil configuration and a nil error, and reads no file. -/
theorem tlsConfig_nil (h : tlscfg.Host) (fs : afero.Fs) :
    (TLS.Config h none fs).config = none ∧ (TLS.Config h none fs).err = none
      ∧ (TLS.Config h none fs).reads = [] :=
  ⟨rfl, rfl, rfl⟩

/-- C5: for every descriptor whose three paths are empty and every file
system (also one on which every read fails), `TLS.Config` returns a
configuration and a nil error; the configuration carries no client
certificate and no root set of its own, and no file is read. -/
theorem tlsConfig_all_empty (h : tlscfg.Host) (t : TLS) (fs : afero.Fs)
    (hk : t.KeyFile = "") (hc : t.CertFile = "") (ht : t.TruststoreFile = "") :
    (TLS.Config h (some t) fs).config = some ⟨[], none, none⟩
      ∧ (TLS.Config h (some t) fs).err = none
      ∧ (TLS.Config h (some t) fs).reads = [] := by
  simp [TLS.Config, tlscfg.New, tlscfg.applyOpts, tlscfg.WithFS, tlscfg.MaybeWithDiskCA,
    tlscfg.MaybeWithDiskKeyPair, hk, hc, ht]

/-- C4, as stated, fails: with a certificate but no key, a truststore path
and a file system on which every read fails, the error returned is the
failure to read the truststore, not `IncompleteKeyPair`. -/
theorem tlsConfig_incomplete_truststore_first :
    ((⟨"", "cert.pem", "ca.pem"⟩ : TLS).CertFile ≠ ""
      ∧ (⟨"", "cert.pem", "ca.pem"⟩ : TLS).KeyFile = "")
    ∧ (TLS.Config tlscfg.Host.lenient (some ⟨"", "cert.pem", "ca.pem"⟩) afero.failing).err
        = some (.CredentialReadFailure "ca.pem" "file does not exist")
    ∧ (TLS.Config tlscfg.Host.lenient (some ⟨"", "cert.pem", "ca.pem"⟩) afero.failing).err
        ≠ some .IncompleteKeyPair := by
  decide

/-- C4, amended: for every descriptor in which exactly one of `CertFile` and
`KeyFile` is non-empty, and every file system, `TLS.Config` returns no
configuration and an error; the error is `IncompleteKeyPair` exactly when the
truststore path is empty or the truststore is read through `fs` and parsed
successfully.  Otherwise the error is that of loading the truststore, which
is attempted first: the read failure, with the path of the truststore and
the error of the file system, when the file cannot be read, and the parse
failure when its content is not a PEM bundle.  The truststore is the only
file read. -/
theorem tlsConfig_incomplete (h : tlscfg.Host) (t : TLS) (fs : afero.Fs)
    (hone : (t.CertFile ≠ "" ∧ t.KeyFile = "") ∨ (t.CertFile = "" ∧ t.KeyFile ≠ "")) :
    (TLS.Config h (some t) fs).config = none
      ∧ (TLS.Config h (some t) fs).err ≠ none
      ∧ ((TLS.Config h (some t) fs).err = some .IncompleteKeyPair
          ↔ (t.TruststoreFile = ""
              ∨ ∃ ca, fs t.TruststoreFile = .ok ca ∧ h.appendCertsFromPEM ca = true))
      ∧ (∀ e, t.TruststoreFile ≠ "" → fs t.TruststoreFile = .error e →
          (TLS.Config h (some t) fs).err
            = some (.CredentialReadFailure t.TruststoreFile e))
      ∧ (∀ ca, t.TruststoreFile ≠ "" → fs t.TruststoreFile = .ok ca →
          h.appendCertsFromPEM ca = false →
          (TLS.Config h (some t) fs).err = some .InvalidCA)
      ∧ (TLS.Config h (some t) fs).reads
          = (if t.TruststoreFile = "" then [] else [t.TruststoreFile]) := by
  have hkp : ∀ c : tlscfg.cfg,
      tlscfg.MaybeWithDiskKeyPair h t.CertFile t.KeyFile c = (c, some .IncompleteKeyPair) := by
    intro c
    rcases hone with ⟨h1, h2⟩ | ⟨h1, h2⟩ <;> simp [tlscfg.MaybeWithDiskKeyPair, h1, h2]
  by_cases ht : t.TruststoreFile = ""
  · simp [TLS.Config, tlscfg.New, tlscfg.applyOpts, tlscfg.WithFS, tlscfg.MaybeWithDiskCA,
      hkp, ht]
  · cases hfs : fs t.TruststoreFile with
    | error e =>
      simp [TLS.Config, tlscfg.New, tlscfg.applyOpts, tlscfg.WithFS, tlscfg.MaybeWithDiskCA,
        tlscfg.cfg.ReadFile, tlscfg.FuncFS, afero.ReadFile, hkp, ht, hfs]
    | ok ca =>
      cases hca : h.appendCertsFromPEM ca <;>
      simp [TLS.Config, tlscfg.New, tlscfg.applyOpts, tlscfg.WithFS, tlscfg.MaybeWithDiskCA,
        tlscfg.cfg.ReadFile, tlscfg.FuncFS, afero.ReadFile, tlscfg.WithCA, hkp, ht, hfs, hca]
/-! ## The snapshot, the deprecated fields, and `PIDFile` on an empty directory -/

theorem Config.File_assign (c : Config) (u : ConfigUpdate) : (c.assign u).File = c.File := by
  cases u <;> rfl

theorem Config.File_run (evs : List ConfigEvent) :
    ∀ c : Config, (c.run evs).File = (Config.lastPristine evs).orElse (fun _ => c.File) := by
  induction evs with
  | nil => intro c; rfl
  | cons ev evs ih =>
    intro c
    have hstep : c.run (ev :: evs) = (c.step ev).run evs := rfl
    rw [hstep, ih]
    cases ev with
    | setPristine doc =>
      cases h : Config.lastPristine evs <;> simp [Config.lastPristine, h, Config.step,
        Config.setPristine, Config.File]
    | assign u =>
      simp [Config.lastPristine, Config.step, Config.File_assign]

theorem Config.lastPristine_eq_none (evs : List ConfigEvent) :
    Config.lastPristine evs = none ↔ ∀ ev ∈ evs, ∀ doc, ev ≠ .setPristine doc := by
  induction evs with
  | nil => simp [Config.lastPristine]
  | cons ev evs ih =>
    cases ev with
    | setPristine doc =>
      cases h : Config.lastPristine evs <;> simp [Config.lastPristine, h]
    | assign u => simp [Config.lastPristine, ih]

/-- C6: `File` returns exactly the stored snapshot; on a document built from
the zero document by any sequence of events it returns the snapshot set last,
and returns nil if and only if no event set a snapshot; an empty file decodes
to the zero document, and a snapshot set from it is returned as a present
snapshot, all of whose fields are zero, so it differs from nil. -/
theorem Config.File_absent_or_empty :
    (∀ c : Config, c.File = c.file)
      ∧ (∀ evs : List ConfigEvent,
          (Config.zero.run evs).File = Config.lastPristine evs
            ∧ ((Config.zero.run evs).File = none
                ↔ ∀ ev ∈ evs, ∀ doc, ev ≠ .setPristine doc))
      ∧ (∀ L : yaml.Leaf, yaml.Config.unmarshal L Config.zero (.map []) = some Config.zero)
      ∧ (∀ c : Config, (c.setPristine Config.zero).File = some Config.zero
          ∧ (c.setPristine Config.zero).File ≠ none) := by
  refine ⟨fun _ => rfl, fun evs => ?_,
    fun L => by simp [yaml.Config.unmarshal, yaml.keysOf],
    fun c => ⟨rfl, by simp [Config.setPristine, Config.File]⟩⟩
  have h : (Config.zero.run evs).File = Config.lastPristine evs := by
    rw [Config.File_run]
    cases Config.lastPristine evs <;> rfl
  exact ⟨h, by rw [h]; exact Config.lastPristine_eq_none evs⟩

/-- C9: the resolution of the deprecated fields is a function of the rpk
block: a per-API value that is present and not empty is the resolved value,
otherwise the resolved value is the legacy field (nothing when that is
absent too); resolving leaves the document and its snapshot as they were. -/
theorem resolveRpk_order (c : Config) :
    (∀ t, c.Rpk.KafkaAPI.TLS = some t → t.isZero = false → (resolveRpk c).1.1 = some t)
      ∧ ((c.Rpk.KafkaAPI.TLS = none ∨ ∃ t, c.Rpk.KafkaAPI.TLS = some t ∧ t.isZero = true) →
          (resolveRpk c).1.1 = c.Rpk.TLS)
      ∧ (∀ s, c.Rpk.KafkaAPI.SASL = some s → s.isZero = false → (resolveRpk c).1.2.1 = some s)
      ∧ ((c.Rpk.KafkaAPI.SASL = none ∨ ∃ s, c.Rpk.KafkaAPI.SASL = some s ∧ s.isZero = true) →
          (resolveRpk c).1.2.1 = c.Rpk.SASL)
      ∧ (∀ t, c.Rpk.AdminAPI.TLS = some t → t.isZero = false → (resolveRpk c).1.2.2 = some t)
      ∧ ((c.Rpk.AdminAPI.TLS = none ∨ ∃ t, c.Rpk.AdminAPI.TLS = some t ∧ t.isZero = true) →
          (resolveRpk c).1.2.2 = c.Rpk.TLS)
      ∧ (resolveRpk c).2 = c ∧ (resolveRpk c).2.File = c.File := by
  refine ⟨?_, ?_, ?_, ?_, ?_, ?_, rfl, rfl⟩
  · intro t h1 h2
    simp [resolveRpk, rpkKafkaTLS, resolveDeprecated, h1, h2]
  · rintro (h | ⟨t, h1, h2⟩) <;>
      simp [resolveRpk, rpkKafkaTLS, resolveDeprecated, *]
  · intro t h1 h2
    simp [resolveRpk, rpkKafkaSASL, resolveDeprecated, h1, h2]
  · rintro (h | ⟨t, h1, h2⟩) <;>
      simp [resolveRpk, rpkKafkaSASL, resolveDeprecated, *]
  · intro t h1 h2
    simp [resolveRpk, rpkAdminTLS, resolveDeprecated, h1, h2]
  · rintro (h | ⟨t, h1, h2⟩) <;>
      simp [resolveRpk, rpkAdminTLS, resolveDeprecated, *]

/-- C2, as stated, fails: on the zero document, whose data directory is
empty, `PIDFile` returns the relative path `pid.lock`. -/
theorem Config.PIDFile_empty_relative :
    Config.zero.Redpanda.Directory = "" ∧ Config.zero.PIDFile = "pid.lock"
      ∧ Config.zero.PIDFile.data.head? ≠ some '/' := by
  decide

/-- C2, amended: for every document whose data directory is the empty
string, `PIDFile` returns the relative path `pid.lock`; it has no error
result. -/
theorem Config.PIDFile_of_empty (c : Config) (h : c.Redpanda.Directory = "") :
    c.PIDFile = "pid.lock" := by
  unfold Config.PIDFile
  rw [h]
  decide


/-! ## The snapshot and the updates of the working document, in memory -/

namespace mem

theorem apply_of_ne (w : Write) (H : Heap) (r : Ref) (h : r ≠ w.target) :
    w.apply H r = H r := by
  simp [Write.apply, h]

theorem lookup_setSlot_ne (name n : String) (s : Slot) (h : name ≠ n) :
    ∀ fs : Fields, (setSlot name s fs).lookup n = fs.lookup n := by
  intro fs
  induction fs with
  | nil => rfl
  | cons p fs ih =>
    obtain ⟨a, x⟩ := p
    unfold setSlot
    split
    · rename_i ha
      have hna : (n == a) = false := by
        simp only [beq_eq_false_iff_ne, ne_eq]
        intro hh
        exact h (ha ▸ hh).symm
      simp [List.lookup, hna]
    · by_cases hna : n = a
      · subst hna; simp [List.lookup]
      · have hb : (n == a) = false := by simpa using hna
        simp [List.lookup, hb, ih]

/-- A write that is an update through the exported fields leaves the pointer
`c.file` as it is. -/
theorem File_apply (w : Write) (H : Heap) (c f : Ref) (hf : File H c = some f)
    (hexp : w.exported c) : File (w.apply H) c = some f := by
  by_cases hc : c = w.target
  · have hH : ∃ fs, H c = some (.struct fs) := by
      unfold File at hf
      cases hHc : H c with
      | none => simp [hHc] at hf
      | some o =>
        cases o with
        | struct fs => exact ⟨fs, rfl⟩
        | map es => simp [hHc] at hf
        | array xs => simp [hHc] at hf
    obtain ⟨fs, hfs⟩ := hH
    cases w with
    | field r name s =>
      have hr : r = c := hc.symm
      have hname : name ≠ "file" := by
        intro hh
        have := hexp hr
        simp [Config.unexported, hh] at this
      subst hr
      unfold File at hf ⊢
      simp only [Write.apply, Write.target, if_true, hfs, Write.on] at hf ⊢
      rw [lookup_setSlot_ne name "file" s hname]
      exact hf
    | index r k s =>
      have hr : r = c := hc.symm
      subst hr
      unfold File at hf ⊢
      simp only [Write.apply, Write.target, if_true, hfs, Write.on] at hf ⊢
      exact hf
    | delete r k =>
      have hr : r = c := hc.symm
      subst hr
      unfold File at hf ⊢
      simp only [Write.apply, Write.target, if_true, hfs, Write.on] at hf ⊢
      exact hf
    | elem r i name s =>
      have hr : r = c := hc.symm
      subst hr
      unfold File at hf ⊢
      simp only [Write.apply, Write.target, if_true, hfs, Write.on] at hf ⊢
      exact hf
    | alloc r o =>
      have hr : r = c := hc.symm
      subst hr
      unfold File at hf ⊢
      simp only [Write.apply, Write.target, if_true, hfs, Write.on] at hf ⊢
      exact hf
  · unfold File at hf ⊢
    rw [apply_of_ne w H c hc]
    exact hf

theorem File_writes (c f : Ref) :
    ∀ (ws : List Write) (H : Heap), File H c = some f → (∀ w ∈ ws, w.exported c) →
      File (run ws H) c = some f := by
  intro ws
  induction ws with
  | nil => intro H hf _; exact hf
  | cons w ws ih =>
    intro H hf hexp
    exact ih (w.apply H) (File_apply w H c f hf (hexp w (by simp)))
      (fun w' hw' => hexp w' (by simp [hw']))

/-- Two heaps that agree on what is reachable from `a` in the first have the
same objects reachable from `a`. -/
theorem reach_congr (H H' : Heap) (a : Ref) (hagree : ∀ r, Reach H a r → H' r = H r) :
    ∀ r, Reach H' a r ↔ Reach H a r := by
  intro r
  constructor
  · intro h
    induction h with
    | refl => exact Reach.refl
    | step o _ ho hr ih => exact Reach.step o ih (by rw [← hagree _ ih]; exact ho) hr
  · intro h
    induction h with
    | refl => exact Reach.refl
    | @step b _ o hb ho hr ih => exact Reach.step o ih (by rw [hagree _ hb]; exact ho) hr

/-- Writes to objects that are not reachable from `a` leave every object
reachable from `a` as it is, and leave the same objects reachable. -/
theorem run_frame (a : Ref) :
    ∀ (ws : List Write) (H : Heap), (∀ w ∈ ws, ¬ Reach H a w.target) →
      (∀ r, Reach H a r → run ws H r = H r) ∧ ∀ r, Reach (run ws H) a r ↔ Reach H a r := by
  intro ws
  induction ws with
  | nil => intro H _; exact ⟨fun _ _ => rfl, fun _ => Iff.rfl⟩
  | cons w ws ih =>
    intro H hsep
    have hstep : ∀ r, Reach H a r → w.apply H r = H r := by
      intro r hr
      apply apply_of_ne
      intro heq
      exact hsep w (by simp) (heq ▸ hr)
    have hreach := reach_congr H (w.apply H) a hstep
    obtain ⟨h1, h2⟩ := ih (w.apply H) (fun w' hw' hr =>
      hsep w' (by simp [hw']) ((hreach _).mp hr))
    refine ⟨fun r hr => ?_, fun r => ?_⟩
    · show run ws (w.apply H) r = H r
      rw [h1 r ((hreach r).mpr hr), hstep r hr]
    · show Reach (run ws (w.apply H)) a r ↔ Reach H a r
      rw [h2 r, hreach r]

theorem reach_sampleHeap : ∀ r, Reach sampleHeap 1 r → r = 1 ∨ r = 2 := by
  intro r h
  induction h with
  | refl => exact Or.inl rfl
  | @step b r o _ ho hr ih =>
    rcases ih with rfl | rfl
    · have ho' : o = .struct (setSlot "Other" (.ref (some 2)) Config.zero) := by
        simp only [sampleHeap, Option.some.injEq] at ho
        exact ho.symm
      have hrefs : (Obj.struct (setSlot "Other" (.ref (some 2)) Config.zero)).refs = [2] := by
        decide
      rw [ho', hrefs] at hr
      exact Or.inr (by simpa using hr)
    · have ho' : o = .map [("extra_feature_flag", .scalar (.bool true))] := by
        simp only [sampleHeap, Option.some.injEq] at ho
        exact ho.symm
      rw [ho'] at hr
      simp [Obj.refs, Fields.refs, Slot.refs] at hr

/-- C7, as stated, fails: on the sample heap the working document at 0 has
its snapshot at 1.  The two updates `c.Other = c.File().Other` and
`c.Other["k"] = "v"` go through the exported field `Other` of the working
document; the pointer `File()` returns is still 1, but the map behind
`Other` of the snapshot, which held one entry, holds two. -/
theorem File_shared_storage :
    File sampleHeap 0 = some 1
      ∧ (∀ w ∈ sharingWrites, w.exported 0)
      ∧ File (run sharingWrites sampleHeap) 0 = some 1
      ∧ behind sampleHeap 1 "Other"
          = some (.map [("extra_feature_flag", .scalar (.bool true))])
      ∧ behind (run sharingWrites sampleHeap) 1 "Other"
          = some (.map [("extra_feature_flag", .scalar (.bool true)),
              ("k", .scalar (.str "v"))]) := by
  decide

/-- C7, amended: once the snapshot is set, every sequence of updates of the
working document through its exported fields (field assignments, writes
through maps, slices and pointers, allocations) leaves the pointer returned
by `File()` unchanged; when none of the updates writes to an object
reachable from the snapshot, every object reachable from the snapshot is
unchanged too, and the same objects are reachable from it. -/
theorem File_frame (H : Heap) (c f : Ref) (ws : List Write) (hf : File H c = some f)
    (hexp : ∀ w ∈ ws, w.exported c) :
    File (run ws H) c = some f
      ∧ ((∀ w ∈ ws, ¬ Reach H f w.target) →
          (∀ r, Reach H f r → run ws H r = H r)
            ∧ ∀ r, Reach (run ws H) f r ↔ Reach H f r) :=
  ⟨File_writes c f ws H hf hexp, run_frame f ws H⟩

/-- On the sample heap the updates `c.NodeUUID = "n1"; c.Other["k"] = "v"`
write to the working document and to its own map: the snapshot keeps its
pointer, its struct and its map. -/
theorem File_frame_sample :
    File (run ownWrites sampleHeap) 0 = some 1
      ∧ run ownWrites sampleHeap 1 = sampleHeap 1
      ∧ run ownWrites sampleHeap 2 = sampleHeap 2 := by
  have h := File_frame sampleHeap 0 1 ownWrites (by decide) (by decide)
  have hsep : ∀ w ∈ ownWrites, ¬ Reach sampleHeap 1 w.target := by
    intro w hw hr
    have hcases := reach_sampleHeap _ hr
    simp only [ownWrites, List.mem_cons, List.mem_singleton, List.not_mem_nil, or_false] at hw
    rcases hw with rfl | rfl <;> simp [Write.target] at hcases
  obtain ⟨hfile, hrest⟩ := h
  obtain ⟨hsame, _⟩ := hrest hsep
  exact ⟨hfile, hsame 1 Reach.refl,
    hsame 2 (Reach.step _ Reach.refl (rfl : sampleHeap 1 = some _) (by decide))⟩

end mem

/-! ## The inline maps keep what no field models -/

namespace yaml

theorem setMapIndex_fresh (m : OtherMap) (k : String) (v : Value)
    (h : ∀ kv ∈ m, kv.1 ≠ k) : setMapIndex m k v = m ++ [(k, v)] := by
  unfold setMapIndex
  rw [List.filter_eq_self.mpr]
  intro kv hkv
  simpa using h kv hkv

/-- Decoding a mapping with distinct keys entry by entry: the inline map
grows by the entries no named field claims, in order. -/
theorem foldlM_other {B : Type} (other : B → OtherMap) (keys : List String)
    (setField : B → String → Value → Option B)
    (hknown : ∀ out k v out', k ∈ keys → setField out k v = some out' → other out' = other out)
    (hunknown : ∀ out k v out', k ∉ keys → setField out k v = some out' →
      other out' = setMapIndex (other out) k v) :
    ∀ (m : List (String × Value)) (out out' : B), (keysOf m).Nodup →
      (∀ kv ∈ other out, kv.1 ∉ keysOf m) →
      m.foldlM (fun acc kv => setField acc kv.1 kv.2) out = some out' →
      other out' = other out ++ unknown keys m := by
  intro m
  induction m with
  | nil =>
    intro out out' _ _ h
    simp only [List.foldlM, pure, Option.some.injEq] at h
    subst h
    simp [unknown]
  | cons e m ih =>
    intro out out' hnd hdis h
    obtain ⟨k, v⟩ := e
    simp only [keysOf, List.map_cons, List.nodup_cons] at hnd
    simp only [List.foldlM, bind, Option.bind_eq_some] at h
    obtain ⟨o1, h1, h2⟩ := h
    by_cases hk : k ∈ keys
    · have ho := hknown out k v o1 hk h1
      have := ih o1 out' hnd.2 (by
        intro kv hkv
        rw [ho] at hkv
        have := hdis kv hkv
        simp only [keysOf, List.map_cons, List.mem_cons, not_or] at this
        exact this.2) h2
      rw [this, ho]
      simp [unknown, hk]
    · have hfresh : ∀ kv ∈ other out, kv.1 ≠ k := by
        intro kv hkv
        have := hdis kv hkv
        simp only [keysOf, List.map_cons, List.mem_cons, not_or] at this
        exact this.1
      have ho := hunknown out k v o1 hk h1
      rw [setMapIndex_fresh _ _ _ hfresh] at ho
      have := ih o1 out' hnd.2 (by
        intro kv hkv
        rw [ho] at hkv
        rcases List.mem_append.mp hkv with hkv | hkv
        · have := hdis kv hkv
          simp only [keysOf, List.map_cons, List.mem_cons, not_or] at this
          exact this.2
        · simp only [List.mem_singleton] at hkv
          rw [hkv]
          exact hnd.1) h2
      rw [this, ho]
      simp [unknown, hk]

theorem lookup_mem {β : Type} (k : String) (f : β) :
    ∀ l : List (String × β), l.lookup k = some f → (k, f) ∈ l := by
  intro l
  induction l with
  | nil => intro h; simp [List.lookup] at h
  | cons p l ih =>
    obtain ⟨a, b⟩ := p
    intro h
    by_cases hka : k = a
    · subst hka
      simp [List.lookup] at h
      simp [h]
    · have hbeq : (k == a) = false := by simpa using hka
      simp only [List.lookup, hbeq] at h
      exact List.mem_cons_of_mem _ (ih h)

theorem lookup_none {β : Type} (k : String) :
    ∀ l : List (String × β), l.lookup k = none ↔ k ∉ l.map Prod.fst := by
  intro l
  induction l with
  | nil => simp [List.lookup]
  | cons p l ih =>
    obtain ⟨a, b⟩ := p
    by_cases hka : k = a
    · subst hka
      simp [List.lookup]
    · have hbeq : (k == a) = false := by simpa using hka
      simp only [List.lookup, hbeq, ih, List.map_cons, List.mem_cons, hka, false_or]

/-- Entries that every step of the decoding ignores can be deleted from the
mapping. -/
theorem foldlM_ignored {B : Type} (keys : List String)
    (setField : B → String → Value → Option B)
    (hignored : ∀ out k v, k ∉ keys → setField out k v = some out) :
    ∀ (m : List (String × Value)) (out : B),
      m.foldlM (fun acc kv => setField acc kv.1 kv.2) out
        = (m.filter (fun kv => decide (kv.1 ∈ keys))).foldlM
            (fun acc kv => setField acc kv.1 kv.2) out := by
  intro m
  induction m with
  | nil => intro out; rfl
  | cons e m ih =>
    intro out
    by_cases hk : e.1 ∈ keys
    · rw [List.filter_cons_of_pos (by simpa using hk)]
      simp only [List.foldlM]
      cases setField out e.1 e.2 with
      | none => rfl
      | some o1 => exact ih o1
    · rw [List.filter_cons_of_neg (by simpa using hk)]
      simp only [List.foldlM, hignored out e.1 e.2 hk]
      exact ih out

/-- Decoding a mapping with distinct keys entry by entry: a part `get` of the
block that only the key `k0` touches ends up decoded from the value under
`k0`. -/
theorem foldlM_untouched {B F : Type} (get : B → F) (k0 : String)
    (setField : B → String → Value → Option B)
    (hother : ∀ out k v out', k ≠ k0 → setField out k v = some out' → get out' = get out) :
    ∀ (m : List (String × Value)) (out out' : B), k0 ∉ keysOf m →
      m.foldlM (fun acc kv => setField acc kv.1 kv.2) out = some out' →
      get out' = get out := by
  intro m
  induction m with
  | nil =>
    intro out out' _ h
    simp only [List.foldlM, pure, Option.some.injEq] at h
    rw [h]
  | cons e m ih =>
    intro out out' hk h
    simp only [keysOf, List.map_cons, List.mem_cons, not_or] at hk
    simp only [List.foldlM, bind, Option.bind_eq_some] at h
    obtain ⟨o1, h1, h2⟩ := h
    rw [ih o1 out' hk.2 h2, hother out e.1 e.2 o1 (fun hh => hk.1 hh.symm) h1]

theorem foldlM_field {B F : Type} (get : B → F) (k0 : String)
    (setField : B → String → Value → Option B) (dec : F → Value → Option F)
    (hother : ∀ out k v out', k ≠ k0 → setField out k v = some out' → get out' = get out)
    (hset : ∀ out v out', setField out k0 v = some out' → dec (get out) v = some (get out')) :
    ∀ (m : List (String × Value)) (out out' : B) (v0 : Value), (keysOf m).Nodup →
      (k0, v0) ∈ m →
      m.foldlM (fun acc kv => setField acc kv.1 kv.2) out = some out' →
      dec (get out) v0 = some (get out') := by
  intro m
  induction m with
  | nil => intro out out' v0 _ hmem; simp at hmem
  | cons e m ih =>
    intro out out' v0 hnd hmem h
    simp only [keysOf, List.map_cons, List.nodup_cons] at hnd
    simp only [List.foldlM, bind, Option.bind_eq_some] at h
    obtain ⟨o1, h1, h2⟩ := h
    rcases List.mem_cons.mp hmem with heq | hmem'
    · subst heq
      rw [hset out v0 o1 h1, foldlM_untouched get k0 setField hother m o1 out' hnd.1 h2]
    · have hne : e.1 ≠ k0 := by
        intro hh
        apply hnd.1
        rw [hh]
        exact List.mem_map.mpr ⟨(k0, v0), hmem', rfl⟩
      rw [← hother out e.1 e.2 o1 hne h1]
      exact ih o1 out' v0 hnd.2 hmem' h2

theorem find?_omitted (c : Prop) [Decidable c] (k k0 : String) (v : Value)
    (rest : List (String × Value)) (h : k ≠ k0) :
    ((if c then [] else [(k, v)]) ++ rest).find? (fun kv => decide (kv.1 = k0))
      = rest.find? (fun kv => decide (kv.1 = k0)) := by
  split <;> simp [h]

theorem find?_other_key (k k0 : String) (v : Value)
    (rest : List (String × Value)) (h : k ≠ k0) :
    ([(k, v)] ++ rest).find? (fun kv => decide (kv.1 = k0))
      = rest.find? (fun kv => decide (kv.1 = k0)) := by
  simp [h]

theorem nodup_keysOf_filter (p : String × Value → Bool) (m : List (String × Value))
    (hnd : (keysOf m).Nodup) : (keysOf (m.filter p)).Nodup :=
  List.Nodup.sublist (List.Sublist.map _ (List.filter_sublist _)) hnd

theorem entries_mem {kv : String × Value} {t : Value} (h : kv ∈ Value.entries t) :
    ∃ mt, t = Value.map mt := by
  cases t with
  | map mt => exact ⟨mt, rfl⟩
  | _ => simp [Value.entries] at h

/-- The value found under a key of a mapping is the value of one of its
entries. -/
theorem get_mem {k : String} {v w : Value} (h : Value.get k v = some w) :
    ∃ m, v = Value.map m ∧ (k, w) ∈ m := by
  cases v with
  | map m =>
    refine ⟨m, rfl, ?_⟩
    simp only [Value.get, Option.map_eq_some'] at h
    obtain ⟨kv, hfind, hw⟩ := h
    have hmem := List.mem_of_find?_eq_some hfind
    have hk := List.find?_some hfind
    simp only [decide_eq_true_eq] at hk
    obtain ⟨a, b⟩ := kv
    simp only at hk hw
    subst hk hw
    exact hmem
  | _ => simp [Value.get] at h

theorem sliceOf_get {α : Type} (f : Value → Option α) :
    ∀ (xs : List Value) (ys : List α) (i : Nat) (x : Value), sliceOf f xs = some ys →
      xs.get? i = some x → ∃ y, ys.get? i = some y ∧ f x = some y := by
  intro xs
  induction xs with
  | nil => intro ys i x _ hx; simp at hx
  | cons a as ih =>
    intro ys i x h hx
    unfold sliceOf at h
    cases hfa : f a with
    | none => simp [hfa] at h
    | some b =>
      cases hrest : sliceOf f as with
      | none => simp [hfa, hrest] at h
      | some bs =>
        simp only [hfa, hrest, Option.some.injEq] at h
        subst h
        cases i with
        | zero =>
          simp only [List.get?_cons_zero, Option.some.injEq] at hx
          subst hx
          exact ⟨b, rfl, hfa⟩
        | succ j =>
          simp only [List.get?_cons_succ] at hx
          exact ih bs j x hrest hx

theorem at_key {k : String} {p : List Step} {v t : Value} :
    Value.at (.key k :: p) v = some t
      ↔ ∃ w, Value.get k v = some w ∧ Value.at p w = some t := by
  simp only [Value.at, Option.bind_eq_some]

theorem at_idx {i : Nat} {p : List Step} {v t : Value} :
    Value.at (.idx i :: p) v = some t
      ↔ ∃ xs w, v = Value.seq xs ∧ xs.get? i = some w ∧ Value.at p w = some t := by
  cases v with
  | seq xs =>
    simp only [Value.at, Option.bind_eq_some, Value.seq.injEq]
    constructor
    · rintro ⟨w, hw, ht⟩
      exact ⟨xs, w, rfl, hw, ht⟩
    · rintro ⟨ys, w, rfl, hw, ht⟩
      exact ⟨w, hw, ht⟩
  | _ => simp [Value.at]

theorem at_nil {v t : Value} : Value.at [] v = some t ↔ v = t := by
  simp [Value.at]

theorem distinct_key {k : String} {p : List Step} {v : Value}
    (h : DistinctKeysAlong (.key k :: p) v) :
    (keysOf (Value.entries v)).Nodup
      ∧ ∀ w, Value.get k v = some w → DistinctKeysAlong p w := by
  simpa only [DistinctKeysAlong] using h

theorem distinct_idx {i : Nat} {p : List Step} {xs : List Value}
    (h : DistinctKeysAlong (.idx i :: p) (Value.seq xs)) :
    ∀ w, xs.get? i = some w → DistinctKeysAlong p w := by
  simpa only [DistinctKeysAlong] using h

theorem distinct_nil {v : Value} (h : DistinctKeysAlong [] v) :
    (keysOf (Value.entries v)).Nodup := by
  simpa only [DistinctKeysAlong] using h

theorem ptr_of_map {α : Type} (unm : α → Value → Option α) (zero : α)
    (mt : List (String × Value)) (r : Option α)
    (h : ptr unm zero none (Value.map mt) = some r) :
    ∃ y, unm zero (Value.map mt) = some y ∧ r = some y := by
  simp only [ptr, Option.getD_none, Option.map_eq_some'] at h
  obtain ⟨y, hy, hr⟩ := h
  exact ⟨y, hy, hr.symm⟩

theorem get?_ne_nil_isEmpty {α : Type} {l : List α} {i : Nat} {y : α}
    (h : l.get? i = some y) : l.isEmpty = false := by
  cases l with
  | nil => simp at h
  | cons a as => rfl

end yaml

namespace yaml

theorem keys_eq_ServerTLS (L : Leaf) :
    (ServerTLS.fields L).map Prod.fst = ServerTLS.keys := rfl

theorem keys_eq_RedpandaConfig (L : Leaf) :
    (RedpandaConfig.fields L).map Prod.fst = RedpandaConfig.keys := rfl

theorem keys_eq_Pandaproxy (L : Leaf) :
    (Pandaproxy.fields L).map Prod.fst = Pandaproxy.keys := rfl

theorem keys_eq_KafkaClient (L : Leaf) :
    (KafkaClient.fields L).map Prod.fst = KafkaClient.keys := rfl

theorem keys_eq_Config (L : Leaf) :
    (Config.fields L).map Prod.fst = Config.keys := rfl

theorem keys_eq_RpkConfig (L : Leaf) :
    (RpkConfig.fields L).map Prod.fst = RpkConfig.keys := rfl

theorem keys_eq_SchemaRegistry (L : Leaf) :
    (SchemaRegistry.fields L).map Prod.fst = SchemaRegistry.keys := rfl

theorem unmarshal_map_ServerTLS (L : Leaf) (out : ServerTLS)
    (m : List (String × Value)) (hnd : (keysOf m).Nodup) :
    ServerTLS.unmarshal L out (.map m)
      = m.foldlM (fun acc kv => ServerTLS.setField L acc kv.1 kv.2) out := by
  simp [ServerTLS.unmarshal, hnd]

theorem unmarshal_map_RedpandaConfig (L : Leaf) (out : RedpandaConfig)
    (m : List (String × Value)) (hnd : (keysOf m).Nodup) :
    RedpandaConfig.unmarshal L out (.map m)
      = m.foldlM (fun acc kv => RedpandaConfig.setField L acc kv.1 kv.2) out := by
  simp [RedpandaConfig.unmarshal, hnd]

theorem unmarshal_map_Pandaproxy (L : Leaf) (out : Pandaproxy)
    (m : List (String × Value)) (hnd : (keysOf m).Nodup) :
    Pandaproxy.unmarshal L out (.map m)
      = m.foldlM (fun acc kv => Pandaproxy.setField L acc kv.1 kv.2) out := by
  simp [Pandaproxy.unmarshal, hnd]

theorem unmarshal_map_KafkaClient (L : Leaf) (out : KafkaClient)
    (m : List (String × Value)) (hnd : (keysOf m).Nodup) :
    KafkaClient.unmarshal L out (.map m)
      = m.foldlM (fun acc kv => KafkaClient.setField L acc kv.1 kv.2) out := by
  simp [KafkaClient.unmarshal, hnd]

theorem unmarshal_map_Config (L : Leaf) (out : Config)
    (m : List (String × Value)) (hnd : (keysOf m).Nodup) :
    Config.unmarshal L out (.map m)
      = m.foldlM (fun acc kv => Config.setField L acc kv.1 kv.2) out := by
  simp [Config.unmarshal, hnd]

theorem unmarshal_map_RpkConfig (L : Leaf) (out : RpkConfig)
    (m : List (String × Value)) (hnd : (keysOf m).Nodup) :
    RpkConfig.unmarshal L out (.map m)
      = m.foldlM (fun acc kv => RpkConfig.setField L acc kv.1 kv.2) out := by
  simp [RpkConfig.unmarshal, hnd]

theorem unmarshal_map_SchemaRegistry (L : Leaf) (out : SchemaRegistry)
    (m : List (String × Value)) (hnd : (keysOf m).Nodup) :
    SchemaRegistry.unmarshal L out (.map m)
      = m.foldlM (fun acc kv => SchemaRegistry.setField L acc kv.1 kv.2) out := by
  simp [SchemaRegistry.unmarshal, hnd]

theorem fields_other_ServerTLS (L : Leaf) :
    ∀ p ∈ ServerTLS.fields L,
      ∀ (out : ServerTLS) (v : Value) (out' : ServerTLS),
        p.2 out v = some out' → out'.Other = out.Other := by
  unfold ServerTLS.fields
  simp only [List.forall_mem_cons]
  refine ⟨?_, ?_, ?_, ?_, ?_, ?_, ?_⟩
  all_goals first
    | (intro out v out' h; obtain ⟨x, _, rfl⟩ := Option.map_eq_some'.mp h; rfl)
    | (intro p hp; cases hp)

theorem setField_known_ServerTLS (L : Leaf) (out out' : ServerTLS) (k : String)
    (v : Value)
    (hk : k ∈ ServerTLS.keys) (h : ServerTLS.setField L out k v = some out') :
    out'.Other = out.Other := by
  unfold ServerTLS.setField at h
  cases hl : (ServerTLS.fields L).lookup k with
  | none =>
    rw [lookup_none, keys_eq_ServerTLS] at hl
    exact absurd hk hl
  | some set =>
    rw [hl] at h
    exact fields_other_ServerTLS L _ (lookup_mem _ _ _ hl) out v out' h

theorem setField_unknown_ServerTLS (L : Leaf) (out out' : ServerTLS) (k : String)
    (v : Value)
    (hk : k ∉ ServerTLS.keys) (h : ServerTLS.setField L out k v = some out') :
    out'.Other = setMapIndex out.Other k v := by
  unfold ServerTLS.setField at h
  rw [← keys_eq_ServerTLS L, ← lookup_none] at hk
  rw [hk] at h
  simp only [Option.some.injEq] at h
  rw [← h]

/-- Decoding a mapping with distinct keys into a `ServerTLS` whose inline map is
empty leaves in `Other` exactly the entries no named field claims. -/
theorem unmarshal_other_ServerTLS (L : Leaf) (out b : ServerTLS)
    (m : List (String × Value)) (hnd : (keysOf m).Nodup) (hout : out.Other = [])
    (h : ServerTLS.unmarshal L out (.map m) = some b) :
    b.Other = unknown ServerTLS.keys m := by
  rw [unmarshal_map_ServerTLS L out m hnd] at h
  have := foldlM_other (fun x : ServerTLS => x.Other) ServerTLS.keys
    (ServerTLS.setField L)
    (fun o k v o' => setField_known_ServerTLS L o o' k v)
    (fun o k v o' => setField_unknown_ServerTLS L o o' k v) m out b hnd
    (by intro kv hkv; simp only [hout, List.not_mem_nil] at hkv) h
  simpa [hout] using this

theorem other_subset_marshal_ServerTLS (b : ServerTLS) :
    ∀ kv ∈ b.Other, kv ∈ Value.entries (ServerTLS.marshal b) := by
  intro kv hkv
  simp only [ServerTLS.marshal, Value.entries]
  exact List.mem_append_right _ hkv

/-- A node with distinct keys decoded into a `ServerTLS` whose inline map is
empty: the entries no named field claims are entries of the encoding. -/
theorem keeps_ServerTLS (L : Leaf) (out b : ServerTLS) (t : Value)
    (hnd : (keysOf (Value.entries t)).Nodup) (hout : out.Other = [])
    (h : ServerTLS.unmarshal L out t = some b) :
    ∀ kv ∈ Value.entries t, kv.1 ∉ ServerTLS.keys → kv ∈ Value.entries (ServerTLS.marshal b) := by
  intro kv hkv hk
  obtain ⟨mt, rfl⟩ := entries_mem hkv
  apply other_subset_marshal_ServerTLS
  rw [unmarshal_other_ServerTLS L out b mt hnd hout h]
  exact List.mem_filter.mpr ⟨hkv, by simpa using hk⟩

theorem fields_other_RedpandaConfig (L : Leaf) :
    ∀ p ∈ RedpandaConfig.fields L,
      ∀ (out : RedpandaConfig) (v : Value) (out' : RedpandaConfig),
        p.2 out v = some out' → out'.Other = out.Other := by
  unfold RedpandaConfig.fields
  simp only [List.forall_mem_cons]
  refine ⟨?_, ?_, ?_, ?_, ?_, ?_, ?_, ?_, ?_, ?_, ?_, ?_, ?_, ?_, ?_, ?_, ?_, ?_⟩
  all_goals first
    | (intro out v out' h; obtain ⟨x, _, rfl⟩ := Option.map_eq_some'.mp h; rfl)
    | (intro p hp; cases hp)

theorem setField_known_RedpandaConfig (L : Leaf) (out out' : RedpandaConfig) (k : String)
    (v : Value)
    (hk : k ∈ RedpandaConfig.keys) (h : RedpandaConfig.setField L out k v = some out') :
    out'.Other = out.Other := by
  unfold RedpandaConfig.setField at h
  cases hl : (RedpandaConfig.fields L).lookup k with
  | none =>
    rw [lookup_none, keys_eq_RedpandaConfig] at hl
    exact absurd hk hl
  | some set =>
    rw [hl] at h
    exact fields_other_RedpandaConfig L _ (lookup_mem _ _ _ hl) out v out' h

theorem setField_unknown_RedpandaConfig (L : Leaf) (out out' : RedpandaConfig) (k : String)
    (v : Value)
    (hk : k ∉ RedpandaConfig.keys) (h : RedpandaConfig.setField L out k v = some out') :
    out'.Other = setMapIndex out.Other k v := by
  unfold RedpandaConfig.setField at h
  rw [← keys_eq_RedpandaConfig L, ← lookup_none] at hk
  rw [hk] at h
  simp only [Option.some.injEq] at h
  rw [← h]

/-- Decoding a mapping with distinct keys into a `RedpandaConfig` whose inline map is
empty leaves in `Other` exactly the entries no named field claims. -/
theorem unmarshal_other_RedpandaConfig (L : Leaf) (out b : RedpandaConfig)
    (m : List (String × Value)) (hnd : (keysOf m).Nodup) (hout : out.Other = [])
    (h : RedpandaConfig.unmarshal L out (.map m) = some b) :
    b.Other = unknown RedpandaConfig.keys m := by
  rw [unmarshal_map_RedpandaConfig L out m hnd] at h
  have := foldlM_other (fun x : RedpandaConfig => x.Other) RedpandaConfig.keys
    (RedpandaConfig.setField L)
    (fun o k v o' => setField_known_RedpandaConfig L o o' k v)
    (fun o k v o' => setField_unknown_RedpandaConfig L o o' k v) m out b hnd
    (by intro kv hkv; simp only [hout, List.not_mem_nil] at hkv) h
  simpa [hout] using this

theorem other_subset_marshal_RedpandaConfig (b : RedpandaConfig) :
    ∀ kv ∈ b.Other, kv ∈ Value.entries (RedpandaConfig.marshal b) := by
  intro kv hkv
  simp only [RedpandaConfig.marshal, Value.entries]
  exact List.mem_append_right _ hkv

/-- A node with distinct keys decoded into a `RedpandaConfig` whose inline map is
empty: the entries no named field claims are entries of the encoding. -/
theorem keeps_RedpandaConfig (L : Leaf) (out b : RedpandaConfig) (t : Value)
    (hnd : (keysOf (Value.entries t)).Nodup) (hout : out.Other = [])
    (h : RedpandaConfig.unmarshal L out t = some b) :
    ∀ kv ∈ Value.entries t, kv.1 ∉ RedpandaConfig.keys → kv ∈ Value.entries (RedpandaConfig.marshal b) := by
  intro kv hkv hk
  obtain ⟨mt, rfl⟩ := entries_mem hkv
  apply other_subset_marshal_RedpandaConfig
  rw [unmarshal_other_RedpandaConfig L out b mt hnd hout h]
  exact List.mem_filter.mpr ⟨hkv, by simpa using hk⟩

theorem fields_other_Pandaproxy (L : Leaf) :
    ∀ p ∈ Pandaproxy.fields L,
      ∀ (out : Pandaproxy) (v : Value) (out' : Pandaproxy),
        p.2 out v = some out' → out'.Other = out.Other := by
  unfold Pandaproxy.fields
  simp only [List.forall_mem_cons]
  refine ⟨?_, ?_, ?_, ?_⟩
  all_goals first
    | (intro out v out' h; obtain ⟨x, _, rfl⟩ := Option.map_eq_some'.mp h; rfl)
    | (intro p hp; cases hp)

theorem setField_known_Pandaproxy (L : Leaf) (out out' : Pandaproxy) (k : String)
    (v : Value)
    (hk : k ∈ Pandaproxy.keys) (h : Pandaproxy.setField L out k v = some out') :
    out'.Other = out.Other := by
  unfold Pandaproxy.setField at h
  cases hl : (Pandaproxy.fields L).lookup k with
  | none =>
    rw [lookup_none, keys_eq_Pandaproxy] at hl
    exact absurd hk hl
  | some set =>
    rw [hl] at h
    exact fields_other_Pandaproxy L _ (lookup_mem _ _ _ hl) out v out' h

theorem setField_unknown_Pandaproxy (L : Leaf) (out out' : Pandaproxy) (k : String)
    (v : Value)
    (hk : k ∉ Pandaproxy.keys) (h : Pandaproxy.setField L out k v = some out') :
    out'.Other = setMapIndex out.Other k v := by
  unfold Pandaproxy.setField at h
  rw [← keys_eq_Pandaproxy L, ← lookup_none] at hk
  rw [hk] at h
  simp only [Option.some.injEq] at h
  rw [← h]

/-- Decoding a mapping with distinct keys into a `Pandaproxy` whose inline map is
empty leaves in `Other` exactly the entries no named field claims. -/
theorem unmarshal_other_Pandaproxy (L : Leaf) (out b : Pandaproxy)
    (m : List (String × Value)) (hnd : (keysOf m).Nodup) (hout : out.Other = [])
    (h : Pandaproxy.unmarshal L out (.map m) = some b) :
    b.Other = unknown Pandaproxy.keys m := by
  rw [unmarshal_map_Pandaproxy L out m hnd] at h
  have := foldlM_other (fun x : Pandaproxy => x.Other) Pandaproxy.keys
    (Pandaproxy.setField L)
    (fun o k v o' => setField_known_Pandaproxy L o o' k v)
    (fun o k v o' => setField_unknown_Pandaproxy L o o' k v) m out b hnd
    (by intro kv hkv; simp only [hout, List.not_mem_nil] at hkv) h
  simpa [hout] using this

theorem other_subset_marshal_Pandaproxy (b : Pandaproxy) :
    ∀ kv ∈ b.Other, kv ∈ Value.entries (Pandaproxy.marshal b) := by
  intro kv hkv
  simp only [Pandaproxy.marshal, Value.entries]
  exact List.mem_append_right _ hkv

/-- A node with distinct keys decoded into a `Pandaproxy` whose inline map is
empty: the entries no named field claims are entries of the encoding. -/
theorem keeps_Pandaproxy (L : Leaf) (out b : Pandaproxy) (t : Value)
    (hnd : (keysOf (Value.entries t)).Nodup) (hout : out.Other = [])
    (h : Pandaproxy.unmarshal L out t = some b) :
    ∀ kv ∈ Value.entries t, kv.1 ∉ Pandaproxy.keys → kv ∈ Value.entries (Pandaproxy.marshal b) := by
  intro kv hkv hk
  obtain ⟨mt, rfl⟩ := entries_mem hkv
  apply other_subset_marshal_Pandaproxy
  rw [unmarshal_other_Pandaproxy L out b mt hnd hout h]
  exact List.mem_filter.mpr ⟨hkv, by simpa using hk⟩

theorem fields_other_KafkaClient (L : Leaf) :
    ∀ p ∈ KafkaClient.fields L,
      ∀ (out : KafkaClient) (v : Value) (out' : KafkaClient),
        p.2 out v = some out' → out'.Other = out.Other := by
  unfold KafkaClient.fields
  simp only [List.forall_mem_cons]
  refine ⟨?_, ?_, ?_, ?_, ?_, ?_⟩
  all_goals first
    | (intro out v out' h; obtain ⟨x, _, rfl⟩ := Option.map_eq_some'.mp h; rfl)
    | (intro p hp; cases hp)

theorem setField_known_KafkaClient (L : Leaf) (out out' : KafkaClient) (k : String)
    (v : Value)
    (hk : k ∈ KafkaClient.keys) (h : KafkaClient.setField L out k v = some out') :
    out'.Other = out.Other := by
  unfold KafkaClient.setField at h
  cases hl : (KafkaClient.fields L).lookup k with
  | none =>
    rw [lookup_none, keys_eq_KafkaClient] at hl
    exact absurd hk hl
  | some set =>
    rw [hl] at h
    exact fields_other_KafkaClient L _ (lookup_mem _ _ _ hl) out v out' h

theorem setField_unknown_KafkaClient (L : Leaf) (out out' : KafkaClient) (k : String)
    (v : Value)
    (hk : k ∉ KafkaClient.keys) (h : KafkaClient.setField L out k v = some out') :
    out'.Other = setMapIndex out.Other k v := by
  unfold KafkaClient.setField at h
  rw [← keys_eq_KafkaClient L, ← lookup_none] at hk
  rw [hk] at h
  simp only [Option.some.injEq] at h
  rw [← h]

/-- Decoding a mapping with distinct keys into a `KafkaClient` whose inline map is
empty leaves in `Other` exactly the entries no named field claims. -/
theorem unmarshal_other_KafkaClient (L : Leaf) (out b : KafkaClient)
    (m : List (String × Value)) (hnd : (keysOf m).Nodup) (hout : out.Other = [])
    (h : KafkaClient.unmarshal L out (.map m) = some b) :
    b.Other = unknown KafkaClient.keys m := by
  rw [unmarshal_map_KafkaClient L out m hnd] at h
  have := foldlM_other (fun x : KafkaClient => x.Other) KafkaClient.keys
    (KafkaClient.setField L)
    (fun o k v o' => setField_known_KafkaClient L o o' k v)
    (fun o k v o' => setField_unknown_KafkaClient L o o' k v) m out b hnd
    (by intro kv hkv; simp only [hout, List.not_mem_nil] at hkv) h
  simpa [hout] using this

theorem other_subset_marshal_KafkaClient (b : KafkaClient) :
    ∀ kv ∈ b.Other, kv ∈ Value.entries (KafkaClient.marshal b) := by
  intro kv hkv
  simp only [KafkaClient.marshal, Value.entries]
  exact List.mem_append_right _ hkv

/-- A node with distinct keys decoded into a `KafkaClient` whose inline map is
empty: the entries no named field claims are entries of the encoding. -/
theorem keeps_KafkaClient (L : Leaf) (out b : KafkaClient) (t : Value)
    (hnd : (keysOf (Value.entries t)).Nodup) (hout : out.Other = [])
    (h : KafkaClient.unmarshal L out t = some b) :
    ∀ kv ∈ Value.entries t, kv.1 ∉ KafkaClient.keys → kv ∈ Value.entries (KafkaClient.marshal b) := by
  intro kv hkv hk
  obtain ⟨mt, rfl⟩ := entries_mem hkv
  apply other_subset_marshal_KafkaClient
  rw [unmarshal_other_KafkaClient L out b mt hnd hout h]
  exact List.mem_filter.mpr ⟨hkv, by simpa using hk⟩

theorem fields_other_Config (L : Leaf) :
    ∀ p ∈ Config.fields L,
      ∀ (out : Config) (v : Value) (out' : Config),
        p.2 out v = some out' → out'.Other = out.Other := by
  unfold Config.fields
  simp only [List.forall_mem_cons]
  refine ⟨?_, ?_, ?_, ?_, ?_, ?_, ?_, ?_, ?_, ?_, ?_, ?_⟩
  all_goals first
    | (intro out v out' h; obtain ⟨x, _, rfl⟩ := Option.map_eq_some'.mp h; rfl)
    | (intro p hp; cases hp)

theorem setField_known_Config (L : Leaf) (out out' : Config) (k : String)
    (v : Value)
    (hk : k ∈ Config.keys) (h : Config.setField L out k v = some out') :
    out'.Other = out.Other := by
  unfold Config.setField at h
  cases hl : (Config.fields L).lookup k with
  | none =>
    rw [lookup_none, keys_eq_Config] at hl
    exact absurd hk hl
  | some set =>
    rw [hl] at h
    exact fields_other_Config L _ (lookup_mem _ _ _ hl) out v out' h

theorem setField_unknown_Config (L : Leaf) (out out' : Config) (k : String)
    (v : Value)
    (hk : k ∉ Config.keys) (h : Config.setField L out k v = some out') :
    out'.Other = setMapIndex out.Other k v := by
  unfold Config.setField at h
  rw [← keys_eq_Config L, ← lookup_none] at hk
  rw [hk] at h
  simp only [Option.some.injEq] at h
  rw [← h]

/-- Decoding a mapping with distinct keys into a `Config` whose inline map is
empty leaves in `Other` exactly the entries no named field claims. -/
theorem unmarshal_other_Config (L : Leaf) (out b : Config)
    (m : List (String × Value)) (hnd : (keysOf m).Nodup) (hout : out.Other = [])
    (h : Config.unmarshal L out (.map m) = some b) :
    b.Other = unknown Config.keys m := by
  rw [unmarshal_map_Config L out m hnd] at h
  have := foldlM_other (fun x : Config => x.Other) Config.keys
    (Config.setField L)
    (fun o k v o' => setField_known_Config L o o' k v)
    (fun o k v o' => setField_unknown_Config L o o' k v) m out b hnd
    (by intro kv hkv; simp only [hout, List.not_mem_nil] at hkv) h
  simpa [hout] using this

theorem other_subset_marshal_Config (b : Config) :
    ∀ kv ∈ b.Other, kv ∈ Value.entries (Config.marshal b) := by
  intro kv hkv
  simp only [Config.marshal, Value.entries]
  exact List.mem_append_right _ hkv

/-- A node with distinct keys decoded into a `Config` whose inline map is
empty: the entries no named field claims are entries of the encoding. -/
theorem keeps_Config (L : Leaf) (out b : Config) (t : Value)
    (hnd : (keysOf (Value.entries t)).Nodup) (hout : out.Other = [])
    (h : Config.unmarshal L out t = some b) :
    ∀ kv ∈ Value.entries t, kv.1 ∉ Config.keys → kv ∈ Value.entries (Config.marshal b) := by
  intro kv hkv hk
  obtain ⟨mt, rfl⟩ := entries_mem hkv
  apply other_subset_marshal_Config
  rw [unmarshal_other_Config L out b mt hnd hout h]
  exact List.mem_filter.mpr ⟨hkv, by simpa using hk⟩

theorem setField_ignored_RpkConfig (L : Leaf) (out : RpkConfig) (k : String) (v : Value)
    (hk : k ∉ RpkConfig.keys) : RpkConfig.setField L out k v = some out := by
  unfold RpkConfig.setField
  rw [← keys_eq_RpkConfig L, ← lookup_none] at hk
  rw [hk]

/-- A `RpkConfig` has no inline map: the entries of a mapping that no named field
claims do not reach the decoded block. -/
theorem unmarshal_ignored_RpkConfig (L : Leaf) (out : RpkConfig)
    (m : List (String × Value)) (hnd : (keysOf m).Nodup) :
    RpkConfig.unmarshal L out (.map m)
      = RpkConfig.unmarshal L out
          (.map (m.filter (fun kv => decide (kv.1 ∈ RpkConfig.keys)))) := by
  rw [unmarshal_map_RpkConfig L out m hnd,
    unmarshal_map_RpkConfig L out _ (nodup_keysOf_filter _ m hnd)]
  exact foldlM_ignored RpkConfig.keys (RpkConfig.setField L)
    (fun o k v hk => setField_ignored_RpkConfig L o k v hk) m out

theorem setField_ignored_SchemaRegistry (L : Leaf) (out : SchemaRegistry) (k : String) (v : Value)
    (hk : k ∉ SchemaRegistry.keys) : SchemaRegistry.setField L out k v = some out := by
  unfold SchemaRegistry.setField
  rw [← keys_eq_SchemaRegistry L, ← lookup_none] at hk
  rw [hk]

/-- A `SchemaRegistry` has no inline map: the entries of a mapping that no named field
claims do not reach the decoded block. -/
theorem unmarshal_ignored_SchemaRegistry (L : Leaf) (out : SchemaRegistry)
    (m : List (String × Value)) (hnd : (keysOf m).Nodup) :
    SchemaRegistry.unmarshal L out (.map m)
      = SchemaRegistry.unmarshal L out
          (.map (m.filter (fun kv => decide (kv.1 ∈ SchemaRegistry.keys)))) := by
  rw [unmarshal_map_SchemaRegistry L out m hnd,
    unmarshal_map_SchemaRegistry L out _ (nodup_keysOf_filter _ m hnd)]
  exact foldlM_ignored SchemaRegistry.keys (SchemaRegistry.setField L)
    (fun o k v hk => setField_ignored_SchemaRegistry L o k v hk) m out

end yaml

namespace yaml

theorem fields_frame_Config_redpanda (L : Leaf) :
    ∀ p ∈ Config.fields L, p.1 ≠ "redpanda" →
      ∀ (out : Config) (v : Value) (out' : Config),
        p.2 out v = some out' → out'.Redpanda = out.Redpanda := by
  unfold Config.fields
  simp only [List.forall_mem_cons]
  refine ⟨?_, ?_, ?_, ?_, ?_, ?_, ?_, ?_, ?_, ?_, ?_, ?_⟩
  all_goals first
    | (intro _ out v out' h; obtain ⟨x, _, rfl⟩ := Option.map_eq_some'.mp h; rfl)
    | (intro hne; exact absurd rfl hne)
    | (intro p hp; cases hp)

theorem setField_frame_Config_redpanda (L : Leaf) (out : Config) (k : String) (v : Value)
    (out' : Config) (hk : k ≠ "redpanda")
    (h : Config.setField L out k v = some out') :
    out'.Redpanda = out.Redpanda := by
  unfold Config.setField at h
  cases hl : (Config.fields L).lookup k with
  | none =>
    rw [hl] at h
    simp only [Option.some.injEq] at h
    rw [← h]
  | some set =>
    rw [hl] at h
    exact fields_frame_Config_redpanda L _ (lookup_mem _ _ _ hl) hk out v out' h

theorem setField_at_Config_redpanda (L : Leaf) (out : Config) (v : Value) (out' : Config)
    (h : Config.setField L out "redpanda" v = some out') :
    RedpandaConfig.unmarshal L out.Redpanda v
      = some out'.Redpanda := by
  have hl : (Config.fields L).lookup "redpanda"
      = some (fun out v =>
          (RedpandaConfig.unmarshal L out.Redpanda v).map
            fun x => { out with Redpanda := x }) := by
    rfl
  unfold Config.setField at h
  rw [hl] at h
  obtain ⟨x, hx, rfl⟩ := Option.map_eq_some'.mp h
  exact hx

/-- Decoding a mapping with distinct keys into a `Config`: the field
`Redpanda` is decoded from the value under `redpanda`. -/
theorem hop_Config_redpanda (L : Leaf) (out b : Config) (m : List (String × Value))
    (v : Value) (hnd : (keysOf m).Nodup) (hmem : ("redpanda", v) ∈ m)
    (h : Config.unmarshal L out (.map m) = some b) :
    RedpandaConfig.unmarshal L out.Redpanda v
      = some b.Redpanda := by
  rw [unmarshal_map_Config L out m hnd] at h
  exact foldlM_field (fun x : Config => x.Redpanda) "redpanda"
    (Config.setField L) (fun cur v => RedpandaConfig.unmarshal L cur v)
    (fun o k v o' => setField_frame_Config_redpanda L o k v o')
    (fun o v o' => setField_at_Config_redpanda L o v o') m out b v hnd hmem h

theorem get_Config_redpanda (b : Config) :
    Value.get "redpanda" (Config.marshal b) = some (RedpandaConfig.marshal b.Redpanda) := by
  simp only [Config.marshal, Value.get, List.append_assoc]
  rw [find?_omitted _ _ _ _ _ (by decide),
    find?_omitted _ _ _ _ _ (by decide),
    find?_omitted _ _ _ _ _ (by decide),
    find?_omitted _ _ _ _ _ (by decide),
    find?_other_key _ _ _ _ (by decide)]
  simp

theorem fields_frame_Config_pandaproxy (L : Leaf) :
    ∀ p ∈ Config.fields L, p.1 ≠ "pandaproxy" →
      ∀ (out : Config) (v : Value) (out' : Config),
        p.2 out v = some out' → out'.Pandaproxy = out.Pandaproxy := by
  unfold Config.fields
  simp only [List.forall_mem_cons]
  refine ⟨?_, ?_, ?_, ?_, ?_, ?_, ?_, ?_, ?_, ?_, ?_, ?_⟩
  all_goals first
    | (intro _ out v out' h; obtain ⟨x, _, rfl⟩ := Option.map_eq_some'.mp h; rfl)
    | (intro hne; exact absurd rfl hne)
    | (intro p hp; cases hp)

theorem setField_frame_Config_pandaproxy (L : Leaf) (out : Config) (k : String) (v : Value)
    (out' : Config) (hk : k ≠ "pandaproxy")
    (h : Config.setField L out k v = some out') :
    out'.Pandaproxy = out.Pandaproxy := by
  unfold Config.setField at h
  cases hl : (Config.fields L).lookup k with
  | none =>
    rw [hl] at h
    simp only [Option.some.injEq] at h
    rw [← h]
  | some set =>
    rw [hl] at h
    exact fields_frame_Config_pandaproxy L _ (lookup_mem _ _ _ hl) hk out v out' h

theorem setField_at_Config_pandaproxy (L : Leaf) (out : Config) (v : Value) (out' : Config)
    (h : Config.setField L out "pandaproxy" v = some out') :
    ptr (Pandaproxy.unmarshal L) Pandaproxy.zero out.Pandaproxy v
      = some out'.Pandaproxy := by
  have hl : (Config.fields L).lookup "pandaproxy"
      = some (fun out v =>
          (ptr (Pandaproxy.unmarshal L) Pandaproxy.zero out.Pandaproxy v).map
            fun x => { out with Pandaproxy := x }) := by
    rfl
  unfold Config.setField at h
  rw [hl] at h
  obtain ⟨x, hx, rfl⟩ := Option.map_eq_some'.mp h
  exact hx

/-- Decoding a mapping with distinct keys into a `Config`: the field
`Pandaproxy` is decoded from the value under `pandaproxy`. -/
theorem hop_Config_pandaproxy (L : Leaf) (out b : Config) (m : List (String × Value))
    (v : Value) (hnd : (keysOf m).Nodup) (hmem : ("pandaproxy", v) ∈ m)
    (h : Config.unmarshal L out (.map m) = some b) :
    ptr (Pandaproxy.unmarshal L) Pandaproxy.zero out.Pandaproxy v
      = some b.Pandaproxy := by
  rw [unmarshal_map_Config L out m hnd] at h
  exact foldlM_field (fun x : Config => x.Pandaproxy) "pandaproxy"
    (Config.setField L) (fun cur v => ptr (Pandaproxy.unmarshal L) Pandaproxy.zero cur v)
    (fun o k v o' => setField_frame_Config_pandaproxy L o k v o')
    (fun o v o' => setField_at_Config_pandaproxy L o v o') m out b v hnd hmem h

theorem get_Config_pandaproxy (b : Config) (y : Pandaproxy) (hy : b.Pandaproxy = some y) :
    Value.get "pandaproxy" (Config.marshal b) = some (Pandaproxy.marshal y) := by
  simp only [Config.marshal, Value.get, List.append_assoc]
  rw [find?_omitted _ _ _ _ _ (by decide),
    find?_omitted _ _ _ _ _ (by decide),
    find?_omitted _ _ _ _ _ (by decide),
    find?_omitted _ _ _ _ _ (by decide),
    find?_other_key _ _ _ _ (by decide),
    find?_other_key _ _ _ _ (by decide),
    find?_other_key _ _ _ _ (by decide)]
  simp [hy, ofPtr]

theorem fields_frame_Config_pandaproxy_client (L : Leaf) :
    ∀ p ∈ Config.fields L, p.1 ≠ "pandaproxy_client" →
      ∀ (out : Config) (v : Value) (out' : Config),
        p.2 out v = some out' → out'.PandaproxyClient = out.PandaproxyClient := by
  unfold Config.fields
  simp only [List.forall_mem_cons]
  refine ⟨?_, ?_, ?_, ?_, ?_, ?_, ?_, ?_, ?_, ?_, ?_, ?_⟩
  all_goals first
    | (intro _ out v out' h; obtain ⟨x, _, rfl⟩ := Option.map_eq_some'.mp h; rfl)
    | (intro hne; exact absurd rfl hne)
    | (intro p hp; cases hp)

theorem setField_frame_Config_pandaproxy_client (L : Leaf) (out : Config) (k : String) (v : Value)
    (out' : Config) (hk : k ≠ "pandaproxy_client")
    (h : Config.setField L out k v = some out') :
    out'.PandaproxyClient = out.PandaproxyClient := by
  unfold Config.setField at h
  cases hl : (Config.fields L).lookup k with
  | none =>
    rw [hl] at h
    simp only [Option.some.injEq] at h
    rw [← h]
  | some set =>
    rw [hl] at h
    exact fields_frame_Config_pandaproxy_client L _ (lookup_mem _ _ _ hl) hk out v out' h

theorem setField_at_Config_pandaproxy_client (L : Leaf) (out : Config) (v : Value) (out' : Config)
    (h : Config.setField L out "pandaproxy_client" v = some out') :
    ptr (KafkaClient.unmarshal L) KafkaClient.zero out.PandaproxyClient v
      = some out'.PandaproxyClient := by
  have hl : (Config.fields L).lookup "pandaproxy_client"
      = some (fun out v =>
          (ptr (KafkaClient.unmarshal L) KafkaClient.zero out.PandaproxyClient v).map
            fun x => { out with PandaproxyClient := x }) := by
    rfl
  unfold Config.setField at h
  rw [hl] at h
  obtain ⟨x, hx, rfl⟩ := Option.map_eq_some'.mp h
  exact hx

/-- Decoding a mapping with distinct keys into a `Config`: the field
`PandaproxyClient` is decoded from the value under `pandaproxy_client`. -/
theorem hop_Config_pandaproxy_client (L : Leaf) (out b : Config) (m : List (String × Value))
    (v : Value) (hnd : (keysOf m).Nodup) (hmem : ("pandaproxy_client", v) ∈ m)
    (h : Config.unmarshal L out (.map m) = some b) :
    ptr (KafkaClient.unmarshal L) KafkaClient.zero out.PandaproxyClient v
      = some b.PandaproxyClient := by
  rw [unmarshal_map_Config L out m hnd] at h
  exact foldlM_field (fun x : Config => x.PandaproxyClient) "pandaproxy_client"
    (Config.setField L) (fun cur v => ptr (KafkaClient.unmarshal L) KafkaClient.zero cur v)
    (fun o k v o' => setField_frame_Config_pandaproxy_client L o k v o')
    (fun o v o' => setField_at_Config_pandaproxy_client L o v o') m out b v hnd hmem h

theorem get_Config_pandaproxy_client (b : Config) (y : KafkaClient) (hy : b.PandaproxyClient = some y) :
    Value.get "pandaproxy_client" (Config.marshal b) = some (KafkaClient.marshal y) := by
  simp only [Config.marshal, Value.get, List.append_assoc]
  rw [find?_omitted _ _ _ _ _ (by decide),
    find?_omitted _ _ _ _ _ (by decide),
    find?_omitted _ _ _ _ _ (by decide),
    find?_omitted _ _ _ _ _ (by decide),
    find?_other_key _ _ _ _ (by decide),
    find?_other_key _ _ _ _ (by decide),
    find?_other_key _ _ _ _ (by decide),
    find?_omitted _ _ _ _ _ (by decide)]
  simp [hy, ofPtr]

theorem fields_frame_Config_schema_registry (L : Leaf) :
    ∀ p ∈ Config.fields L, p.1 ≠ "schema_registry" →
      ∀ (out : Config) (v : Value) (out' : Config),
        p.2 out v = some out' → out'.SchemaRegistry = out.SchemaRegistry := by
  unfold Config.fields
  simp only [List.forall_mem_cons]
  refine ⟨?_, ?_, ?_, ?_, ?_, ?_, ?_, ?_, ?_, ?_, ?_, ?_⟩
  all_goals first
    | (intro _ out v out' h; obtain ⟨x, _, rfl⟩ := Option.map_eq_some'.mp h; rfl)
    | (intro hne; exact absurd rfl hne)
    | (intro p hp; cases hp)

theorem setField_frame_Config_schema_registry (L : Leaf) (out : Config) (k : String) (v : Value)
    (out' : Config) (hk : k ≠ "schema_registry")
    (h : Config.setField L out k v = some out') :
    out'.SchemaRegistry = out.SchemaRegistry := by
  unfold Config.setField at h
  cases hl : (Config.fields L).lookup k with
  | none =>
    rw [hl] at h
    simp only [Option.some.injEq] at h
    rw [← h]
  | some set =>
    rw [hl] at h
    exact fields_frame_Config_schema_registry L _ (lookup_mem _ _ _ hl) hk out v out' h

theorem setField_at_Config_schema_registry (L : Leaf) (out : Config) (v : Value) (out' : Config)
    (h : Config.setField L out "schema_registry" v = some out') :
    ptr (SchemaRegistry.unmarshal L) SchemaRegistry.zero out.SchemaRegistry v
      = some out'.SchemaRegistry := by
  have hl : (Config.fields L).lookup "schema_registry"
      = some (fun out v =>
          (ptr (SchemaRegistry.unmarshal L) SchemaRegistry.zero out.SchemaRegistry v).map
            fun x => { out with SchemaRegistry := x }) := by
    rfl
  unfold Config.setField at h
  rw [hl] at h
  obtain ⟨x, hx, rfl⟩ := Option.map_eq_some'.mp h
  exact hx

/-- Decoding a mapping with distinct keys into a `Config`: the field
`SchemaRegistry` is decoded from the value under `schema_registry`. -/
theorem hop_Config_schema_registry (L : Leaf) (out b : Config) (m : List (String × Value))
    (v : Value) (hnd : (keysOf m).Nodup) (hmem : ("schema_registry", v) ∈ m)
    (h : Config.unmarshal L out (.map m) = some b) :
    ptr (SchemaRegistry.unmarshal L) SchemaRegistry.zero out.SchemaRegistry v
      = some b.SchemaRegistry := by
  rw [unmarshal_map_Config L out m hnd] at h
  exact foldlM_field (fun x : Config => x.SchemaRegistry) "schema_registry"
    (Config.setField L) (fun cur v => ptr (SchemaRegistry.unmarshal L) SchemaRegistry.zero cur v)
    (fun o k v o' => setField_frame_Config_schema_registry L o k v o')
    (fun o v o' => setField_at_Config_schema_registry L o v o') m out b v hnd hmem h

theorem get_Config_schema_registry (b : Config) (y : SchemaRegistry) (hy : b.SchemaRegistry = some y) :
    Value.get "schema_registry" (Config.marshal b) = some (SchemaRegistry.marshal y) := by
  simp only [Config.marshal, Value.get, List.append_assoc]
  rw [find?_omitted _ _ _ _ _ (by decide),
    find?_omitted _ _ _ _ _ (by decide),
    find?_omitted _ _ _ _ _ (by decide),
    find?_omitted _ _ _ _ _ (by decide),
    find?_other_key _ _ _ _ (by decide),
    find?_other_key _ _ _ _ (by decide),
    find?_other_key _ _ _ _ (by decide),
    find?_omitted _ _ _ _ _ (by decide),
    find?_omitted _ _ _ _ _ (by decide)]
  simp [hy, ofPtr]

theorem fields_frame_Config_schema_registry_client (L : Leaf) :
    ∀ p ∈ Config.fields L, p.1 ≠ "schema_registry_client" →
      ∀ (out : Config) (v : Value) (out' : Config),
        p.2 out v = some out' → out'.SchemaRegistryClient = out.SchemaRegistryClient := by
  unfold Config.fields
  simp only [List.forall_mem_cons]
  refine ⟨?_, ?_, ?_, ?_, ?_, ?_, ?_, ?_, ?_, ?_, ?_, ?_⟩
  all_goals first
    | (intro _ out v out' h; obtain ⟨x, _, rfl⟩ := Option.map_eq_some'.mp h; rfl)
    | (intro hne; exact absurd rfl hne)
    | (intro p hp; cases hp)

theorem setField_frame_Config_schema_registry_client (L : Leaf) (out : Config) (k : String) (v : Value)
    (out' : Config) (hk : k ≠ "schema_registry_client")
    (h : Config.setField L out k v = some out') :
    out'.SchemaRegistryClient = out.SchemaRegistryClient := by
  unfold Config.setField at h
  cases hl : (Config.fields L).lookup k with
  | none =>
    rw [hl] at h
    simp only [Option.some.injEq] at h
    rw [← h]
  | some set =>
    rw [hl] at h
    exact fields_frame_Config_schema_registry_client L _ (lookup_mem _ _ _ hl) hk out v out' h

theorem setField_at_Config_schema_registry_client (L : Leaf) (out : Config) (v : Value) (out' : Config)
    (h : Config.setField L out "schema_registry_client" v = some out') :
    ptr (KafkaClient.unmarshal L) KafkaClient.zero out.SchemaRegistryClient v
      = some out'.SchemaRegistryClient := by
  have hl : (Config.fields L).lookup "schema_registry_client"
      = some (fun out v =>
          (ptr (KafkaClient.unmarshal L) KafkaClient.zero out.SchemaRegistryClient v).map
            fun x => { out with SchemaRegistryClient := x }) := by
    rfl
  unfold Config.setField at h
  rw [hl] at h
  obtain ⟨x, hx, rfl⟩ := Option.map_eq_some'.mp h
  exact hx

/-- Decoding a mapping with distinct keys into a `Config`: the field
`SchemaRegistryClient` is decoded from the value under `schema_registry_client`. -/
theorem hop_Config_schema_registry_client (L : Leaf) (out b : Config) (m : List (String × Value))
    (v : Value) (hnd : (keysOf m).Nodup) (hmem : ("schema_registry_client", v) ∈ m)
    (h : Config.unmarshal L out (.map m) = some b) :
    ptr (KafkaClient.unmarshal L) KafkaClient.zero out.SchemaRegistryClient v
      = some b.SchemaRegistryClient := by
  rw [unmarshal_map_Config L out m hnd] at h
  exact foldlM_field (fun x : Config => x.SchemaRegistryClient) "schema_registry_client"
    (Config.setField L) (fun cur v => ptr (KafkaClient.unmarshal L) KafkaClient.zero cur v)
    (fun o k v o' => setField_frame_Config_schema_registry_client L o k v o')
    (fun o v o' => setField_at_Config_schema_registry_client L o v o') m out b v hnd hmem h

theorem get_Config_schema_registry_client (b : Config) (y : KafkaClient) (hy : b.SchemaRegistryClient = some y) :
    Value.get "schema_registry_client" (Config.marshal b) = some (KafkaClient.marshal y) := by
  simp only [Config.marshal, Value.get, List.append_assoc]
  rw [find?_omitted _ _ _ _ _ (by decide),
    find?_omitted _ _ _ _ _ (by decide),
    find?_omitted _ _ _ _ _ (by decide),
    find?_omitted _ _ _ _ _ (by decide),
    find?_other_key _ _ _ _ (by decide),
    find?_other_key _ _ _ _ (by decide),
    find?_other_key _ _ _ _ (by decide),
    find?_omitted _ _ _ _ _ (by decide),
    find?_omitted _ _ _ _ _ (by decide),
    find?_omitted _ _ _ _ _ (by decide)]
  simp [hy, ofPtr]

theorem fields_frame_RedpandaConfig_rpc_server_tls (L : Leaf) :
    ∀ p ∈ RedpandaConfig.fields L, p.1 ≠ "rpc_server_tls" →
      ∀ (out : RedpandaConfig) (v : Value) (out' : RedpandaConfig),
        p.2 out v = some out' → out'.RPCServerTLS = out.RPCServerTLS := by
  unfold RedpandaConfig.fields
  simp only [List.forall_mem_cons]
  refine ⟨?_, ?_, ?_, ?_, ?_, ?_, ?_, ?_, ?_, ?_, ?_, ?_, ?_, ?_, ?_, ?_, ?_, ?_⟩
  all_goals first
    | (intro _ out v out' h; obtain ⟨x, _, rfl⟩ := Option.map_eq_some'.mp h; rfl)
    | (intro hne; exact absurd rfl hne)
    | (intro p hp; cases hp)

theorem setField_frame_RedpandaConfig_rpc_server_tls (L : Leaf) (out : RedpandaConfig) (k : String) (v : Value)
    (out' : RedpandaConfig) (hk : k ≠ "rpc_server_tls")
    (h : RedpandaConfig.setField L out k v = some out') :
    out'.RPCServerTLS = out.RPCServerTLS := by
  unfold RedpandaConfig.setField at h
  cases hl : (RedpandaConfig.fields L).lookup k with
  | none =>
    rw [hl] at h
    simp only [Option.some.injEq] at h
    rw [← h]
  | some set =>
    rw [hl] at h
    exact fields_frame_RedpandaConfig_rpc_server_tls L _ (lookup_mem _ _ _ hl) hk out v out' h

theorem setField_at_RedpandaConfig_rpc_server_tls (L : Leaf) (out : RedpandaConfig) (v : Value) (out' : RedpandaConfig)
    (h : RedpandaConfig.setField L out "rpc_server_tls" v = some out') :
    slice (ServerTLS.unmarshal L ServerTLS.zero) v
      = some out'.RPCServerTLS := by
  have hl : (RedpandaConfig.fields L).lookup "rpc_server_tls"
      = some (fun out v =>
          (slice (ServerTLS.unmarshal L ServerTLS.zero) v).map
            fun x => { out with RPCServerTLS := x }) := by
    rfl
  unfold RedpandaConfig.setField at h
  rw [hl] at h
  obtain ⟨x, hx, rfl⟩ := Option.map_eq_some'.mp h
  exact hx

/-- Decoding a mapping with distinct keys into a `RedpandaConfig`: the field
`RPCServerTLS` is decoded from the value under `rpc_server_tls`. -/
theorem hop_RedpandaConfig_rpc_server_tls (L : Leaf) (out b : RedpandaConfig) (m : List (String × Value))
    (v : Value) (hnd : (keysOf m).Nodup) (hmem : ("rpc_server_tls", v) ∈ m)
    (h : RedpandaConfig.unmarshal L out (.map m) = some b) :
    slice (ServerTLS.unmarshal L ServerTLS.zero) v
      = some b.RPCServerTLS := by
  rw [unmarshal_map_RedpandaConfig L out m hnd] at h
  exact foldlM_field (fun x : RedpandaConfig => x.RPCServerTLS) "rpc_server_tls"
    (RedpandaConfig.setField L) (fun _ v => slice (ServerTLS.unmarshal L ServerTLS.zero) v)
    (fun o k v o' => setField_frame_RedpandaConfig_rpc_server_tls L o k v o')
    (fun o v o' => setField_at_RedpandaConfig_rpc_server_tls L o v o') m out b v hnd hmem h

theorem get_RedpandaConfig_rpc_server_tls (b : RedpandaConfig) (hne : b.RPCServerTLS.isEmpty = false) :
    Value.get "rpc_server_tls" (RedpandaConfig.marshal b)
      = some (Value.seq (b.RPCServerTLS.map ServerTLS.marshal)) := by
  simp only [RedpandaConfig.marshal, Value.get, List.append_assoc]
  rw [find?_other_key _ _ _ _ (by decide),
    find?_other_key _ _ _ _ (by decide),
    find?_omitted _ _ _ _ _ (by decide),
    find?_other_key _ _ _ _ (by decide),
    find?_other_key _ _ _ _ (by decide)]
  simp [hne]

theorem fields_frame_RedpandaConfig_kafka_api_tls (L : Leaf) :
    ∀ p ∈ RedpandaConfig.fields L, p.1 ≠ "kafka_api_tls" →
      ∀ (out : RedpandaConfig) (v : Value) (out' : RedpandaConfig),
        p.2 out v = some out' → out'.KafkaAPITLS = out.KafkaAPITLS := by
  unfold RedpandaConfig.fields
  simp only [List.forall_mem_cons]
  refine ⟨?_, ?_, ?_, ?_, ?_, ?_, ?_, ?_, ?_, ?_, ?_, ?_, ?_, ?_, ?_, ?_, ?_, ?_⟩
  all_goals first
    | (intro _ out v out' h; obtain ⟨x, _, rfl⟩ := Option.map_eq_some'.mp h; rfl)
    | (intro hne; exact absurd rfl hne)
    | (intro p hp; cases hp)

theorem setField_frame_RedpandaConfig_kafka_api_tls (L : Leaf) (out : RedpandaConfig) (k : String) (v : Value)
    (out' : RedpandaConfig) (hk : k ≠ "kafka_api_tls")
    (h : RedpandaConfig.setField L out k v = some out') :
    out'.KafkaAPITLS = out.KafkaAPITLS := by
  unfold RedpandaConfig.setField at h
  cases hl : (RedpandaConfig.fields L).lookup k with
  | none =>
    rw [hl] at h
    simp only [Option.some.injEq] at h
    rw [← h]
  | some set =>
    rw [hl] at h
    exact fields_frame_RedpandaConfig_kafka_api_tls L _ (lookup_mem _ _ _ hl) hk out v out' h

theorem setField_at_RedpandaConfig_kafka_api_tls (L : Leaf) (out : RedpandaConfig) (v : Value) (out' : RedpandaConfig)
    (h : RedpandaConfig.setField L out "kafka_api_tls" v = some out') :
    slice (ServerTLS.unmarshal L ServerTLS.zero) v
      = some out'.KafkaAPITLS := by
  have hl : (RedpandaConfig.fields L).lookup "kafka_api_tls"
      = some (fun out v =>
          (slice (ServerTLS.unmarshal L ServerTLS.zero) v).map
            fun x => { out with KafkaAPITLS := x }) := by
    rfl
  unfold RedpandaConfig.setField at h
  rw [hl] at h
  obtain ⟨x, hx, rfl⟩ := Option.map_eq_some'.mp h
  exact hx

/-- Decoding a mapping with distinct keys into a `RedpandaConfig`: the field
`KafkaAPITLS` is decoded from the value under `kafka_api_tls`. -/
theorem hop_RedpandaConfig_kafka_api_tls (L : Leaf) (out b : RedpandaConfig) (m : List (String × Value))
    (v : Value) (hnd : (keysOf m).Nodup) (hmem : ("kafka_api_tls", v) ∈ m)
    (h : RedpandaConfig.unmarshal L out (.map m) = some b) :
    slice (ServerTLS.unmarshal L ServerTLS.zero) v
      = some b.KafkaAPITLS := by
  rw [unmarshal_map_RedpandaConfig L out m hnd] at h
  exact foldlM_field (fun x : RedpandaConfig => x.KafkaAPITLS) "kafka_api_tls"
    (RedpandaConfig.setField L) (fun _ v => slice (ServerTLS.unmarshal L ServerTLS.zero) v)
    (fun o k v o' => setField_frame_RedpandaConfig_kafka_api_tls L o k v o')
    (fun o v o' => setField_at_RedpandaConfig_kafka_api_tls L o v o') m out b v hnd hmem h

theorem get_RedpandaConfig_kafka_api_tls (b : RedpandaConfig) (hne : b.KafkaAPITLS.isEmpty = false) :
    Value.get "kafka_api_tls" (RedpandaConfig.marshal b)
      = some (Value.seq (b.KafkaAPITLS.map ServerTLS.marshal)) := by
  simp only [RedpandaConfig.marshal, Value.get, List.append_assoc]
  rw [find?_other_key _ _ _ _ (by decide),
    find?_other_key _ _ _ _ (by decide),
    find?_omitted _ _ _ _ _ (by decide),
    find?_other_key _ _ _ _ (by decide),
    find?_other_key _ _ _ _ (by decide),
    find?_omitted _ _ _ _ _ (by decide),
    find?_other_key _ _ _ _ (by decide)]
  simp [hne]

theorem fields_frame_RedpandaConfig_admin_api_tls (L : Leaf) :
    ∀ p ∈ RedpandaConfig.fields L, p.1 ≠ "admin_api_tls" →
      ∀ (out : RedpandaConfig) (v : Value) (out' : RedpandaConfig),
        p.2 out v = some out' → out'.AdminAPITLS = out.AdminAPITLS := by
  unfold RedpandaConfig.fields
  simp only [List.forall_mem_cons]
  refine ⟨?_, ?_, ?_, ?_, ?_, ?_, ?_, ?_, ?_, ?_, ?_, ?_, ?_, ?_, ?_, ?_, ?_, ?_⟩
  all_goals first
    | (intro _ out v out' h; obtain ⟨x, _, rfl⟩ := Option.map_eq_some'.mp h; rfl)
    | (intro hne; exact absurd rfl hne)
    | (intro p hp; cases hp)

theorem setField_frame_RedpandaConfig_admin_api_tls (L : Leaf) (out : RedpandaConfig) (k : String) (v : Value)
    (out' : RedpandaConfig) (hk : k ≠ "admin_api_tls")
    (h : RedpandaConfig.setField L out k v = some out') :
    out'.AdminAPITLS = out.AdminAPITLS := by
  unfold RedpandaConfig.setField at h
  cases hl : (RedpandaConfig.fields L).lookup k with
  | none =>
    rw [hl] at h
    simp only [Option.some.injEq] at h
    rw [← h]
  | some set =>
    rw [hl] at h
    exact fields_frame_RedpandaConfig_admin_api_tls L _ (lookup_mem _ _ _ hl) hk out v out' h

theorem setField_at_RedpandaConfig_admin_api_tls (L : Leaf) (out : RedpandaConfig) (v : Value) (out' : RedpandaConfig)
    (h : RedpandaConfig.setField L out "admin_api_tls" v = some out') :
    slice (ServerTLS.unmarshal L ServerTLS.zero) v
      = some out'.AdminAPITLS := by
  have hl : (RedpandaConfig.fields L).lookup "admin_api_tls"
      = some (fun out v =>
          (slice (ServerTLS.unmarshal L ServerTLS.zero) v).map
            fun x => { out with AdminAPITLS := x }) := by
    rfl
  unfold RedpandaConfig.setField at h
  rw [hl] at h
  obtain ⟨x, hx, rfl⟩ := Option.map_eq_some'.mp h
  exact hx

/-- Decoding a mapping with distinct keys into a `RedpandaConfig`: the field
`AdminAPITLS` is decoded from the value under `admin_api_tls`. -/
theorem hop_RedpandaConfig_admin_api_tls (L : Leaf) (out b : RedpandaConfig) (m : List (String × Value))
    (v : Value) (hnd : (keysOf m).Nodup) (hmem : ("admin_api_tls", v) ∈ m)
    (h : RedpandaConfig.unmarshal L out (.map m) = some b) :
    slice (ServerTLS.unmarshal L ServerTLS.zero) v
      = some b.AdminAPITLS := by
  rw [unmarshal_map_RedpandaConfig L out m hnd] at h
  exact foldlM_field (fun x : RedpandaConfig => x.AdminAPITLS) "admin_api_tls"
    (RedpandaConfig.setField L) (fun _ v => slice (ServerTLS.unmarshal L ServerTLS.zero) v)
    (fun o k v o' => setField_frame_RedpandaConfig_admin_api_tls L o k v o')
    (fun o v o' => setField_at_RedpandaConfig_admin_api_tls L o v o') m out b v hnd hmem h

theorem get_RedpandaConfig_admin_api_tls (b : RedpandaConfig) (hne : b.AdminAPITLS.isEmpty = false) :
    Value.get "admin_api_tls" (RedpandaConfig.marshal b)
      = some (Value.seq (b.AdminAPITLS.map ServerTLS.marshal)) := by
  simp only [RedpandaConfig.marshal, Value.get, List.append_assoc]
  rw [find?_other_key _ _ _ _ (by decide),
    find?_other_key _ _ _ _ (by decide),
    find?_omitted _ _ _ _ _ (by decide),
    find?_other_key _ _ _ _ (by decide),
    find?_other_key _ _ _ _ (by decide),
    find?_omitted _ _ _ _ _ (by decide),
    find?_other_key _ _ _ _ (by decide),
    find?_omitted _ _ _ _ _ (by decide),
    find?_other_key _ _ _ _ (by decide)]
  simp [hne]

theorem fields_frame_Pandaproxy_pandaproxy_api_tls (L : Leaf) :
    ∀ p ∈ Pandaproxy.fields L, p.1 ≠ "pandaproxy_api_tls" →
      ∀ (out : Pandaproxy) (v : Value) (out' : Pandaproxy),
        p.2 out v = some out' → out'.PandaproxyAPITLS = out.PandaproxyAPITLS := by
  unfold Pandaproxy.fields
  simp only [List.forall_mem_cons]
  refine ⟨?_, ?_, ?_, ?_⟩
  all_goals first
    | (intro _ out v out' h; obtain ⟨x, _, rfl⟩ := Option.map_eq_some'.mp h; rfl)
    | (intro hne; exact absurd rfl hne)
    | (intro p hp; cases hp)

theorem setField_frame_Pandaproxy_pandaproxy_api_tls (L : Leaf) (out : Pandaproxy) (k : String) (v : Value)
    (out' : Pandaproxy) (hk : k ≠ "pandaproxy_api_tls")
    (h : Pandaproxy.setField L out k v = some out') :
    out'.PandaproxyAPITLS = out.PandaproxyAPITLS := by
  unfold Pandaproxy.setField at h
  cases hl : (Pandaproxy.fields L).lookup k with
  | none =>
    rw [hl] at h
    simp only [Option.some.injEq] at h
    rw [← h]
  | some set =>
    rw [hl] at h
    exact fields_frame_Pandaproxy_pandaproxy_api_tls L _ (lookup_mem _ _ _ hl) hk out v out' h

theorem setField_at_Pandaproxy_pandaproxy_api_tls (L : Leaf) (out : Pandaproxy) (v : Value) (out' : Pandaproxy)
    (h : Pandaproxy.setField L out "pandaproxy_api_tls" v = some out') :
    slice (ServerTLS.unmarshal L ServerTLS.zero) v
      = some out'.PandaproxyAPITLS := by
  have hl : (Pandaproxy.fields L).lookup "pandaproxy_api_tls"
      = some (fun out v =>
          (slice (ServerTLS.unmarshal L ServerTLS.zero) v).map
            fun x => { out with PandaproxyAPITLS := x }) := by
    rfl
  unfold Pandaproxy.setField at h
  rw [hl] at h
  obtain ⟨x, hx, rfl⟩ := Option.map_eq_some'.mp h
  exact hx

/-- Decoding a mapping with distinct keys into a `Pandaproxy`: the field
`PandaproxyAPITLS` is decoded from the value under `pandaproxy_api_tls`. -/
theorem hop_Pandaproxy_pandaproxy_api_tls (L : Leaf) (out b : Pandaproxy) (m : List (String × Value))
    (v : Value) (hnd : (keysOf m).Nodup) (hmem : ("pandaproxy_api_tls", v) ∈ m)
    (h : Pandaproxy.unmarshal L out (.map m) = some b) :
    slice (ServerTLS.unmarshal L ServerTLS.zero) v
      = some b.PandaproxyAPITLS := by
  rw [unmarshal_map_Pandaproxy L out m hnd] at h
  exact foldlM_field (fun x : Pandaproxy => x.PandaproxyAPITLS) "pandaproxy_api_tls"
    (Pandaproxy.setField L) (fun _ v => slice (ServerTLS.unmarshal L ServerTLS.zero) v)
    (fun o k v o' => setField_frame_Pandaproxy_pandaproxy_api_tls L o k v o')
    (fun o v o' => setField_at_Pandaproxy_pandaproxy_api_tls L o v o') m out b v hnd hmem h

theorem get_Pandaproxy_pandaproxy_api_tls (b : Pandaproxy) (hne : b.PandaproxyAPITLS.isEmpty = false) :
    Value.get "pandaproxy_api_tls" (Pandaproxy.marshal b)
      = some (Value.seq (b.PandaproxyAPITLS.map ServerTLS.marshal)) := by
  simp only [Pandaproxy.marshal, Value.get, List.append_assoc]
  rw [find?_omitted _ _ _ _ _ (by decide)]
  simp [hne]

theorem fields_frame_SchemaRegistry_schema_registry_api_tls (L : Leaf) :
    ∀ p ∈ SchemaRegistry.fields L, p.1 ≠ "schema_registry_api_tls" →
      ∀ (out : SchemaRegistry) (v : Value) (out' : SchemaRegistry),
        p.2 out v = some out' → out'.SchemaRegistryAPITLS = out.SchemaRegistryAPITLS := by
  unfold SchemaRegistry.fields
  simp only [List.forall_mem_cons]
  refine ⟨?_, ?_, ?_, ?_⟩
  all_goals first
    | (intro _ out v out' h; obtain ⟨x, _, rfl⟩ := Option.map_eq_some'.mp h; rfl)
    | (intro hne; exact absurd rfl hne)
    | (intro p hp; cases hp)

theorem setField_frame_SchemaRegistry_schema_registry_api_tls (L : Leaf) (out : SchemaRegistry) (k : String) (v : Value)
    (out' : SchemaRegistry) (hk : k ≠ "schema_registry_api_tls")
    (h : SchemaRegistry.setField L out k v = some out') :
    out'.SchemaRegistryAPITLS = out.SchemaRegistryAPITLS := by
  unfold SchemaRegistry.setField at h
  cases hl : (SchemaRegistry.fields L).lookup k with
  | none =>
    rw [hl] at h
    simp only [Option.some.injEq] at h
    rw [← h]
  | some set =>
    rw [hl] at h
    exact fields_frame_SchemaRegistry_schema_registry_api_tls L _ (lookup_mem _ _ _ hl) hk out v out' h

theorem setField_at_SchemaRegistry_schema_registry_api_tls (L : Leaf) (out : SchemaRegistry) (v : Value) (out' : SchemaRegistry)
    (h : SchemaRegistry.setField L out "schema_registry_api_tls" v = some out') :
    slice (ServerTLS.unmarshal L ServerTLS.zero) v
      = some out'.SchemaRegistryAPITLS := by
  have hl : (SchemaRegistry.fields L).lookup "schema_registry_api_tls"
      = some (fun out v =>
          (slice (ServerTLS.unmarshal L ServerTLS.zero) v).map
            fun x => { out with SchemaRegistryAPITLS := x }) := by
    rfl
  unfold SchemaRegistry.setField at h
  rw [hl] at h
  obtain ⟨x, hx, rfl⟩ := Option.map_eq_some'.mp h
  exact hx

/-- Decoding a mapping with distinct keys into a `SchemaRegistry`: the field
`SchemaRegistryAPITLS` is decoded from the value under `schema_registry_api_tls`. -/
theorem hop_SchemaRegistry_schema_registry_api_tls (L : Leaf) (out b : SchemaRegistry) (m : List (String × Value))
    (v : Value) (hnd : (keysOf m).Nodup) (hmem : ("schema_registry_api_tls", v) ∈ m)
    (h : SchemaRegistry.unmarshal L out (.map m) = some b) :
    slice (ServerTLS.unmarshal L ServerTLS.zero) v
      = some b.SchemaRegistryAPITLS := by
  rw [unmarshal_map_SchemaRegistry L out m hnd] at h
  exact foldlM_field (fun x : SchemaRegistry => x.SchemaRegistryAPITLS) "schema_registry_api_tls"
    (SchemaRegistry.setField L) (fun _ v => slice (ServerTLS.unmarshal L ServerTLS.zero) v)
    (fun o k v o' => setField_frame_SchemaRegistry_schema_registry_api_tls L o k v o')
    (fun o v o' => setField_at_SchemaRegistry_schema_registry_api_tls L o v o') m out b v hnd hmem h

theorem get_SchemaRegistry_schema_registry_api_tls (b : SchemaRegistry) (hne : b.SchemaRegistryAPITLS.isEmpty = false) :
    Value.get "schema_registry_api_tls" (SchemaRegistry.marshal b)
      = some (Value.seq (b.SchemaRegistryAPITLS.map ServerTLS.marshal)) := by
  simp only [SchemaRegistry.marshal, Value.get, List.append_assoc]
  rw [find?_omitted _ _ _ _ _ (by decide)]
  simp [hne]

theorem fields_frame_KafkaClient_broker_tls (L : Leaf) :
    ∀ p ∈ KafkaClient.fields L, p.1 ≠ "broker_tls" →
      ∀ (out : KafkaClient) (v : Value) (out' : KafkaClient),
        p.2 out v = some out' → out'.BrokerTLS = out.BrokerTLS := by
  unfold KafkaClient.fields
  simp only [List.forall_mem_cons]
  refine ⟨?_, ?_, ?_, ?_, ?_, ?_⟩
  all_goals first
    | (intro _ out v out' h; obtain ⟨x, _, rfl⟩ := Option.map_eq_some'.mp h; rfl)
    | (intro hne; exact absurd rfl hne)
    | (intro p hp; cases hp)

theorem setField_frame_KafkaClient_broker_tls (L : Leaf) (out : KafkaClient) (k : String) (v : Value)
    (out' : KafkaClient) (hk : k ≠ "broker_tls")
    (h : KafkaClient.setField L out k v = some out') :
    out'.BrokerTLS = out.BrokerTLS := by
  unfold KafkaClient.setField at h
  cases hl : (KafkaClient.fields L).lookup k with
  | none =>
    rw [hl] at h
    simp only [Option.some.injEq] at h
    rw [← h]
  | some set =>
    rw [hl] at h
    exact fields_frame_KafkaClient_broker_tls L _ (lookup_mem _ _ _ hl) hk out v out' h

theorem setField_at_KafkaClient_broker_tls (L : Leaf) (out : KafkaClient) (v : Value) (out' : KafkaClient)
    (h : KafkaClient.setField L out "broker_tls" v = some out') :
    ServerTLS.unmarshal L out.BrokerTLS v
      = some out'.BrokerTLS := by
  have hl : (KafkaClient.fields L).lookup "broker_tls"
      = some (fun out v =>
          (ServerTLS.unmarshal L out.BrokerTLS v).map
            fun x => { out with BrokerTLS := x }) := by
    rfl
  unfold KafkaClient.setField at h
  rw [hl] at h
  obtain ⟨x, hx, rfl⟩ := Option.map_eq_some'.mp h
  exact hx

/-- Decoding a mapping with distinct keys into a `KafkaClient`: the field
`BrokerTLS` is decoded from the value under `broker_tls`. -/
theorem hop_KafkaClient_broker_tls (L : Leaf) (out b : KafkaClient) (m : List (String × Value))
    (v : Value) (hnd : (keysOf m).Nodup) (hmem : ("broker_tls", v) ∈ m)
    (h : KafkaClient.unmarshal L out (.map m) = some b) :
    ServerTLS.unmarshal L out.BrokerTLS v
      = some b.BrokerTLS := by
  rw [unmarshal_map_KafkaClient L out m hnd] at h
  exact foldlM_field (fun x : KafkaClient => x.BrokerTLS) "broker_tls"
    (KafkaClient.setField L) (fun cur v => ServerTLS.unmarshal L cur v)
    (fun o k v o' => setField_frame_KafkaClient_broker_tls L o k v o')
    (fun o v o' => setField_at_KafkaClient_broker_tls L o v o') m out b v hnd hmem h

theorem get_KafkaClient_broker_tls (b : KafkaClient) (hz : ServerTLS.isZero b.BrokerTLS = false) :
    Value.get "broker_tls" (KafkaClient.marshal b) = some (ServerTLS.marshal b.BrokerTLS) := by
  simp only [KafkaClient.marshal, Value.get, List.append_assoc]
  rw [find?_omitted _ _ _ _ _ (by decide)]
  simp [hz]

theorem isZero_of_other (y : ServerTLS) (kv : String × Value) (h : kv ∈ y.Other) :
    ServerTLS.isZero y = false := by
  cases hO : y.Other with
  | nil => rw [hO] at h; simp at h
  | cons a as => simp [ServerTLS.isZero, hO]

theorem at_key_of {k : String} {p : List Step} {v w t : Value}
    (hg : Value.get k v = some w) (ht : Value.at p w = some t) :
    Value.at (.key k :: p) v = some t :=
  at_key.mpr ⟨w, hg, ht⟩

theorem at_idx_of {i : Nat} {p : List Step} {xs : List Value} {w t : Value}
    (hg : xs.get? i = some w) (ht : Value.at p w = some t) :
    Value.at (.idx i :: p) (Value.seq xs) = some t :=
  at_idx.mpr ⟨xs, w, rfl, hg, ht⟩

theorem along_document (L : Leaf) : KeepsUnknownAlong L [] Config.keys := by
  intro doc c t hd h hat kv hkv hk
  have hnd := distinct_nil hd
  rw [at_nil] at hat
  subst hat
  exact ⟨_, rfl, keeps_Config L Config.zero c doc hnd rfl h kv hkv hk⟩

theorem along_redpanda (L : Leaf) :
    KeepsUnknownAlong L [.key "redpanda"] RedpandaConfig.keys := by
  intro doc c t hd h hat kv hkv hk
  obtain ⟨w1, hg1, hat1⟩ := at_key.mp hat
  rw [at_nil] at hat1
  subst hat1
  obtain ⟨hnd, hd1⟩ := distinct_key hd
  have hnd1 := distinct_nil (hd1 _ hg1)
  obtain ⟨mt, rfl⟩ := entries_mem hkv
  obtain ⟨m, rfl, hmem1⟩ := get_mem hg1
  have hb := hop_Config_redpanda L Config.zero c m _ hnd hmem1 h
  have hgetb := get_Config_redpanda c
  generalize c.Redpanda = b at hb hgetb
  exact ⟨_, at_key_of hgetb rfl, keeps_RedpandaConfig L _ b _ hnd1 rfl hb kv hkv hk⟩

theorem along_pandaproxy (L : Leaf) :
    KeepsUnknownAlong L [.key "pandaproxy"] Pandaproxy.keys := by
  intro doc c t hd h hat kv hkv hk
  obtain ⟨w1, hg1, hat1⟩ := at_key.mp hat
  rw [at_nil] at hat1
  subst hat1
  obtain ⟨hnd, hd1⟩ := distinct_key hd
  have hnd1 := distinct_nil (hd1 _ hg1)
  obtain ⟨mt, rfl⟩ := entries_mem hkv
  obtain ⟨m, rfl, hmem1⟩ := get_mem hg1
  obtain ⟨b, hb, hcb⟩ := ptr_of_map _ _ _ _ (hop_Config_pandaproxy L Config.zero c m _ hnd hmem1 h)
  have hgetb := get_Config_pandaproxy c b hcb
  exact ⟨_, at_key_of hgetb rfl, keeps_Pandaproxy L _ b _ hnd1 rfl hb kv hkv hk⟩

theorem along_pandaproxy_client (L : Leaf) :
    KeepsUnknownAlong L [.key "pandaproxy_client"] KafkaClient.keys := by
  intro doc c t hd h hat kv hkv hk
  obtain ⟨w1, hg1, hat1⟩ := at_key.mp hat
  rw [at_nil] at hat1
  subst hat1
  obtain ⟨hnd, hd1⟩ := distinct_key hd
  have hnd1 := distinct_nil (hd1 _ hg1)
  obtain ⟨mt, rfl⟩ := entries_mem hkv
  obtain ⟨m, rfl, hmem1⟩ := get_mem hg1
  obtain ⟨b, hb, hcb⟩ := ptr_of_map _ _ _ _ (hop_Config_pandaproxy_client L Config.zero c m _ hnd hmem1 h)
  have hgetb := get_Config_pandaproxy_client c b hcb
  exact ⟨_, at_key_of hgetb rfl, keeps_KafkaClient L _ b _ hnd1 rfl hb kv hkv hk⟩

theorem along_schema_registry_client (L : Leaf) :
    KeepsUnknownAlong L [.key "schema_registry_client"] KafkaClient.keys := by
  intro doc c t hd h hat kv hkv hk
  obtain ⟨w1, hg1, hat1⟩ := at_key.mp hat
  rw [at_nil] at hat1
  subst hat1
  obtain ⟨hnd, hd1⟩ := distinct_key hd
  have hnd1 := distinct_nil (hd1 _ hg1)
  obtain ⟨mt, rfl⟩ := entries_mem hkv
  obtain ⟨m, rfl, hmem1⟩ := get_mem hg1
  obtain ⟨b, hb, hcb⟩ := ptr_of_map _ _ _ _ (hop_Config_schema_registry_client L Config.zero c m _ hnd hmem1 h)
  have hgetb := get_Config_schema_registry_client c b hcb
  exact ⟨_, at_key_of hgetb rfl, keeps_KafkaClient L _ b _ hnd1 rfl hb kv hkv hk⟩

theorem along_redpanda_rpc_server_tls (L : Leaf) (i : Nat) :
    KeepsUnknownAlong L [.key "redpanda", .key "rpc_server_tls", .idx i]
      ServerTLS.keys := by
  intro doc c t hd h hat kv hkv hk
  obtain ⟨w1, hg1, hat1⟩ := at_key.mp hat
  obtain ⟨w2, hg2, hat2⟩ := at_key.mp hat1
  obtain ⟨xs, x, rfl, hx, hat3⟩ := at_idx.mp hat2
  rw [at_nil] at hat3
  subst hat3
  obtain ⟨hnd, hd1⟩ := distinct_key hd
  obtain ⟨hnd1, hd2⟩ := distinct_key (hd1 _ hg1)
  have hnd2 := distinct_nil (distinct_idx (hd2 _ hg2) _ hx)
  obtain ⟨mr, rfl, hmem2⟩ := get_mem hg2
  obtain ⟨m, rfl, hmem1⟩ := get_mem hg1
  have hb := hop_Config_redpanda L Config.zero c m _ hnd hmem1 h
  have hgetb := get_Config_redpanda c
  generalize c.Redpanda = b at hb hgetb
  have hs := hop_RedpandaConfig_rpc_server_tls L RedpandaConfig.zero b mr _ hnd1 hmem2 hb
  obtain ⟨y, hy, hdy⟩ := sliceOf_get _ xs _ i x hs hx
  have hget2 := get_RedpandaConfig_rpc_server_tls b (get?_ne_nil_isEmpty hy)
  refine ⟨ServerTLS.marshal y, ?_, keeps_ServerTLS L _ y x hnd2 rfl hdy kv hkv hk⟩
  refine at_key_of hgetb (at_key_of hget2 (at_idx_of ?_ rfl))
  rw [List.get?_eq_getElem?, List.getElem?_map, ← List.get?_eq_getElem?, hy]
  rfl

theorem along_redpanda_kafka_api_tls (L : Leaf) (i : Nat) :
    KeepsUnknownAlong L [.key "redpanda", .key "kafka_api_tls", .idx i]
      ServerTLS.keys := by
  intro doc c t hd h hat kv hkv hk
  obtain ⟨w1, hg1, hat1⟩ := at_key.mp hat
  obtain ⟨w2, hg2, hat2⟩ := at_key.mp hat1
  obtain ⟨xs, x, rfl, hx, hat3⟩ := at_idx.mp hat2
  rw [at_nil] at hat3
  subst hat3
  obtain ⟨hnd, hd1⟩ := distinct_key hd
  obtain ⟨hnd1, hd2⟩ := distinct_key (hd1 _ hg1)
  have hnd2 := distinct_nil (distinct_idx (hd2 _ hg2) _ hx)
  obtain ⟨mr, rfl, hmem2⟩ := get_mem hg2
  obtain ⟨m, rfl, hmem1⟩ := get_mem hg1
  have hb := hop_Config_redpanda L Config.zero c m _ hnd hmem1 h
  have hgetb := get_Config_redpanda c
  generalize c.Redpanda = b at hb hgetb
  have hs := hop_RedpandaConfig_kafka_api_tls L RedpandaConfig.zero b mr _ hnd1 hmem2 hb
  obtain ⟨y, hy, hdy⟩ := sliceOf_get _ xs _ i x hs hx
  have hget2 := get_RedpandaConfig_kafka_api_tls b (get?_ne_nil_isEmpty hy)
  refine ⟨ServerTLS.marshal y, ?_, keeps_ServerTLS L _ y x hnd2 rfl hdy kv hkv hk⟩
  refine at_key_of hgetb (at_key_of hget2 (at_idx_of ?_ rfl))
  rw [List.get?_eq_getElem?, List.getElem?_map, ← List.get?_eq_getElem?, hy]
  rfl

theorem along_redpanda_admin_api_tls (L : Leaf) (i : Nat) :
    KeepsUnknownAlong L [.key "redpanda", .key "admin_api_tls", .idx i]
      ServerTLS.keys := by
  intro doc c t hd h hat kv hkv hk
  obtain ⟨w1, hg1, hat1⟩ := at_key.mp hat
  obtain ⟨w2, hg2, hat2⟩ := at_key.mp hat1
  obtain ⟨xs, x, rfl, hx, hat3⟩ := at_idx.mp hat2
  rw [at_nil] at hat3
  subst hat3
  obtain ⟨hnd, hd1⟩ := distinct_key hd
  obtain ⟨hnd1, hd2⟩ := distinct_key (hd1 _ hg1)
  have hnd2 := distinct_nil (distinct_idx (hd2 _ hg2) _ hx)
  obtain ⟨mr, rfl, hmem2⟩ := get_mem hg2
  obtain ⟨m, rfl, hmem1⟩ := get_mem hg1
  have hb := hop_Config_redpanda L Config.zero c m _ hnd hmem1 h
  have hgetb := get_Config_redpanda c
  generalize c.Redpanda = b at hb hgetb
  have hs := hop_RedpandaConfig_admin_api_tls L RedpandaConfig.zero b mr _ hnd1 hmem2 hb
  obtain ⟨y, hy, hdy⟩ := sliceOf_get _ xs _ i x hs hx
  have hget2 := get_RedpandaConfig_admin_api_tls b (get?_ne_nil_isEmpty hy)
  refine ⟨ServerTLS.marshal y, ?_, keeps_ServerTLS L _ y x hnd2 rfl hdy kv hkv hk⟩
  refine at_key_of hgetb (at_key_of hget2 (at_idx_of ?_ rfl))
  rw [List.get?_eq_getElem?, List.getElem?_map, ← List.get?_eq_getElem?, hy]
  rfl

theorem along_pandaproxy_pandaproxy_api_tls (L : Leaf) (i : Nat) :
    KeepsUnknownAlong L [.key "pandaproxy", .key "pandaproxy_api_tls", .idx i]
      ServerTLS.keys := by
  intro doc c t hd h hat kv hkv hk
  obtain ⟨w1, hg1, hat1⟩ := at_key.mp hat
  obtain ⟨w2, hg2, hat2⟩ := at_key.mp hat1
  obtain ⟨xs, x, rfl, hx, hat3⟩ := at_idx.mp hat2
  rw [at_nil] at hat3
  subst hat3
  obtain ⟨hnd, hd1⟩ := distinct_key hd
  obtain ⟨hnd1, hd2⟩ := distinct_key (hd1 _ hg1)
  have hnd2 := distinct_nil (distinct_idx (hd2 _ hg2) _ hx)
  obtain ⟨mr, rfl, hmem2⟩ := get_mem hg2
  obtain ⟨m, rfl, hmem1⟩ := get_mem hg1
  obtain ⟨b, hb, hcb⟩ := ptr_of_map _ _ _ _ (hop_Config_pandaproxy L Config.zero c m _ hnd hmem1 h)
  have hgetb := get_Config_pandaproxy c b hcb
  have hs := hop_Pandaproxy_pandaproxy_api_tls L Pandaproxy.zero b mr _ hnd1 hmem2 hb
  obtain ⟨y, hy, hdy⟩ := sliceOf_get _ xs _ i x hs hx
  have hget2 := get_Pandaproxy_pandaproxy_api_tls b (get?_ne_nil_isEmpty hy)
  refine ⟨ServerTLS.marshal y, ?_, keeps_ServerTLS L _ y x hnd2 rfl hdy kv hkv hk⟩
  refine at_key_of hgetb (at_key_of hget2 (at_idx_of ?_ rfl))
  rw [List.get?_eq_getElem?, List.getElem?_map, ← List.get?_eq_getElem?, hy]
  rfl

theorem along_schema_registry_schema_registry_api_tls (L : Leaf) (i : Nat) :
    KeepsUnknownAlong L [.key "schema_registry", .key "schema_registry_api_tls", .idx i]
      ServerTLS.keys := by
  intro doc c t hd h hat kv hkv hk
  obtain ⟨w1, hg1, hat1⟩ := at_key.mp hat
  obtain ⟨w2, hg2, hat2⟩ := at_key.mp hat1
  obtain ⟨xs, x, rfl, hx, hat3⟩ := at_idx.mp hat2
  rw [at_nil] at hat3
  subst hat3
  obtain ⟨hnd, hd1⟩ := distinct_key hd
  obtain ⟨hnd1, hd2⟩ := distinct_key (hd1 _ hg1)
  have hnd2 := distinct_nil (distinct_idx (hd2 _ hg2) _ hx)
  obtain ⟨mr, rfl, hmem2⟩ := get_mem hg2
  obtain ⟨m, rfl, hmem1⟩ := get_mem hg1
  obtain ⟨b, hb, hcb⟩ := ptr_of_map _ _ _ _ (hop_Config_schema_registry L Config.zero c m _ hnd hmem1 h)
  have hgetb := get_Config_schema_registry c b hcb
  have hs := hop_SchemaRegistry_schema_registry_api_tls L SchemaRegistry.zero b mr _ hnd1 hmem2 hb
  obtain ⟨y, hy, hdy⟩ := sliceOf_get _ xs _ i x hs hx
  have hget2 := get_SchemaRegistry_schema_registry_api_tls b (get?_ne_nil_isEmpty hy)
  refine ⟨ServerTLS.marshal y, ?_, keeps_ServerTLS L _ y x hnd2 rfl hdy kv hkv hk⟩
  refine at_key_of hgetb (at_key_of hget2 (at_idx_of ?_ rfl))
  rw [List.get?_eq_getElem?, List.getElem?_map, ← List.get?_eq_getElem?, hy]
  rfl

theorem along_pandaproxy_client_broker_tls (L : Leaf) :
    KeepsUnknownAlong L [.key "pandaproxy_client", .key "broker_tls"] ServerTLS.keys := by
  intro doc c t hd h hat kv hkv hk
  obtain ⟨w1, hg1, hat1⟩ := at_key.mp hat
  obtain ⟨w2, hg2, hat2⟩ := at_key.mp hat1
  rw [at_nil] at hat2
  subst hat2
  obtain ⟨hnd, hd1⟩ := distinct_key hd
  obtain ⟨hnd1, hd2⟩ := distinct_key (hd1 _ hg1)
  have hnd2 := distinct_nil (hd2 _ hg2)
  obtain ⟨mt, rfl⟩ := entries_mem hkv
  obtain ⟨mr, rfl, hmem2⟩ := get_mem hg2
  obtain ⟨m, rfl, hmem1⟩ := get_mem hg1
  obtain ⟨b, hb, hcb⟩ := ptr_of_map _ _ _ _ (hop_Config_pandaproxy_client L Config.zero c m _ hnd hmem1 h)
  have hgetb := get_Config_pandaproxy_client c b hcb
  have hs := hop_KafkaClient_broker_tls L KafkaClient.zero b mr _ hnd1 hmem2 hb
  have hother := unmarshal_other_ServerTLS L _ _ mt hnd2 rfl hs
  have hin : kv ∈ b.BrokerTLS.Other := by
    rw [hother]
    exact List.mem_filter.mpr ⟨hkv, by simpa using hk⟩
  have hget2 := get_KafkaClient_broker_tls b (isZero_of_other _ kv hin)
  exact ⟨_, at_key_of hgetb (at_key_of hget2 rfl), other_subset_marshal_ServerTLS _ kv hin⟩

theorem along_schema_registry_client_broker_tls (L : Leaf) :
    KeepsUnknownAlong L [.key "schema_registry_client", .key "broker_tls"] ServerTLS.keys := by
  intro doc c t hd h hat kv hkv hk
  obtain ⟨w1, hg1, hat1⟩ := at_key.mp hat
  obtain ⟨w2, hg2, hat2⟩ := at_key.mp hat1
  rw [at_nil] at hat2
  subst hat2
  obtain ⟨hnd, hd1⟩ := distinct_key hd
  obtain ⟨hnd1, hd2⟩ := distinct_key (hd1 _ hg1)
  have hnd2 := distinct_nil (hd2 _ hg2)
  obtain ⟨mt, rfl⟩ := entries_mem hkv
  obtain ⟨mr, rfl, hmem2⟩ := get_mem hg2
  obtain ⟨m, rfl, hmem1⟩ := get_mem hg1
  obtain ⟨b, hb, hcb⟩ := ptr_of_map _ _ _ _ (hop_Config_schema_registry_client L Config.zero c m _ hnd hmem1 h)
  have hgetb := get_Config_schema_registry_client c b hcb
  have hs := hop_KafkaClient_broker_tls L KafkaClient.zero b mr _ hnd1 hmem2 hb
  have hother := unmarshal_other_ServerTLS L _ _ mt hnd2 rfl hs
  have hin : kv ∈ b.BrokerTLS.Other := by
    rw [hother]
    exact List.mem_filter.mpr ⟨hkv, by simpa using hk⟩
  have hget2 := get_KafkaClient_broker_tls b (isZero_of_other _ kv hin)
  exact ⟨_, at_key_of hgetb (at_key_of hget2 rfl), other_subset_marshal_ServerTLS _ kv hin⟩

end yaml

/-! ## Unknown keys across the document -/

theorem yaml.keepsUnknown_of {B : Type} (keys : List String) (other : B → OtherMap)
    (unmarshal : B → Value → Option B) (marshal : B → Value)
    (h1 : ∀ (out b : B) (m : List (String × Value)), (yaml.keysOf m).Nodup → other out = [] →
      unmarshal out (.map m) = some b → other b = yaml.unknown keys m)
    (h2 : ∀ b : B, ∀ kv ∈ other b, kv ∈ yaml.Value.entries (marshal b)) :
    yaml.KeepsUnknown keys other unmarshal marshal := by
  intro out b m hnd hout h
  have ho := h1 out b m hnd hout h
  refine ⟨ho, fun kv hkv hk => h2 b kv ?_⟩
  rw [ho]
  exact List.mem_filter.mpr ⟨hkv, by simpa using hk⟩

/-- C8, amended: every block that declares an inline map (`Config`,
`RedpandaConfig`, `Pandaproxy`, `KafkaClient`, `ServerTLS`) receives in it
every entry no named field claims and emits it again with the block; and for
every document, decoding and encoding again reproduces each such entry
unchanged at the same level, for every level whose block declares an inline
map: the document, `redpanda`, `pandaproxy`, the two client blocks, and the
TLS blocks of every listener and of both clients.  `RpkConfig` and
`SchemaRegistry` declare no inline map: entries under `rpk` or
`schema_registry` that no named field claims do not reach the decoded
block. -/
theorem yaml.other_keeps_unknown (L : yaml.Leaf) :
    yaml.KeepsUnknown yaml.Config.keys (fun b : Config => b.Other)
        (yaml.Config.unmarshal L) yaml.Config.marshal
      ∧ yaml.KeepsUnknown yaml.RedpandaConfig.keys (fun b : RedpandaConfig => b.Other)
        (yaml.RedpandaConfig.unmarshal L) yaml.RedpandaConfig.marshal
      ∧ yaml.KeepsUnknown yaml.Pandaproxy.keys (fun b : Pandaproxy => b.Other)
        (yaml.Pandaproxy.unmarshal L) yaml.Pandaproxy.marshal
      ∧ yaml.KeepsUnknown yaml.KafkaClient.keys (fun b : KafkaClient => b.Other)
        (yaml.KafkaClient.unmarshal L) yaml.KafkaClient.marshal
      ∧ yaml.KeepsUnknown yaml.ServerTLS.keys (fun b : ServerTLS => b.Other)
        (yaml.ServerTLS.unmarshal L) yaml.ServerTLS.marshal
      ∧ (∀ i : Nat, ∀ level ∈ yaml.sideMapLevels i,
          yaml.KeepsUnknownAlong L level.1 level.2)
      ∧ (∀ (out : RpkConfig) (m : List (String × Value)), (yaml.keysOf m).Nodup →
          yaml.RpkConfig.unmarshal L out (.map m)
            = yaml.RpkConfig.unmarshal L out
                (.map (m.filter (fun kv => decide (kv.1 ∈ yaml.RpkConfig.keys)))))
      ∧ ∀ (out : SchemaRegistry) (m : List (String × Value)), (yaml.keysOf m).Nodup →
          yaml.SchemaRegistry.unmarshal L out (.map m)
            = yaml.SchemaRegistry.unmarshal L out
                (.map (m.filter (fun kv => decide (kv.1 ∈ yaml.SchemaRegistry.keys)))) := by
  refine ⟨?_, ?_, ?_, ?_, ?_, ?_, ?_, ?_⟩
  · exact yaml.keepsUnknown_of _ _ _ _ (fun out b m => yaml.unmarshal_other_Config L out b m)
      yaml.other_subset_marshal_Config
  · exact yaml.keepsUnknown_of _ _ _ _
      (fun out b m => yaml.unmarshal_other_RedpandaConfig L out b m)
      yaml.other_subset_marshal_RedpandaConfig
  · exact yaml.keepsUnknown_of _ _ _ _ (fun out b m => yaml.unmarshal_other_Pandaproxy L out b m)
      yaml.other_subset_marshal_Pandaproxy
  · exact yaml.keepsUnknown_of _ _ _ _ (fun out b m => yaml.unmarshal_other_KafkaClient L out b m)
      yaml.other_subset_marshal_KafkaClient
  · exact yaml.keepsUnknown_of _ _ _ _ (fun out b m => yaml.unmarshal_other_ServerTLS L out b m)
      yaml.other_subset_marshal_ServerTLS
  · intro i
    simp only [yaml.sideMapLevels, List.forall_mem_cons]
    exact ⟨yaml.along_document L, yaml.along_redpanda L, yaml.along_pandaproxy L,
      yaml.along_pandaproxy_client L, yaml.along_schema_registry_client L,
      yaml.along_redpanda_rpc_server_tls L i, yaml.along_redpanda_kafka_api_tls L i,
      yaml.along_redpanda_admin_api_tls L i, yaml.along_pandaproxy_pandaproxy_api_tls L i,
      yaml.along_schema_registry_schema_registry_api_tls L i,
      yaml.along_pandaproxy_client_broker_tls L,
      yaml.along_schema_registry_client_broker_tls L, fun _ h => absurd h (List.not_mem_nil _)⟩
  · exact fun out m hnd => yaml.unmarshal_ignored_RpkConfig L out m hnd
  · exact fun out m hnd => yaml.unmarshal_ignored_SchemaRegistry L out m hnd

/-- C8, as stated, fails: `rpk` holds the key `custom_flag`, which no field
of `RpkConfig` models, in the sample document; the document is decoded, by
either version of the library, and the `rpk` block of its encoding holds the
keys of the named fields only. -/
theorem yaml.rpk_drops_unknown_key :
    (yaml.Value.get "rpk" yaml.sampleDoc).map (fun r => yaml.keysOf (yaml.Value.entries r))
        = some ["tune_network", "custom_flag"]
      ∧ "custom_flag" ∉ yaml.RpkConfig.keys
      ∧ ∀ L ∈ [yaml.Leaf.v2, yaml.Leaf.v3],
          ((yaml.Config.unmarshal L Config.zero yaml.sampleDoc).bind
              (fun c => yaml.Value.get "rpk" (yaml.Config.marshal c))).map
            (fun r => yaml.keysOf (yaml.Value.entries r))
          = some ["enable_usage_stats", "tune_network", "tune_disk_scheduler",
              "tune_disk_nomerges", "tune_disk_write_cache", "tune_disk_irq", "tune_fstrim",
              "tune_cpu", "tune_aio_events", "tune_clocksource", "tune_swappiness",
              "tune_transparent_hugepages", "enable_memory_locking", "tune_coredump",
              "tune_ballast_file", "overprovisioned"] := by
  refine ⟨by decide, by decide, ?_⟩
  simp only [List.forall_mem_cons]
  exact ⟨by decide, by decide, fun _ h => absurd h (List.not_mem_nil _)⟩

/-! ## The theorems at concrete inputs -/

/-- The data directory `/var/lib/node` yields the lock path
`/var/lib/node/pid.lock`. -/
theorem Config.PIDFile_of_isCleanAbs_sample :
    path.IsCleanAbs Config.sample.Redpanda.Directory
      ∧ Config.sample.PIDFile = "/var/lib/node/pid.lock" :=
  ⟨by decide, Config.PIDFile_of_isCleanAbs Config.sample (by decide)⟩

/-- The zero document has an empty data directory and the lock path
`pid.lock`. -/
theorem Config.PIDFile_of_empty_zero :
    Config.zero.Redpanda.Directory = "" ∧ Config.zero.PIDFile = "pid.lock" :=
  ⟨rfl, Config.PIDFile_of_empty Config.zero rfl⟩

/-- A descriptor with three empty paths on a file system on which every read
fails. -/
theorem tlsConfig_all_empty_failing :
    (TLS.Config tlscfg.Host.lenient (some ⟨"", "", ""⟩) afero.failing).config
        = some ⟨[], none, none⟩
      ∧ (TLS.Config tlscfg.Host.lenient (some ⟨"", "", ""⟩) afero.failing).err = none
      ∧ (TLS.Config tlscfg.Host.lenient (some ⟨"", "", ""⟩) afero.failing).reads = [] :=
  tlsConfig_all_empty tlscfg.Host.lenient ⟨"", "", ""⟩ afero.failing rfl rfl rfl

/-- A certificate without key and without truststore: `IncompleteKeyPair`. -/
theorem tlsConfig_incomplete_cert_only :
    (TLS.Config tlscfg.Host.lenient (some ⟨"", "cert.pem", ""⟩) afero.failing).config = none
      ∧ (TLS.Config tlscfg.Host.lenient (some ⟨"", "cert.pem", ""⟩) afero.failing).err
        = some .IncompleteKeyPair :=
  have h := tlsConfig_incomplete tlscfg.Host.lenient ⟨"", "cert.pem", ""⟩ afero.failing
    (Or.inl ⟨by decide, rfl⟩)
  ⟨h.1, h.2.2.1.mpr (Or.inl rfl)⟩

theorem yaml.distinct_sample_tls :
    yaml.DistinctKeysAlong [.key "redpanda", .key "kafka_api_tls", .idx 0] yaml.sampleDoc := by
  simp [yaml.DistinctKeysAlong, yaml.sampleDoc, yaml.Value.get, yaml.Value.entries,
    yaml.keysOf]

theorem yaml.distinct_sample_broker_tls :
    yaml.DistinctKeysAlong [.key "pandaproxy_client", .key "broker_tls"] yaml.sampleDoc := by
  simp [yaml.DistinctKeysAlong, yaml.sampleDoc, yaml.Value.get, yaml.Value.entries,
    yaml.keysOf]

/-- The sample document is decoded; its encoding holds `extra_feature_flag`
and the float `sampling_ratio` at the top level, `min_tls_version` in the
first TLS block of `redpanda.kafka_api_tls`, and `crl_file` in
`pandaproxy_client.broker_tls`. -/
theorem yaml.other_keeps_unknown_sample :
    ∃ c, yaml.Config.unmarshal yaml.Leaf.v3 Config.zero yaml.sampleDoc = some c
      ∧ ("extra_feature_flag", Value.bool true) ∈ yaml.Value.entries (yaml.Config.marshal c)
      ∧ ("sampling_ratio", Value.float 4602678819172646912)
          ∈ yaml.Value.entries (yaml.Config.marshal c)
      ∧ (∃ t, yaml.Value.at [.key "redpanda", .key "kafka_api_tls", .idx 0]
            (yaml.Config.marshal c) = some t
          ∧ ("min_tls_version", Value.str "v1.3") ∈ yaml.Value.entries t)
      ∧ ∃ t, yaml.Value.at [.key "pandaproxy_client", .key "broker_tls"]
            (yaml.Config.marshal c) = some t
          ∧ ("crl_file", Value.str "/etc/crl.pem") ∈ yaml.Value.entries t := by
  obtain ⟨c, hc⟩ := Option.isSome_iff_exists.mp
    (show (yaml.Config.unmarshal yaml.Leaf.v3 Config.zero yaml.sampleDoc).isSome = true by
      decide)
  have h := yaml.other_keeps_unknown yaml.Leaf.v3
  refine ⟨c, hc, ?_, ?_, ?_, ?_⟩
  · exact (h.1 Config.zero c _ (by decide) rfl hc).2 _ (by simp) (by decide)
  · exact (h.1 Config.zero c _ (by decide) rfl hc).2 _ (by simp) (by decide)
  · exact h.2.2.2.2.2.1 0 ([.key "redpanda", .key "kafka_api_tls", .idx 0], yaml.ServerTLS.keys)
      (by simp [yaml.sideMapLevels]) yaml.sampleDoc c _ yaml.distinct_sample_tls hc rfl _
      (by simp [yaml.Value.entries]) (by decide)
  · exact h.2.2.2.2.2.1 0 ([.key "pandaproxy_client", .key "broker_tls"], yaml.ServerTLS.keys)
      (by simp [yaml.sideMapLevels]) yaml.sampleDoc c _ yaml.distinct_sample_broker_tls hc rfl _
      (by simp [yaml.Value.entries]) (by decide)

/-! ## Further properties of `TLS.Config` and of the codec -/

/-- With a truststore only, read and parsed successfully, `TLS.Config`
returns a configuration that trusts that root and presents no client
certificate; the truststore is the one file read. -/
theorem tlsConfig_truststore_only (h : tlscfg.Host) (t : TLS) (fs : afero.Fs) (ca : Bytes)
    (hk : t.KeyFile = "") (hc : t.CertFile = "") (ht : t.TruststoreFile ≠ "")
    (hread : fs t.TruststoreFile = .ok ca) (hpem : h.appendCertsFromPEM ca = true) :
    TLS.Config h (some t) fs = ⟨some ⟨[], some [ca], none⟩, none, [t.TruststoreFile]⟩ := by
  simp [TLS.Config, tlscfg.New, tlscfg.applyOpts, tlscfg.WithFS, tlscfg.MaybeWithDiskCA,
    tlscfg.MaybeWithDiskKeyPair, tlscfg.cfg.ReadFile, tlscfg.FuncFS, afero.ReadFile,
    tlscfg.WithCA, hk, hc, ht, hread, hpem]

/-- With a certificate and its key and no truststore, both read and
parsed successfully, `TLS.Config` returns a configuration that presents that
key pair and keeps the root set of the host; the certificate and the key are
read, in that order. -/
theorem tlsConfig_key_pair (h : tlscfg.Host) (t : TLS) (fs : afero.Fs) (cert key : Bytes)
    (hk : t.KeyFile ≠ "") (hc : t.CertFile ≠ "") (ht : t.TruststoreFile = "")
    (hcert : fs t.CertFile = .ok cert) (hkey : fs t.KeyFile = .ok key)
    (hpair : h.X509KeyPair cert key = true) :
    TLS.Config h (some t) fs
      = ⟨some ⟨[⟨cert, key⟩], none, none⟩, none, [t.CertFile, t.KeyFile]⟩ := by
  simp [TLS.Config, tlscfg.New, tlscfg.applyOpts, tlscfg.WithFS, tlscfg.MaybeWithDiskCA,
    tlscfg.MaybeWithDiskKeyPair, tlscfg.cfg.ReadFile, tlscfg.FuncFS, afero.ReadFile,
    tlscfg.WithKeyPair, hk, hc, ht, hcert, hkey, hpair]

/-- A truststore that cannot be read makes `TLS.Config` fail with a read
failure that carries the path of the truststore and the error of the file
system, whatever the other two paths are. -/
theorem tlsConfig_truststore_unreadable (h : tlscfg.Host) (t : TLS) (fs : afero.Fs)
    (e : String) (ht : t.TruststoreFile ≠ "") (hread : fs t.TruststoreFile = .error e) :
    TLS.Config h (some t) fs
      = ⟨none, some (.CredentialReadFailure t.TruststoreFile e), [t.TruststoreFile]⟩ := by
  simp [TLS.Config, tlscfg.New, tlscfg.applyOpts, tlscfg.WithFS, tlscfg.MaybeWithDiskCA,
    tlscfg.cfg.ReadFile, tlscfg.FuncFS, afero.ReadFile, ht, hread]

/-- `SchemaRegistry` has no inline map: the entries of a mapping that no
named field of it claims do not reach the decoded block. -/
theorem yaml.schema_registry_drops_unknown (L : yaml.Leaf) (out : SchemaRegistry)
    (m : List (String × Value)) (hnd : (yaml.keysOf m).Nodup) :
    yaml.SchemaRegistry.unmarshal L out (.map m)
      = yaml.SchemaRegistry.unmarshal L out
          (.map (m.filter (fun kv => decide (kv.1 ∈ yaml.SchemaRegistry.keys)))) :=
  yaml.unmarshal_ignored_SchemaRegistry L out m hnd

/-- The sample document, decoded and encoded again, holds the Kafka
listener `0.0.0.0:9092` under `redpanda.kafka_api` as it was written. -/
theorem yaml.sample_kafka_api :
    (((yaml.Config.unmarshal yaml.Leaf.v2 Config.zero yaml.sampleDoc).bind
          (fun c => yaml.Value.get "redpanda" (yaml.Config.marshal c))).bind
        (yaml.Value.get "kafka_api"))
      = some (.seq [.map [("address", .str "0.0.0.0"), ("port", .int 9092)]]) := by
  rfl

/-- A truststore only, on a file system where every file holds one byte. -/
theorem tlsConfig_truststore_only_sample :
    TLS.Config tlscfg.Host.lenient (some ⟨"", "", "ca.pem"⟩) (fun _ => .ok [1])
      = ⟨some ⟨[], some [[1]], none⟩, none, ["ca.pem"]⟩ :=
  tlsConfig_truststore_only tlscfg.Host.lenient ⟨"", "", "ca.pem"⟩ (fun _ => .ok [1]) [1]
    rfl rfl (by decide) rfl rfl

/-- A certificate and its key, on a file system where every file holds one
byte. -/
theorem tlsConfig_key_pair_sample :
    TLS.Config tlscfg.Host.lenient (some ⟨"key.pem", "cert.pem", ""⟩) (fun _ => .ok [1])
      = ⟨some ⟨[⟨[1], [1]⟩], none, none⟩, none, ["cert.pem", "key.pem"]⟩ :=
  tlsConfig_key_pair tlscfg.Host.lenient ⟨"key.pem", "cert.pem", ""⟩ (fun _ => .ok [1]) [1] [1]
    (by decide) (by decide) rfl rfl rfl rfl

/-- Three paths on a file system on which every read fails: the truststore
is the first and only file tried. -/
theorem tlsConfig_truststore_unreadable_sample :
    TLS.Config tlscfg.Host.lenient (some ⟨"key.pem", "cert.pem", "ca.pem"⟩) afero.failing
      = ⟨none, some (.CredentialReadFailure "ca.pem" "file does not exist"), ["ca.pem"]⟩ :=
  tlsConfig_truststore_unreadable tlscfg.Host.lenient ⟨"key.pem", "cert.pem", "ca.pem"⟩
    afero.failing "file does not exist" (by decide) rfl
